import Mathlib

/-!
# LAMMPSReader: a shallow embedding of the dump-file reader

The development follows `lammpsreader.h` / `lammpsreader.cpp`.

Modelling conventions

* `std::string` is a list of characters (`Str`); a text stream is the list of
  its remaining lines (each terminated by a newline in the file) together with
  the `eofbit` of the stream.  `tellg`/`seekg` save and restore that suffix.
* `double` values are exact rationals (`ℚ`).  `int` values are integers; the
  narrowing `static_cast<int>` of a 64-bit header word is `wrap32`.  The
  counter `atoms_total` is a 32-bit `int` like `n_atoms`: `atoms_total++` is
  the two's-complement increment `wrap32 (atoms_total + 1)`.  Incrementing an
  `int` past `2 ^ 31 - 1` is undefined behaviour in C++, so every statement
  about the count is made for fewer than `2 ^ 31` streamed atoms.
* The C library conversions `atoi` and `atof` are parameters of the text
  decoder.
* The `Callback` object is observed through the list of hook events it
  receives, in firing order; a hook does not write to the reader it is handed.
* `ReadFrame` and `ReadBinaryFrame` are modelled on an open file
  (`file.is_open()` holds); a binary stream offers either nothing or one
  complete frame, read without failure of `file.read`.
* `std::vector::operator[]` outside the vector is undefined behaviour; the
  model reports it as the outcome `Outcome.undefined`.
-/

set_option autoImplicit false

namespace LAMMPSReaderNS

/-- The type standing for `std::string`. -/
abbrev Str := List Char

/-! ## explode -/

/-- The call `s.find(" ")`: position of the first space, `none` for `npos`. -/
def find : Str → Option Nat
  | [] => none
  | c :: t => if c = ' ' then some 0 else (find t).map (· + 1)

/-- The `while` loop of `explode` followed by the final push: `s` is the
unread remainder, `v` the tokens collected so far.  Every iteration shortens
`s`, so `s.length + 1` units of fuel are never used up (`none` = out of fuel). -/
def explodeLoop : Nat → Str → List Str → Option (List Str)
  | 0, _, _ => none
  | fuel + 1, s, v =>
    match find s with
    | none => some (if s.isEmpty then v else v ++ [s])
    | some tok_pos =>
      let sub := s.take tok_pos
      let s1 := s.drop (tok_pos + 1)
      explodeLoop fuel s1 (if sub.isEmpty then v else v ++ [sub])

/-- The function `explode(std::string s)`: tokenize on single spaces. -/
def explode (s : Str) : List Str :=
  (explodeLoop (s.length + 1) s []).getD []

/-! ## Data model -/

/-- The record `struct AtomData` of `lammpsreader.h`. -/
structure AtomData where
  id : Int
  type : Int
  mol : Int
  mass : ℚ
  x : ℚ
  y : ℚ
  z : ℚ
  xs : ℚ
  ys : ℚ
  zs : ℚ
  xu : ℚ
  yu : ℚ
  zu : ℚ
  xsu : ℚ
  ysu : ℚ
  zsu : ℚ
  ix : Int
  iy : Int
  iz : Int
  vx : ℚ
  vy : ℚ
  vz : ℚ
  fx : ℚ
  fy : ℚ
  fz : ℚ
  mux : ℚ
  muy : ℚ
  muz : ℚ
  mu : ℚ
  q : ℚ
  deriving DecidableEq

/-- The effect of `memset(&ad, 0, sizeof(AtomData))`. -/
def AtomData.zero : AtomData :=
  { id := 0, type := 0, mol := 0, mass := 0, x := 0, y := 0, z := 0,
    xs := 0, ys := 0, zs := 0, xu := 0, yu := 0, zu := 0,
    xsu := 0, ysu := 0, zsu := 0, ix := 0, iy := 0, iz := 0,
    vx := 0, vy := 0, vz := 0, fx := 0, fy := 0, fz := 0,
    mux := 0, muy := 0, muz := 0, mu := 0, q := 0 }

/-- The enumeration `LAMMPSReader::property`. -/
inductive property where
  | ID | TYPE | MOL | MASS | X | Y | Z | XS | YS | ZS | XU | YU | ZU
  | XSU | YSU | ZSU | IX | IY | IZ | VX | VY | VZ | FX | FY | FZ | Q
  | MUX | MUY | MUZ | MU | NULL_PROPERTY
  deriving DecidableEq, Repr

/-- The macro `AddProperty(prop, str)`, that is
`if(s.compare(str) == 0) { return prop; }`, followed by the rest of the
function body. -/
def AddProperty (s : Str) (prop : property) (str : Str) (rest : property) : property :=
  if s = str then prop else rest

open property in
/-- The function `LAMMPSReader::string_to_property`. -/
def string_to_property (s : Str) : property :=
  AddProperty s ID "id".toList <|
  AddProperty s TYPE "type".toList <|
  AddProperty s MOL "mol".toList <|
  AddProperty s MASS "mass".toList <|
  AddProperty s X "x".toList <|
  AddProperty s Y "y".toList <|
  AddProperty s Z "z".toList <|
  AddProperty s XS "xs".toList <|
  AddProperty s YS "ys".toList <|
  AddProperty s ZS "zs".toList <|
  AddProperty s XU "xu".toList <|
  AddProperty s YU "yu".toList <|
  AddProperty s ZU "zu".toList <|
  AddProperty s XSU "xsu".toList <|
  AddProperty s YSU "ysu".toList <|
  AddProperty s ZSU "zsu".toList <|
  AddProperty s IX "ix".toList <|
  AddProperty s IY "iy".toList <|
  AddProperty s IZ "iz".toList <|
  AddProperty s VX "vx".toList <|
  AddProperty s VY "vy".toList <|
  AddProperty s VZ "vz".toList <|
  AddProperty s FX "fx".toList <|
  AddProperty s FY "fy".toList <|
  AddProperty s FZ "fz".toList <|
  AddProperty s Q "q".toList <|
  AddProperty s MUX "mux".toList <|
  AddProperty s MUY "muy".toList <|
  AddProperty s MUZ "muz".toList <|
  AddProperty s MU "mu".toList <|
  NULL_PROPERTY

/-- The macro `Assign(tag, conv)`, that is
`if(prop.compare(#tag) == 0) { ad.tag= conv(val.c_str()); return true; }`,
followed by the rest of the function body: `assigned` is the record after the
assignment. -/
def Assign (prop tag : Str) (assigned : AtomData) (rest : Option AtomData) :
    Option AtomData :=
  if prop = tag then some assigned else rest

/-- The function `LAMMPSReader::updateAtomData`.  The result `none` is the
C++ `false` (record untouched); `some ad1` is `true` with the updated record. -/
def updateAtomData (atoi : Str → Int) (atof : Str → ℚ)
    (ad : AtomData) (prop val : Str) : Option AtomData :=
  Assign prop "id".toList { ad with id := atoi val } <|
  Assign prop "type".toList { ad with type := atoi val } <|
  Assign prop "mol".toList { ad with mol := atoi val } <|
  Assign prop "mass".toList { ad with mass := atof val } <|
  Assign prop "x".toList { ad with x := atof val } <|
  Assign prop "y".toList { ad with y := atof val } <|
  Assign prop "z".toList { ad with z := atof val } <|
  Assign prop "xs".toList { ad with xs := atof val } <|
  Assign prop "ys".toList { ad with ys := atof val } <|
  Assign prop "zs".toList { ad with zs := atof val } <|
  Assign prop "xu".toList { ad with xu := atof val } <|
  Assign prop "yu".toList { ad with yu := atof val } <|
  Assign prop "zu".toList { ad with zu := atof val } <|
  Assign prop "xsu".toList { ad with xsu := atof val } <|
  Assign prop "ysu".toList { ad with ysu := atof val } <|
  Assign prop "zsu".toList { ad with zsu := atof val } <|
  Assign prop "ix".toList { ad with ix := atoi val } <|
  Assign prop "iy".toList { ad with iy := atoi val } <|
  Assign prop "iz".toList { ad with iz := atoi val } <|
  Assign prop "vx".toList { ad with vx := atof val } <|
  Assign prop "vy".toList { ad with vy := atof val } <|
  Assign prop "vz".toList { ad with vz := atof val } <|
  Assign prop "fx".toList { ad with fx := atof val } <|
  Assign prop "fy".toList { ad with fy := atof val } <|
  Assign prop "fz".toList { ad with fz := atof val } <|
  Assign prop "q".toList { ad with q := atof val } <|
  Assign prop "mux".toList { ad with mux := atof val } <|
  Assign prop "muy".toList { ad with muy := atof val } <|
  Assign prop "muz".toList { ad with muz := atof val } <|
  none

/-- A C array of three elements (`double box_lo[3]`, one row per axis). -/
structure Arr3 (α : Type) where
  e0 : α
  e1 : α
  e2 : α
  deriving DecidableEq

/-- The assignment `a[i]= val` for `i` in `0..2`. -/
def Arr3.set {α : Type} (a : Arr3 α) (i : Nat) (val : α) : Arr3 α :=
  if i = 0 then { a with e0 := val }
  else if i = 1 then { a with e1 := val }
  else { a with e2 := val }

/-- The public data members of `class LAMMPSReader`.  A row of `boundaries`
is the pair (`boundaries[i][0]`, `boundaries[i][1]`): lower and upper side. -/
structure LAMMPSReader where
  boundaries : Arr3 (Char × Char)
  box_lo : Arr3 ℚ
  box_hi : Arr3 ℚ
  last_tstep : Int
  n_atoms : Int
  deriving DecidableEq

/-- The constructor `LAMMPSReader::LAMMPSReader()`. -/
def LAMMPSReader.init : LAMMPSReader :=
  { boundaries := ⟨('u', 'u'), ('u', 'u'), ('u', 'u')⟩,
    box_lo := ⟨0, 0, 0⟩, box_hi := ⟨0, 0, 0⟩,
    last_tstep := -1, n_atoms := 0 }

/-- One call of a `Callback` hook, with the data handed to it. -/
inductive Event where
  | StartOfTimestep
  | BoxBounds (boundaries : Arr3 (Char × Char)) (box_lo box_hi : Arr3 ℚ)
  | AtomLine (ad : AtomData)
  | EndOfTimestep
  deriving DecidableEq

/-- What a call does: `return true`, `return false`, or an out-of-range
`operator[]` (undefined behaviour in C++). -/
inductive Outcome where
  | success
  | failure
  | undefined
  deriving DecidableEq, Repr

/-! ## Text mode -/

/-- An open text `std::ifstream`: the lines not yet read and the `eofbit`. -/
structure TextStream where
  rest : List Str
  eof : Bool
  deriving DecidableEq

/-- The call `std::getline(file, line)`: `none` when nothing can be read,
which also raises `eofbit`. -/
def getline (f : TextStream) : Option Str × TextStream :=
  if f.eof then (none, f)
  else
    match f.rest with
    | [] => (none, { rest := [], eof := true })
    | l :: r => (some l, { rest := r, eof := false })

/-- The `std::map<std::string, int> columns`, newest binding first. -/
abbrev ColumnMap := List (Str × Nat)

/-- The call `columns.count(key)`. -/
def ColumnMap.count (m : ColumnMap) (key : Str) : Nat :=
  if (m.lookup key).isSome then 1 else 0

/-- The expression `columns[key]` read as a value: a missing key is inserted
with value `0`. -/
def ColumnMap.index (m : ColumnMap) (key : Str) : Nat × ColumnMap :=
  match m.lookup key with
  | some i => (i, m)
  | none => (0, (key, 0) :: m)

/-- The loop `for(int i= 2; i < (int)v.size(); i++)` of the `ATOMS` branch;
the list argument is `v` from index `i` on. -/
def declareColumns : List Str → Nat → ColumnMap → List Str → ColumnMap × List Str
  | [], _, columns, avail_columns => (columns, avail_columns)
  | t :: ts, i, columns, avail_columns =>
    declareColumns ts (i + 1) ((t, i - 2) :: columns) (avail_columns ++ [t])

/-- The periodic-boundary `if`/`else if` chain of the text decoder
(`lammpsreader.cpp` lines 220-244), applied after `updateAtomData`. -/
def checkPBC (rd : LAMMPSReader) (property : Str) (ad : AtomData) : AtomData :=
  if property = "x".toList ∧ rd.boundaries.e0.1 = 'p' ∧ ad.x < rd.box_lo.e0 then
    { ad with x := ad.x + (rd.box_hi.e0 - rd.box_lo.e0) }
  else if property = "x".toList ∧ rd.boundaries.e0.2 = 'p' ∧ ad.x ≥ rd.box_hi.e0 then
    { ad with x := ad.x - (rd.box_hi.e0 - rd.box_lo.e0) }
  else if property = "y".toList ∧ rd.boundaries.e1.1 = 'p' ∧ ad.y < rd.box_lo.e1 then
    { ad with y := ad.y + (rd.box_hi.e1 - rd.box_lo.e1) }
  else if property = "y".toList ∧ rd.boundaries.e1.2 = 'p' ∧ ad.y ≥ rd.box_hi.e1 then
    { ad with y := ad.y - (rd.box_hi.e1 - rd.box_lo.e1) }
  else if property = "z".toList ∧ rd.boundaries.e2.1 = 'p' ∧ ad.z < rd.box_lo.e2 then
    { ad with z := ad.z + (rd.box_hi.e2 - rd.box_lo.e2) }
  else if property = "z".toList ∧ rd.boundaries.e2.2 = 'p' ∧ ad.z ≥ rd.box_hi.e2 then
    { ad with z := ad.z - (rd.box_hi.e2 - rd.box_lo.e2) }
  else if property = "xs".toList ∧ rd.boundaries.e0.1 = 'p' ∧ ad.xs < 0 then
    { ad with xs := ad.xs + 1 }
  else if property = "xs".toList ∧ rd.boundaries.e0.2 = 'p' ∧ ad.xs ≥ 1 then
    { ad with xs := ad.xs - 1 }
  else if property = "ys".toList ∧ rd.boundaries.e1.1 = 'p' ∧ ad.ys < 0 then
    { ad with ys := ad.ys + 1 }
  else if property = "ys".toList ∧ rd.boundaries.e1.2 = 'p' ∧ ad.ys ≥ 1 then
    { ad with ys := ad.ys - 1 }
  else if property = "zs".toList ∧ rd.boundaries.e2.1 = 'p' ∧ ad.zs < 0 then
    { ad with zs := ad.zs + 1 }
  else if property = "zs".toList ∧ rd.boundaries.e2.2 = 'p' ∧ ad.zs ≥ 1 then
    { ad with z := ad.z - 1 }
  else ad

/-- The result of the loop over the requested fields of one atom line. -/
inductive FieldsResult where
  | done (columns : ColumnMap) (ad : AtomData)
  | unknownProperty (columns : ColumnMap)
  | outOfRange (columns : ColumnMap)
  deriving DecidableEq

/-- The loop `for(it= args.begin(); it < args.end(); it++)` over the requested
fields of an atom line with tokens `v` (`lammpsreader.cpp` lines 209-245). -/
def processColumns (atoi : Str → Int) (atof : Str → ℚ) (rd : LAMMPSReader)
    (v : List Str) : List Str → ColumnMap → AtomData → FieldsResult
  | [], columns, ad => .done columns ad
  | property :: its, columns, ad =>
    let (col, columns1) := columns.index property
    match v[col]? with
    | none => .outOfRange columns1
    | some tok =>
      match updateAtomData atoi atof ad property tok with
      | none => .unknownProperty columns1
      | some ad1 => processColumns atoi atof rd v its columns1 (checkPBC rd property ad1)

/-- The loop `for(int i= 0; (i < 3) && std::getline(file, line); i++)` reading
the box dimensions.  The flag is `false` for the `return false` of a
malformed line; the reader keeps the bounds stored before that line. -/
def readBoxLines (atof : Str → ℚ) :
    List Nat → LAMMPSReader → TextStream → Bool × LAMMPSReader × TextStream
  | [], rd, f => (true, rd, f)
  | i :: is, rd, f =>
    match getline f with
    | (none, f1) => (true, rd, f1)
    | (some line, f1) =>
      let tokens := explode line
      if tokens.length < 2 then (false, rd, f1)
      else
        readBoxLines atof is
          { rd with box_lo := rd.box_lo.set i (atof (tokens.getD 0 [])),
                    box_hi := rd.box_hi.set i (atof (tokens.getD 1 [])) } f1

/-- The local variables of `ReadFrame` that live across loop iterations,
the reader, the stream and the hook calls made so far. -/
structure LoopState where
  rd : LAMMPSReader
  file : TextStream
  insideTstep : Bool
  columns : ColumnMap
  avail_columns : List Str
  events : List Event

/-- What a call of `ReadFrame` leaves behind. -/
structure Run where
  result : Outcome
  events : List Event
  reader : LAMMPSReader
  file : TextStream
  deriving DecidableEq

/-- The character `s[i]` of a token (`\0` at `i = s.size()`). -/
def charAt (s : Str) (i : Nat) : Char := s.getD i (Char.ofNat 0)

/-- The loop `while(std::getline(file, line))` of `ReadFrame` with the two
statements after it.  `st.file` at the start of an iteration is the position
`line_start`.  Each iteration reads at least one line, so the loop is run
with more fuel than there are lines left (`none` = out of fuel). -/
def readLoop (atoi : Str → Int) (atof : Str → ℚ) (args : List Str) :
    Nat → LoopState → Option Run
  | 0, _ => none
  | fuel + 1, st =>
    match getline st.file with
    | (none, f1) => some ⟨.success, st.events ++ [.EndOfTimestep], st.rd, f1⟩
    | (some line, f1) =>
      let v := explode line
      match v[0]? with
      | none => some ⟨.undefined, st.events, st.rd, f1⟩
      | some v0 =>
        if v0 = "ITEM:".toList then
          match v[1]? with
          | none => some ⟨.undefined, st.events, st.rd, f1⟩
          | some v1 =>
            if v1 = "TIMESTEP".toList then
              if st.insideTstep then
                some ⟨.success, st.events ++ [.EndOfTimestep], st.rd, st.file⟩
              else
                match getline f1 with
                | (some l2, f2) =>
                  readLoop atoi atof args fuel
                    { st with rd := { st.rd with last_tstep := atoi l2 }, file := f2,
                              insideTstep := true,
                              events := st.events ++ [.StartOfTimestep] }
                | (none, f2) =>
                  some ⟨.failure, st.events ++ [.StartOfTimestep], st.rd, f2⟩
            else if v1 = "NUMBER".toList then
              match getline f1 with
              | (some l2, f2) =>
                readLoop atoi atof args fuel
                  { st with rd := { st.rd with n_atoms := atoi l2 }, file := f2 }
              | (none, f2) => some ⟨.failure, st.events, st.rd, f2⟩
            else if v1 = "BOX".toList then
              if v.length < 6 then some ⟨.failure, st.events, st.rd, f1⟩
              else
                let b : Arr3 (Char × Char) :=
                  ⟨(charAt (v.getD 3 []) 0, charAt (v.getD 3 []) 1),
                   (charAt (v.getD 4 []) 0, charAt (v.getD 4 []) 1),
                   (charAt (v.getD 5 []) 0, charAt (v.getD 5 []) 1)⟩
                match readBoxLines atof [0, 1, 2] { st.rd with boundaries := b } f1 with
                | (false, rd1, f2) => some ⟨.failure, st.events, rd1, f2⟩
                | (true, rd1, f2) =>
                  readLoop atoi atof args fuel
                    { st with rd := rd1, file := f2,
                              events := st.events ++
                                [.BoxBounds rd1.boundaries rd1.box_lo rd1.box_hi] }
            else if v1 = "ATOMS".toList then
              let (columns1, avail1) :=
                declareColumns (v.drop 2) 2 st.columns st.avail_columns
              if args.all (fun it => columns1.count it ≠ 0) then
                readLoop atoi atof args fuel
                  { st with file := f1, columns := columns1, avail_columns := avail1 }
              else some ⟨.failure, st.events, st.rd, f1⟩
            else readLoop atoi atof args fuel { st with file := f1 }
        else
          if v.length ≠ st.avail_columns.length then
            some ⟨.failure, st.events, st.rd, f1⟩
          else
            match processColumns atoi atof st.rd v args st.columns AtomData.zero with
            | .outOfRange _ => some ⟨.undefined, st.events, st.rd, f1⟩
            | .unknownProperty _ => some ⟨.failure, st.events, st.rd, f1⟩
            | .done columns1 ad =>
              readLoop atoi atof args fuel
                { st with file := f1, columns := columns1,
                          events := st.events ++ [.AtomLine ad] }

/-- The text branch of `LAMMPSReader::ReadFrame(s, c)` on an open stream:
`rd` holds the data members before the call, `file` the stream. -/
def ReadFrame (atoi : Str → Int) (atof : Str → ℚ) (s : Str)
    (rd : LAMMPSReader) (file : TextStream) : Option Run :=
  let args := explode s
  if file.eof then some ⟨.failure, [], rd, file⟩
  else
    readLoop atoi atof args (file.rest.length + 1)
      { rd := rd, file := file, insideTstep := false, columns := [],
        avail_columns := [], events := [] }

/-! ## Binary mode -/

/-- The narrowing `static_cast<int>` of a 64-bit integer to a 32-bit `int`
(two's complement). -/
def wrap32 (i : Int) : Int := (i + 2 ^ 31) % 2 ^ 32 - 2 ^ 31

/-- The conversion `static_cast<int>(double)`: truncation toward zero (for a
value in the range of `int`). -/
def truncInt (d : ℚ) : Int := d.num.tdiv d.den

/-- One binary frame as laid out in the file, field by field in wire order:
timestep (8 bytes), atom count (8 bytes), triclinic flag, six boundary
codes, six box doubles, the field count, then the processor blocks (the
block count `nprocs` is the length of `blocks`, the buffer size of a block the
length of its list of doubles). -/
structure BinaryFrame where
  tstep : Int
  natoms : Int
  triclinic : Int
  c0 : Int
  c1 : Int
  c2 : Int
  c3 : Int
  c4 : Int
  c5 : Int
  b0 : ℚ
  b1 : ℚ
  b2 : ℚ
  b3 : ℚ
  b4 : ℚ
  b5 : ℚ
  nfields : Int
  blocks : List (List ℚ)
  deriving DecidableEq

/-- The `if(ui.i == 0) ... else if(ui.i == 3)` chain that stores a boundary
letter; another code leaves the stored character `old` as it is. -/
def boundaryLetter (code : Int) (old : Char) : Char :=
  if code = 0 then 'p'
  else if code = 1 then 'f'
  else if code = 2 then 's'
  else if code = 3 then 'm'
  else old

/-- The loop `for(unsigned int i= 0; i < args.size(); i++)` that resolves the
field-spec; `none` is the `return false` at the first unknown identifier. -/
def resolveFields : List Str → Option (List property)
  | [] => some []
  | a :: as =>
    if string_to_property a = property.NULL_PROPERTY then none
    else (resolveFields as).map (fun fs => string_to_property a :: fs)

open property in
/-- The body of the inner loop of `ReadBinaryFrame` up to the end of the
`switch(fields[field])`: a fresh zeroed record `ad` receives the value `val`
in the slot of field `f`.  The result `none` is the `return false` of the
`NULL_PROPERTY` case. -/
def decodeValue (rd : LAMMPSReader) (f : property) (val : ℚ) : Option AtomData :=
  let ad := AtomData.zero
  let ival := truncInt val
  match f with
  | ID => some { ad with id := ival }
  | TYPE => some { ad with type := ival }
  | MOL => some { ad with mol := ival }
  | MASS => some { ad with mass := val }
  | X =>
    if rd.boundaries.e0.1 = 'p' ∧ val < rd.box_lo.e0 then
      some { ad with x := val + (rd.box_hi.e0 - rd.box_lo.e0) }
    else if rd.boundaries.e0.2 = 'p' ∧ val ≥ rd.box_hi.e0 then
      some { ad with x := val - (rd.box_hi.e0 - rd.box_lo.e0) }
    else some { ad with x := val }
  | Y =>
    if rd.boundaries.e1.1 = 'p' ∧ val < rd.box_lo.e1 then
      some { ad with y := val + (rd.box_hi.e1 - rd.box_lo.e1) }
    else if rd.boundaries.e1.2 = 'p' ∧ val ≥ rd.box_hi.e1 then
      some { ad with y := val - (rd.box_hi.e1 - rd.box_lo.e1) }
    else some { ad with y := val }
  | Z =>
    if rd.boundaries.e2.1 = 'p' ∧ val < rd.box_lo.e2 then
      some { ad with z := val + (rd.box_hi.e2 - rd.box_lo.e2) }
    else if rd.boundaries.e2.2 = 'p' ∧ val ≥ rd.box_hi.e2 then
      some { ad with z := val - (rd.box_hi.e2 - rd.box_lo.e2) }
    else some { ad with z := val }
  | XS =>
    if rd.boundaries.e0.1 = 'p' ∧ val < 0 then some { ad with xs := val + 1 }
    else if rd.boundaries.e0.2 = 'p' ∧ val ≥ 1 then some { ad with xs := val - 1 }
    else some { ad with xs := val }
  | YS =>
    if rd.boundaries.e1.1 = 'p' ∧ val < 0 then some { ad with ys := val + 1 }
    else if rd.boundaries.e1.2 = 'p' ∧ val ≥ 1 then some { ad with ys := val - 1 }
    else some { ad with ys := val }
  | ZS =>
    if rd.boundaries.e2.1 = 'p' ∧ val < 0 then some { ad with zs := val + 1 }
    else if rd.boundaries.e2.2 = 'p' ∧ val ≥ 1 then some { ad with zs := val - 1 }
    else some { ad with zs := val }
  | XU => some { ad with xu := val }
  | YU => some { ad with yu := val }
  | ZU => some { ad with zu := val }
  | XSU => some { ad with xsu := val }
  | YSU => some { ad with ysu := val }
  | ZSU => some { ad with zsu := val }
  | IX => some { ad with ix := ival }
  | IY => some { ad with iy := ival }
  | IZ => some { ad with iz := ival }
  | VX => some { ad with vx := val }
  | VY => some { ad with vy := val }
  | VZ => some { ad with vz := val }
  | FX => some { ad with fx := val }
  | FY => some { ad with fy := val }
  | FZ => some { ad with fz := val }
  | MUX => some { ad with mux := val }
  | MUY => some { ad with muy := val }
  | MUZ => some { ad with muz := val }
  | MU => some { ad with mu := val }
  | Q => some { ad with q := val }
  | NULL_PROPERTY => none

/-- The state of the block loops: hook calls so far and the 32-bit counter
`atoms_total`; or the way the function was left early. -/
inductive BlockResult where
  | running (events : List Event) (atoms_total : Int)
  | returnedFalse (events : List Event)
  | outOfRange (events : List Event)

/-- The inner loop `for(int j= 0; j < bufsize; j++)` over the doubles of one
processor block, `field` being the running field index.  The statement
`atoms_total++` on the `int` counter is the 32-bit increment
`wrap32 (atoms_total + 1)`. -/
def readBlock (rd : LAMMPSReader) (fields : List property) (fields_per_atom : Nat) :
    List ℚ → Nat → List Event → Int → BlockResult
  | [], _, events, atoms_total => .running events atoms_total
  | val :: vals, field, events, atoms_total =>
    match fields[field]? with
    | none => .outOfRange events
    | some f =>
      match decodeValue rd f val with
      | none => .returnedFalse events
      | some ad =>
        if field + 1 = fields_per_atom then
          readBlock rd fields fields_per_atom vals 0 (events ++ [.AtomLine ad])
            (wrap32 (atoms_total + 1))
        else readBlock rd fields fields_per_atom vals (field + 1) events atoms_total

/-- The outer loop `for(int i= 0; i < nprocs; i++)`: each block starts with
`field= 0` and goes on with the 32-bit counter `atoms_total` of the blocks
before it. -/
def readBlocks (rd : LAMMPSReader) (fields : List property) (fields_per_atom : Nat) :
    List (List ℚ) → List Event → Int → BlockResult
  | [], events, atoms_total => .running events atoms_total
  | blk :: blks, events, atoms_total =>
    match readBlock rd fields fields_per_atom blk 0 events atoms_total with
    | .running events1 total1 => readBlocks rd fields fields_per_atom blks events1 total1
    | r => r

/-- What a call of `ReadBinaryFrame` leaves behind. -/
structure BinaryRun where
  result : Outcome
  events : List Event
  reader : LAMMPSReader
  deriving DecidableEq

/-- The function `LAMMPSReader::ReadBinaryFrame(args, c)`.  The stream holds
either nothing more (`none`: the first `file.read` fails) or one complete
frame. -/
def ReadBinaryFrame (args : List Str) (rd : LAMMPSReader) :
    Option BinaryFrame → BinaryRun
  | none => ⟨.failure, [], rd⟩
  | some fr =>
    let rd1 := { rd with last_tstep := wrap32 fr.tstep, n_atoms := wrap32 fr.natoms }
    if fr.triclinic ≠ 0 then ⟨.failure, [], rd1⟩
    else
      let b := rd1.boundaries
      let rd2 : LAMMPSReader :=
        { rd1 with
          boundaries :=
            ⟨(boundaryLetter fr.c0 b.e0.1, boundaryLetter fr.c1 b.e0.2),
             (boundaryLetter fr.c2 b.e1.1, boundaryLetter fr.c3 b.e1.2),
             (boundaryLetter fr.c4 b.e2.1, boundaryLetter fr.c5 b.e2.2)⟩,
          box_lo := ⟨fr.b0, fr.b2, fr.b4⟩,
          box_hi := ⟨fr.b1, fr.b3, fr.b5⟩ }
      let fields_per_atom : Nat := (fr.nfields % 2 ^ 32).toNat
      if fields_per_atom ≠ args.length then ⟨.failure, [], rd2⟩
      else
        match resolveFields args with
        | none => ⟨.failure, [], rd2⟩
        | some fields =>
          let events0 : List Event :=
            [.StartOfTimestep, .BoxBounds rd2.boundaries rd2.box_lo rd2.box_hi]
          match readBlocks rd2 fields fields_per_atom fr.blocks events0 0 with
          | .outOfRange events => ⟨.undefined, events, rd2⟩
          | .returnedFalse events => ⟨.failure, events, rd2⟩
          | .running events atoms_total =>
            if atoms_total ≠ rd2.n_atoms then ⟨.failure, events, rd2⟩
            else ⟨.success, events ++ [.EndOfTimestep], rd2⟩

/-! ## Decimal conversions used in the concrete examples -/

/-- The value of the leading decimal digits of `s`, continuing from `acc`. -/
def leadingDigits : Str → Nat → Nat
  | [], acc => acc
  | c :: t, acc =>
    if '0' ≤ c ∧ c ≤ '9' then leadingDigits t (10 * acc + (c.toNat - 48)) else acc

/-- The number of leading decimal digits of `s`. -/
def countDigits : Str → Nat
  | [] => 0
  | c :: t => if '0' ≤ c ∧ c ≤ '9' then countDigits t + 1 else 0

/-- A decimal reading of `atoi` for an optional minus sign followed by digits. -/
def atoiDec (s : Str) : Int :=
  match s with
  | '-' :: t => -(leadingDigits t 0 : Int)
  | _ => (leadingDigits s 0 : Int)

/-- The non-negative decimal number `digits[.digits]` at the start of `s`. -/
def decimalValue (s : Str) : ℚ :=
  let whole : ℚ := leadingDigits s 0
  match s.drop (countDigits s) with
  | '.' :: t => whole + (leadingDigits t 0 : ℚ) / (10 : ℚ) ^ countDigits t
  | _ => whole

/-- A decimal reading of `atof` for an optional minus sign followed by
`digits[.digits]`. -/
def atofDec (s : Str) : ℚ :=
  match s with
  | '-' :: t => -decimalValue t
  | _ => decimalValue s

/-! ## Specification-side definitions -/

/-- The corrector contract in the words of the specification: with range
`[lo, hi)`, "if value < lo and the lower side is periodic, add `(hi-lo)`; if
value ≥ hi and the upper side is periodic, subtract `(hi-lo)`". -/
def correctorContract (lo hi : ℚ) (lower upper : Char) (v : ℚ) : ℚ :=
  if v < lo ∧ lower = 'p' then v + (hi - lo)
  else if v ≥ hi ∧ upper = 'p' then v - (hi - lo)
  else v

open property in
/-- The value held by the slot of a record that a resolved identifier names
(integer slots read as rationals; `NULL_PROPERTY` names no slot). -/
def AtomData.slot (ad : AtomData) : property → ℚ
  | ID => ad.id | TYPE => ad.type | MOL => ad.mol | MASS => ad.mass
  | X => ad.x | Y => ad.y | Z => ad.z | XS => ad.xs | YS => ad.ys | ZS => ad.zs
  | XU => ad.xu | YU => ad.yu | ZU => ad.zu
  | XSU => ad.xsu | YSU => ad.ysu | ZSU => ad.zsu
  | IX => ad.ix | IY => ad.iy | IZ => ad.iz
  | VX => ad.vx | VY => ad.vy | VZ => ad.vz
  | FX => ad.fx | FY => ad.fy | FZ => ad.fz | Q => ad.q
  | MUX => ad.mux | MUY => ad.muy | MUZ => ad.muz | MU => ad.mu
  | NULL_PROPERTY => 0

open property in
/-- The canonical identifier of a property (the `str` of its `AddProperty`). -/
def property.name : property → Str
  | ID => "id".toList | TYPE => "type".toList | MOL => "mol".toList
  | MASS => "mass".toList
  | X => "x".toList | Y => "y".toList | Z => "z".toList
  | XS => "xs".toList | YS => "ys".toList | ZS => "zs".toList
  | XU => "xu".toList | YU => "yu".toList | ZU => "zu".toList
  | XSU => "xsu".toList | YSU => "ysu".toList | ZSU => "zsu".toList
  | IX => "ix".toList | IY => "iy".toList | IZ => "iz".toList
  | VX => "vx".toList | VY => "vy".toList | VZ => "vz".toList
  | FX => "fx".toList | FY => "fy".toList | FZ => "fz".toList
  | Q => "q".toList
  | MUX => "mux".toList | MUY => "muy".toList | MUZ => "muz".toList
  | MU => "mu".toList
  | NULL_PROPERTY => []

open property in
/-- The numeric kind of a slot: `true` for the `int` members of `AtomData`. -/
def property.isInt : property → Bool
  | ID | TYPE | MOL | IX | IY | IZ => true
  | _ => false

/-- The number a text token stands for in a slot of the given kind. -/
def textValue (atoi : Str → Int) (atof : Str → ℚ) (f : property) (tok : Str) : ℚ :=
  if f.isInt then (atoi tok : ℚ) else atof tok

/-- The column index `columns[key]` evaluates to. -/
def ColumnMap.col (m : ColumnMap) (key : Str) : Nat := (m.lookup key).getD 0

/-- Tokens joined by single spaces: one line of a dump file. -/
def joinSp : List Str → Str
  | [] => []
  | [t] => t
  | t :: ts => t ++ ' ' :: joinSp ts

/-- A token: a non-empty string without a space. -/
def isToken (t : Str) : Prop := t ≠ [] ∧ ' ' ∉ t

instance (t : Str) : Decidable (isToken t) := by unfold isToken; infer_instance

/-- The identifiers `updateAtomData` has an `Assign` line for. -/
def textIdentifiers : List Str :=
  ["id".toList, "type".toList, "mol".toList, "mass".toList,
   "x".toList, "y".toList, "z".toList, "xs".toList, "ys".toList, "zs".toList,
   "xu".toList, "yu".toList, "zu".toList, "xsu".toList, "ysu".toList, "zsu".toList,
   "ix".toList, "iy".toList, "iz".toList, "vx".toList, "vy".toList, "vz".toList,
   "fx".toList, "fy".toList, "fz".toList, "q".toList,
   "mux".toList, "muy".toList, "muz".toList]

/-- One frame of a text dump: the timestep line, the atom-count line, the
three boundary tokens of the `BOX BOUNDS` tag line, the `lo hi` tokens of the
three box lines, the column names of the `ATOMS` tag line, and the tokens of
every atom line. -/
structure TextFrame where
  tstep : Str
  natoms : Str
  bound_x : Str
  bound_y : Str
  bound_z : Str
  xlo : Str
  xhi : Str
  ylo : Str
  yhi : Str
  zlo : Str
  zhi : Str
  columns : List Str
  atoms : List (List Str)
  deriving DecidableEq

/-- The lines of a frame as written in the dump file. -/
def TextFrame.lines (fr : TextFrame) : List Str :=
  [ "ITEM: TIMESTEP".toList, fr.tstep,
    "ITEM: NUMBER OF ATOMS".toList, fr.natoms,
    joinSp ["ITEM:".toList, "BOX".toList, "BOUNDS".toList,
            fr.bound_x, fr.bound_y, fr.bound_z],
    joinSp [fr.xlo, fr.xhi], joinSp [fr.ylo, fr.yhi], joinSp [fr.zlo, fr.zhi],
    joinSp ("ITEM:".toList :: "ATOMS".toList :: fr.columns) ]
  ++ fr.atoms.map joinSp

/-- A well-formed frame for the field-spec `args`: every field of a line is a
token, every atom line has one token per declared column and does not start
with the tag marker, and every requested identifier is a declared column that
the text decoder has an `Assign` line for. -/
def TextFrame.WellFormed (fr : TextFrame) (args : List Str) : Prop :=
  isToken fr.bound_x ∧ isToken fr.bound_y ∧ isToken fr.bound_z ∧
  isToken fr.xlo ∧ isToken fr.xhi ∧ isToken fr.ylo ∧ isToken fr.yhi ∧
  isToken fr.zlo ∧ isToken fr.zhi ∧
  (∀ c ∈ fr.columns, isToken c) ∧
  (∀ a ∈ fr.atoms, a.length = fr.columns.length ∧ (∀ t ∈ a, isToken t) ∧
      a ≠ [] ∧ a.head? ≠ some "ITEM:".toList) ∧
  (∀ p ∈ args, p ∈ fr.columns ∧ p ∈ textIdentifiers)

instance (fr : TextFrame) (args : List Str) : Decidable (fr.WellFormed args) := by
  unfold TextFrame.WellFormed; infer_instance

/-- The data members of the reader once the header of a frame is decoded. -/
def TextFrame.reader (atoi : Str → Int) (atof : Str → ℚ) (fr : TextFrame) :
    LAMMPSReader :=
  { boundaries := ⟨(charAt fr.bound_x 0, charAt fr.bound_x 1),
                   (charAt fr.bound_y 0, charAt fr.bound_y 1),
                   (charAt fr.bound_z 0, charAt fr.bound_z 1)⟩,
    box_lo := ⟨atof fr.xlo, atof fr.ylo, atof fr.zlo⟩,
    box_hi := ⟨atof fr.xhi, atof fr.yhi, atof fr.zhi⟩,
    last_tstep := atoi fr.tstep,
    n_atoms := atoi fr.natoms }

/-- The column map built from the `ATOMS` tag line of a frame. -/
def TextFrame.columnMap (fr : TextFrame) : ColumnMap :=
  (declareColumns fr.columns 2 [] []).1

/-- The record decoded from the atom line with tokens `a` of a frame. -/
def TextFrame.record (atoi : Str → Int) (atof : Str → ℚ) (fr : TextFrame)
    (args : List Str) (a : List Str) : AtomData :=
  match processColumns atoi atof (fr.reader atoi atof) a args fr.columnMap AtomData.zero with
  | .done _ ad => ad
  | _ => AtomData.zero

/-- The hook calls a frame stands for: start, box bounds, one atom line per
atom in file order, end. -/
def TextFrame.events (atoi : Str → Int) (atof : Str → ℚ) (fr : TextFrame)
    (args : List Str) : List Event :=
  [Event.StartOfTimestep,
   Event.BoxBounds (fr.reader atoi atof).boundaries (fr.reader atoi atof).box_lo
     (fr.reader atoi atof).box_hi]
  ++ fr.atoms.map (fun a => Event.AtomLine (fr.record atoi atof args a))
  ++ [Event.EndOfTimestep]

/-- The text stream holding the given frames one after the other. -/
def streamOf (frames : List TextFrame) : TextStream :=
  { rest := frames.flatMap TextFrame.lines, eof := false }

/-- The call number `k + 1` in a sequence of `ReadFrame` calls on one reader
and stream, each call starting from what the call before left behind. -/
def nthCall (atoi : Str → Int) (atof : Str → ℚ) (s : Str) :
    Nat → LAMMPSReader → TextStream → Option Run
  | 0, rd, file => ReadFrame atoi atof s rd file
  | k + 1, rd, file =>
    match ReadFrame atoi atof s rd file with
    | none => none
    | some r => nthCall atoi atof s k r.reader r.file

/-- The hook calls of the first `n` calls of `ReadFrame`, in firing order. -/
def traceOfCalls (atoi : Str → Int) (atof : Str → ℚ) (s : Str) :
    Nat → LAMMPSReader → TextStream → Option (List Event)
  | 0, _, _ => some []
  | n + 1, rd, file =>
    match ReadFrame atoi atof s rd file with
    | none => none
    | some r =>
      (traceOfCalls atoi atof s n r.reader r.file).map (fun evs => r.events ++ evs)

/-- The records handed to the atom-line hook among a list of hook calls. -/
def atomLines : List Event → List AtomData
  | [] => []
  | .AtomLine ad :: evs => ad :: atomLines evs
  | _ :: evs => atomLines evs

/-- The stream a successful call leaves behind when `frames` are still unread:
positioned at the next marker line, or exhausted with `eofbit` raised. -/
def leftover (frames : List TextFrame) : TextStream :=
  if frames = [] then ⟨[], true⟩ else streamOf frames

/-- The slots the periodic-boundary chain of the text decoder can write. -/
def property.isWrapped : property → Bool
  | .X | .Y | .Z | .XS | .YS | .ZS => true
  | _ => false

/-- The number of complete atoms of `k` values each in the processor blocks
(the field index restarts at every block). -/
def streamedAtoms (k : Nat) (blocks : List (List ℚ)) : Nat :=
  (blocks.map (fun blk => blk.length / k)).sum

/-- The data members of the reader once the header of a binary frame with a
zero triclinic flag is decoded, `rd` being the members before the call. -/
def BinaryFrame.reader (fr : BinaryFrame) (rd : LAMMPSReader) : LAMMPSReader :=
  { boundaries :=
      ⟨(boundaryLetter fr.c0 rd.boundaries.e0.1, boundaryLetter fr.c1 rd.boundaries.e0.2),
       (boundaryLetter fr.c2 rd.boundaries.e1.1, boundaryLetter fr.c3 rd.boundaries.e1.2),
       (boundaryLetter fr.c4 rd.boundaries.e2.1, boundaryLetter fr.c5 rd.boundaries.e2.2)⟩,
    box_lo := ⟨fr.b0, fr.b2, fr.b4⟩,
    box_hi := ⟨fr.b1, fr.b3, fr.b5⟩,
    last_tstep := wrap32 fr.tstep,
    n_atoms := wrap32 fr.natoms }

/-- The two hook calls `ReadBinaryFrame` makes before the processor blocks. -/
def BinaryFrame.opening (fr : BinaryFrame) (rd : LAMMPSReader) : List Event :=
  [Event.StartOfTimestep,
   Event.BoxBounds (fr.reader rd).boundaries (fr.reader rd).box_lo (fr.reader rd).box_hi]

open property in
/-- What the periodic-boundary chain of the text decoder, run for the field
`f` itself, makes of the value `v` held by the slot of `f`. -/
def wrapSlot (rd : LAMMPSReader) : property → ℚ → ℚ
  | X, v => correctorContract rd.box_lo.e0 rd.box_hi.e0 rd.boundaries.e0.1 rd.boundaries.e0.2 v
  | Y, v => correctorContract rd.box_lo.e1 rd.box_hi.e1 rd.boundaries.e1.1 rd.boundaries.e1.2 v
  | Z, v => correctorContract rd.box_lo.e2 rd.box_hi.e2 rd.boundaries.e2.1 rd.boundaries.e2.2 v
  | XS, v => correctorContract 0 1 rd.boundaries.e0.1 rd.boundaries.e0.2 v
  | YS, v => correctorContract 0 1 rd.boundaries.e1.1 rd.boundaries.e1.2 v
  | ZS, v => if rd.boundaries.e2.1 = 'p' ∧ v < 0 then v + 1 else v
  | _, v => v

/-! ## Concrete inputs and auxiliary predicates -/

/-- A reader whose box is `[0, 10)` on every axis with all six sides periodic. -/
def periodicBox10 : LAMMPSReader :=
  { boundaries := ⟨('p', 'p'), ('p', 'p'), ('p', 'p')⟩,
    box_lo := ⟨0, 0, 0⟩, box_hi := ⟨10, 10, 10⟩, last_tstep := 0, n_atoms := 1 }

/-- A binary frame of one atom with the two fields `id x`: one processor block
holding the doubles `7.0 3.0`; box `[0, 10)`, fixed boundaries. -/
def binaryFrameIdX : BinaryFrame :=
  { tstep := 0, natoms := 1, triclinic := 0,
    c0 := 1, c1 := 1, c2 := 1, c3 := 1, c4 := 1, c5 := 1,
    b0 := 0, b1 := 10, b2 := 0, b3 := 10, b4 := 0, b5 := 10,
    nfields := 2, blocks := [[7, 3]] }

/-- A text frame with columns `z zs` and the single atom line `5 1.5`; box
`[0, 10)`, periodic on every side. -/
def textFrameZZs : TextFrame :=
  { tstep := "0".toList, natoms := "1".toList,
    bound_x := "pp".toList, bound_y := "pp".toList, bound_z := "pp".toList,
    xlo := "0".toList, xhi := "10".toList, ylo := "0".toList, yhi := "10".toList,
    zlo := "0".toList, zhi := "10".toList,
    columns := ["z".toList, "zs".toList],
    atoms := [["5".toList, "1.5".toList]] }

/-- A text frame with the column `zs` and the single atom line `1.5`; box
`[0, 10)`, periodic on every side. -/
def textFrameZs : TextFrame :=
  { textFrameZZs with columns := ["zs".toList], atoms := [["1.5".toList]] }

/-- The value `v` is at most one box length outside the range `[lo, hi)`. -/
def withinOneLength (lo hi v : ℚ) : Prop :=
  lo - (hi - lo) ≤ v ∧ v < hi + (hi - lo)

/-- A text frame of two atoms with columns `id x`, timestep 100, box
`[0, 10)` periodic on every side. -/
def textFrameA : TextFrame :=
  { tstep := "100".toList, natoms := "2".toList,
    bound_x := "pp".toList, bound_y := "pp".toList, bound_z := "pp".toList,
    xlo := "0".toList, xhi := "10".toList, ylo := "0".toList, yhi := "10".toList,
    zlo := "0".toList, zhi := "10".toList,
    columns := ["id".toList, "x".toList],
    atoms := [["1".toList, "11.0".toList], ["2".toList, "-1.0".toList]] }

/-- A text frame of one atom with columns `id x`, timestep 200. -/
def textFrameB : TextFrame :=
  { textFrameA with tstep := "200".toList, natoms := "1".toList,
                    atoms := [["1".toList, "2.5".toList]] }

/-- Whether a hook call is `StartOfTimestep`. -/
def Event.isStart : Event → Bool
  | .StartOfTimestep => true
  | _ => false

/-- Whether a hook call is `BoxBounds`. -/
def Event.isBoxBounds : Event → Bool
  | .BoxBounds _ _ _ => true
  | _ => false

/-- Whether a hook call is `EndOfTimestep`. -/
def Event.isEnd : Event → Bool
  | .EndOfTimestep => true
  | _ => false

/-- A binary frame declaring `2 ^ 32` atoms, one field, no processor block. -/
def binaryFrameHugeCount : BinaryFrame :=
  { binaryFrameIdX with natoms := 2 ^ 32, nfields := 1, blocks := [] }

/-- A binary frame declaring no field and no atom, with one value in its one
processor block. -/
def binaryFrameNoField : BinaryFrame :=
  { binaryFrameIdX with natoms := 0, nfields := 0, blocks := [[1]] }

/-- A binary frame with a non-zero triclinic flag declaring one atom, with no
processor block. -/
def binaryFrameTriclinic : BinaryFrame :=
  { binaryFrameIdX with triclinic := 1, nfields := 1, blocks := [] }

/-- A binary frame declaring 100 atoms of one field whose single processor
block holds 99 values. -/
def binaryFrame99of100 : BinaryFrame :=
  { binaryFrameIdX with natoms := 100, nfields := 1, blocks := [List.replicate 99 1] }

/-! ## Rejected and irregular inputs -/

/-- A frame with the five sections in order whose line fields are tokens and
whose atom lines have one token per declared column and do not start with
the tag marker; nothing is asked of the field-spec. -/
def TextFrame.Shaped (fr : TextFrame) : Prop :=
  isToken fr.bound_x ∧ isToken fr.bound_y ∧ isToken fr.bound_z ∧
  isToken fr.xlo ∧ isToken fr.xhi ∧ isToken fr.ylo ∧ isToken fr.yhi ∧
  isToken fr.zlo ∧ isToken fr.zhi ∧
  (∀ c ∈ fr.columns, isToken c) ∧
  (∀ a ∈ fr.atoms, a.length = fr.columns.length ∧ (∀ t ∈ a, isToken t) ∧
      a ≠ [] ∧ a.head? ≠ some "ITEM:".toList)

instance (fr : TextFrame) : Decidable fr.Shaped := by
  unfold TextFrame.Shaped; infer_instance

/-- The hook calls fired while the header of a text frame is decoded. -/
def TextFrame.opening (atoi : Str → Int) (atof : Str → ℚ) (fr : TextFrame) :
    List Event :=
  [Event.StartOfTimestep,
   Event.BoxBounds (fr.reader atoi atof).boundaries (fr.reader atoi atof).box_lo
     (fr.reader atoi atof).box_hi]

/-- The thirty identifiers of the `AddProperty` lines of `string_to_property`,
in source order. -/
def canonicalIdentifiers : List Str :=
  ["id".toList, "type".toList, "mol".toList, "mass".toList,
   "x".toList, "y".toList, "z".toList, "xs".toList, "ys".toList, "zs".toList,
   "xu".toList, "yu".toList, "zu".toList, "xsu".toList, "ysu".toList, "zsu".toList,
   "ix".toList, "iy".toList, "iz".toList, "vx".toList, "vy".toList, "vz".toList,
   "fx".toList, "fy".toList, "fz".toList, "q".toList,
   "mux".toList, "muy".toList, "muz".toList, "mu".toList]

open property in
/-- The thirty enumerators of `property` other than `NULL_PROPERTY`, in the
order of the header file. -/
def canonicalSlots : List property :=
  [ID, TYPE, MOL, MASS, X, Y, Z, XS, YS, ZS, XU, YU, ZU, XSU, YSU, ZSU,
   IX, IY, IZ, VX, VY, VZ, FX, FY, FZ, Q, MUX, MUY, MUZ, MU]

/-- A binary frame declaring three fields per atom. -/
def binaryFrameThreeFields : BinaryFrame :=
  { binaryFrameIdX with nfields := 3, blocks := [[7, 3, 1]] }

/-- A text frame declaring no atom whose `ATOMS` tag line has the single
column `foo`, and no atom line. -/
def textFrameFooEmpty : TextFrame :=
  { textFrameA with natoms := "0".toList, columns := ["foo".toList], atoms := [] }

/-- A text frame with columns `id foo` and one atom line. -/
def textFrameFoo : TextFrame :=
  { textFrameA with natoms := "1".toList, columns := ["id".toList, "foo".toList],
                    atoms := [["1".toList, "7".toList]] }

/-- A text frame declaring three atoms that holds two atom lines. -/
def textFrameShort : TextFrame :=
  { textFrameA with natoms := "3".toList }

/-- A text dump of one frame with a triclinic box: the `BOX BOUNDS` tag line
carries `xy xz yz` before the boundary tokens and every box line a third
number. -/
def triclinicTextStream : TextStream :=
  { rest := ["ITEM: TIMESTEP".toList, "0".toList,
             "ITEM: NUMBER OF ATOMS".toList, "1".toList,
             "ITEM: BOX BOUNDS xy xz yz pp pp pp".toList,
             "0 10 0".toList, "0 10 0".toList, "0 10 0".toList,
             "ITEM: ATOMS id".toList, "1".toList],
    eof := false }

/-! ## Tokens, boundary codes and field indices -/

/-- In the words of the specification: the maximal non-empty space-free
substrings of `s` in order of occurrence, that is the pieces of `s` between
its spaces with the empty pieces left out. -/
def maximalTokens (s : Str) : List Str :=
  (s.splitOn ' ').filter (fun t => !t.isEmpty)

/-- In the words of the specification: the letter of a boundary code in
`0..3`, "0 periodic, 1 fixed, 2 shrink-wrapped, 3 minimum-image". -/
def letterOfCode (code : Int) : Char :=
  if code = 0 then 'p' else if code = 1 then 'f' else if code = 2 then 's' else 'm'

/-- The values the running index `field` takes at the successive doubles of
one processor block, following `if(++field == fields_per_atom) field= 0`. -/
def fieldTrace (fields_per_atom : Nat) : List ℚ → Nat → List Nat
  | [], _ => []
  | _ :: vals, field =>
    field :: fieldTrace fields_per_atom vals
      (if field + 1 = fields_per_atom then 0 else field + 1)

/-- The hook calls made when the block loops are left in the given way. -/
def BlockResult.events : BlockResult → List Event
  | .running events _ => events
  | .returnedFalse events => events
  | .outOfRange events => events

/-- A binary frame whose timestep id and atom count do not fit 32 bits. -/
def binaryFrameWideHeader : BinaryFrame :=
  { binaryFrameIdX with tstep := 2 ^ 32 + 5, natoms := 2 ^ 32 + 1 }

end LAMMPSReaderNS

/-! ## Lemmas: explode -/

namespace LAMMPSReaderNS

theorem find_none_of_not_mem : ∀ (t : Str), ' ' ∉ t → find t = none
  | [], _ => rfl
  | c :: t, h => by
    have hc : c ≠ ' ' := fun e => h (by simp [e])
    have ht : ' ' ∉ t := fun e => h (by simp [e])
    simp [find, hc, find_none_of_not_mem t ht]

theorem find_append_space : ∀ (t rest : Str), ' ' ∉ t →
    find (t ++ ' ' :: rest) = some t.length
  | [], rest, _ => by simp [find]
  | c :: t, rest, h => by
    have hc : c ≠ ' ' := fun e => h (by simp [e])
    have ht : ' ' ∉ t := fun e => h (by simp [e])
    simp [find, hc, find_append_space t rest ht]

theorem joinSp_cons_cons (t u : Str) (ts : List Str) :
    joinSp (t :: u :: ts) = t ++ ' ' :: joinSp (u :: ts) := rfl

theorem explodeLoop_joinSp : ∀ (ts : List Str) (fuel : Nat) (v : List Str),
    (∀ t ∈ ts, isToken t) → (joinSp ts).length < fuel →
    explodeLoop fuel (joinSp ts) v = some (v ++ ts)
  | [], fuel, v, _, hf => by
    obtain ⟨n, rfl⟩ : ∃ n, fuel = n + 1 := ⟨fuel - 1, by omega⟩
    simp [explodeLoop, joinSp, find]
  | [t], fuel, v, h, hf => by
    obtain ⟨n, rfl⟩ : ∃ n, fuel = n + 1 := ⟨fuel - 1, by omega⟩
    have ht := h t (by simp)
    simp [explodeLoop, joinSp, find_none_of_not_mem t ht.2, ht.1]
  | t :: u :: ts, fuel, v, h, hf => by
    obtain ⟨n, rfl⟩ : ∃ n, fuel = n + 1 := ⟨fuel - 1, by omega⟩
    have ht := h t (by simp)
    have hrest : ∀ x ∈ u :: ts, isToken x := fun x hx => h x (by simp at hx ⊢; tauto)
    rw [joinSp_cons_cons] at hf ⊢
    have hlen : (joinSp (u :: ts)).length < n := by
      simp at hf; omega
    have ih := explodeLoop_joinSp (u :: ts) n (v ++ [t]) hrest hlen
    simp [explodeLoop, find_append_space t _ ht.2, ht.1, ih]

theorem explode_joinSp (ts : List Str) (h : ∀ t ∈ ts, isToken t) :
    explode (joinSp ts) = ts := by
  simp [explode, explodeLoop_joinSp ts _ [] h (Nat.lt_succ_self _)]


theorem find_lt : ∀ (s : Str) (p : Nat), find s = some p → p < s.length
  | [], p, h => by simp [find] at h
  | c :: t, p, h => by
    simp only [find] at h
    split_ifs at h with hc
    · cases h; simp
    · obtain ⟨q, hq, rfl⟩ := Option.map_eq_some'.mp h
      have := find_lt t q hq
      simp; omega

/-- The loop of `explode` terminates: with more fuel than characters it
returns a token list. -/
theorem explodeLoop_isSome : ∀ (fuel : Nat) (s : Str) (v : List Str),
    s.length < fuel → (explodeLoop fuel s v).isSome
  | 0, _, _, h => by omega
  | fuel + 1, s, v, h => by
    rw [explodeLoop]
    cases hf : find s with
    | none => simp
    | some p =>
      have hp := find_lt s p hf
      simp only
      apply explodeLoop_isSome
      simp
      omega

/-! ## Lemmas: the text loop on well-formed frames -/

theorem declareColumns_avail : ∀ (ts : List Str) (i : Nat) (cm : ColumnMap) (av : List Str),
    (declareColumns ts i cm av).2 = av ++ ts
  | [], _, _, _ => by simp [declareColumns]
  | t :: ts, i, cm, av => by
    simp [declareColumns, declareColumns_avail ts]

theorem declareColumns_lookup : ∀ (ts : List Str) (i : Nat) (cm : ColumnMap) (av : List Str)
    (p : Str) (c : Nat), 2 ≤ i → (declareColumns ts i cm av).1.lookup p = some c →
    cm.lookup p = some c ∨ (p ∈ ts ∧ i - 2 ≤ c ∧ c < i - 2 + ts.length)
  | [], _, _, _, _, _, _, h => Or.inl (by simpa [declareColumns] using h)
  | t :: ts, i, cm, av, p, c, hi, h => by
    rw [declareColumns] at h
    rcases declareColumns_lookup ts (i + 1) _ _ p c (by omega) h with h1 | ⟨h1, h2, h3⟩
    · by_cases hpt : p = t
      · subst hpt
        simp [List.lookup] at h1
        right; simp; omega
      · have : (p == t) = false := by simpa using hpt
        simp [List.lookup, this] at h1
        exact Or.inl h1
    · right; simp [h1]; simp at h3; omega

theorem declareColumns_isSome : ∀ (ts : List Str) (i : Nat) (cm : ColumnMap) (av : List Str)
    (p : Str), (p ∈ ts ∨ (cm.lookup p).isSome) → ((declareColumns ts i cm av).1.lookup p).isSome
  | [], _, _, _, _, h => by simpa [declareColumns] using h
  | t :: ts, i, cm, av, p, h => by
    rw [declareColumns]
    apply declareColumns_isSome ts
    by_cases hpt : p = t
    · right; subst hpt; simp [List.lookup]
    · have : (p == t) = false := by simpa using hpt
      rcases h with h | h
      · left; simpa [hpt] using h
      · right; simpa [List.lookup, this] using h

theorem columnMap_lookup (fr : TextFrame) (p : Str) (hp : p ∈ fr.columns) :
    ∃ c, fr.columnMap.lookup p = some c ∧ c < fr.columns.length := by
  have h1 := declareColumns_isSome fr.columns 2 [] [] p (Or.inl hp)
  obtain ⟨c, hc⟩ := Option.isSome_iff_exists.mp h1
  refine ⟨c, hc, ?_⟩
  rcases declareColumns_lookup fr.columns 2 [] [] p c (le_refl 2) hc with h | ⟨_, _, h⟩
  · simp at h
  · simpa using h

theorem updateAtomData_isSome (atoi : Str → Int) (atof : Str → ℚ) (ad : AtomData)
    (p tok : Str) (hp : p ∈ textIdentifiers) :
    ∃ ad1, updateAtomData atoi atof ad p tok = some ad1 := by
  simp only [textIdentifiers, List.mem_cons, List.mem_singleton, List.not_mem_nil, or_false] at hp
  rcases hp with h | h | h | h | h | h | h | h | h | h | h | h | h | h | h | h | h | h | h | h
    | h | h | h | h | h | h | h | h | h <;> subst h <;> simp [updateAtomData, Assign]

theorem processColumns_done (atoi : Str → Int) (atof : Str → ℚ) (rd : LAMMPSReader)
    (v : List Str) (cm : ColumnMap) :
    ∀ (args : List Str) (ad : AtomData),
    (∀ p ∈ args, p ∈ textIdentifiers ∧ ∃ c, cm.lookup p = some c ∧ c < v.length) →
    ∃ ad1, processColumns atoi atof rd v args cm ad = .done cm ad1
  | [], ad, _ => ⟨ad, rfl⟩
  | p :: args, ad, h => by
    obtain ⟨hp, c, hc, hlt⟩ := h p (by simp)
    obtain ⟨ad1, h1⟩ := updateAtomData_isSome atoi atof ad p v[c] hp
    obtain ⟨ad2, h2⟩ := processColumns_done atoi atof rd v cm args (checkPBC rd p ad1)
      (fun q hq => h q (by simp [hq]))
    refine ⟨ad2, ?_⟩
    simp [processColumns, ColumnMap.index, hc, hlt, h1, h2]


theorem declareColumns_frame (fr : TextFrame) :
    declareColumns fr.columns 2 [] [] = (fr.columnMap, fr.columns) := by
  have h := declareColumns_avail fr.columns 2 [] []
  simp only [List.nil_append] at h
  exact Prod.ext rfl h

theorem args_all_count (fr : TextFrame) (args : List Str)
    (h : ∀ p ∈ args, p ∈ fr.columns ∧ p ∈ textIdentifiers) :
    args.all (fun it => decide (fr.columnMap.count it ≠ 0)) = true := by
  rw [List.all_eq_true]
  intro p hp
  obtain ⟨c, hc, _⟩ := columnMap_lookup fr p (h p hp).1
  simp [ColumnMap.count, hc]

section
variable (atoi : Str → Int) (atof : Str → ℚ)

theorem getline_cons (l : Str) (r : List Str) :
    getline ⟨l :: r, false⟩ = (some l, ⟨r, false⟩) := rfl

theorem getline_nil : getline ⟨[], false⟩ = (none, ⟨[], true⟩) := rfl

theorem explode_marker :
    explode "ITEM: TIMESTEP".toList = ["ITEM:".toList, "TIMESTEP".toList] := by decide

theorem explode_number :
    explode "ITEM: NUMBER OF ATOMS".toList =
      ["ITEM:".toList, "NUMBER".toList, "OF".toList, "ATOMS".toList] := by decide

theorem readLoop_eof (args : List Str) (fuel : Nat) (rd : LAMMPSReader) (ins : Bool)
    (cm : ColumnMap) (av : List Str) (ev : List Event) :
    readLoop atoi atof args (fuel + 1) ⟨rd, ⟨[], false⟩, ins, cm, av, ev⟩ =
      some ⟨.success, ev ++ [.EndOfTimestep], rd, ⟨[], true⟩⟩ := by
  rw [readLoop]
  simp only [getline_nil]

theorem readLoop_marker (args : List Str) (fuel : Nat) (rd : LAMMPSReader)
    (line : Str) (more : List Str) (cm : ColumnMap) (av : List Str) (ev : List Event)
    (hv : explode line = ["ITEM:".toList, "TIMESTEP".toList]) :
    readLoop atoi atof args (fuel + 1) ⟨rd, ⟨line :: more, false⟩, true, cm, av, ev⟩ =
      some ⟨.success, ev ++ [.EndOfTimestep], rd, ⟨line :: more, false⟩⟩ := by
  rw [readLoop]
  simp only [getline_cons, hv]
  simp

theorem readLoop_timestep (args : List Str) (fuel : Nat) (rd : LAMMPSReader)
    (line l2 : Str) (more : List Str) (cm : ColumnMap) (av : List Str) (ev : List Event)
    (hv : explode line = ["ITEM:".toList, "TIMESTEP".toList]) :
    readLoop atoi atof args (fuel + 1) ⟨rd, ⟨line :: l2 :: more, false⟩, false, cm, av, ev⟩ =
      readLoop atoi atof args fuel
        ⟨{ rd with last_tstep := atoi l2 }, ⟨more, false⟩, true, cm, av,
          ev ++ [.StartOfTimestep]⟩ := by
  rw [readLoop]
  simp only [getline_cons, hv]
  simp

theorem readLoop_numberOfAtoms (args : List Str) (fuel : Nat) (rd : LAMMPSReader)
    (line l2 : Str) (more : List Str) (ins : Bool) (cm : ColumnMap) (av : List Str)
    (ev : List Event) (vs : List Str)
    (hv : explode line = "ITEM:".toList :: "NUMBER".toList :: vs) :
    readLoop atoi atof args (fuel + 1) ⟨rd, ⟨line :: l2 :: more, false⟩, ins, cm, av, ev⟩ =
      readLoop atoi atof args fuel
        ⟨{ rd with n_atoms := atoi l2 }, ⟨more, false⟩, ins, cm, av, ev⟩ := by
  rw [readLoop]
  simp only [getline_cons, hv]
  simp

theorem readLoop_atomLine (args : List Str) (fuel : Nat) (rd : LAMMPSReader)
    (line : Str) (more : List Str) (ins : Bool) (cm : ColumnMap) (av : List Str)
    (ev : List Event) (t : Str) (ts : List Str) (ad : AtomData)
    (hv : explode line = t :: ts) (ht : t ≠ "ITEM:".toList)
    (hlen : (t :: ts).length = av.length)
    (had : processColumns atoi atof rd (t :: ts) args cm AtomData.zero = .done cm ad) :
    readLoop atoi atof args (fuel + 1) ⟨rd, ⟨line :: more, false⟩, ins, cm, av, ev⟩ =
      readLoop atoi atof args fuel
        ⟨rd, ⟨more, false⟩, ins, cm, av, ev ++ [.AtomLine ad]⟩ := by
  rw [readLoop]
  simp only [getline_cons, hv, List.getElem?_cons_zero, ht, ↓reduceIte, hlen, ne_eq,
    not_true_eq_false, had]

theorem readLoop_atomLines (args : List Str) (fr : TextFrame)
    (hargs : ∀ p ∈ args, p ∈ fr.columns ∧ p ∈ textIdentifiers) :
    ∀ (as : List (List Str)) (more : List Str) (fuel : Nat) (ev : List Event),
    (∀ a ∈ as, a.length = fr.columns.length ∧ (∀ t ∈ a, isToken t) ∧
      a ≠ [] ∧ a.head? ≠ some "ITEM:".toList) →
    readLoop atoi atof args (fuel + as.length)
        ⟨fr.reader atoi atof, ⟨as.map joinSp ++ more, false⟩, true, fr.columnMap,
          fr.columns, ev⟩ =
      readLoop atoi atof args fuel
        ⟨fr.reader atoi atof, ⟨more, false⟩, true, fr.columnMap, fr.columns,
          ev ++ as.map (fun a => Event.AtomLine (fr.record atoi atof args a))⟩
  | [], more, fuel, ev, _ => by simp
  | a :: as, more, fuel, ev, h => by
    obtain ⟨hlen, htok, hne, hhead⟩ := h a (by simp)
    obtain ⟨t, ts, rfl⟩ : ∃ t ts, a = t :: ts := by
      cases a with
      | nil => exact absurd rfl hne
      | cons t ts => exact ⟨t, ts, rfl⟩
    have ht : t ≠ "ITEM:".toList := by simpa using hhead
    obtain ⟨ad, had⟩ := processColumns_done atoi atof (fr.reader atoi atof) (t :: ts)
      fr.columnMap args AtomData.zero (fun p hp => by
        obtain ⟨c, hc, hlt⟩ := columnMap_lookup fr p (hargs p hp).1
        exact ⟨(hargs p hp).2, c, hc, by omega⟩)
    have hrec : fr.record atoi atof args (t :: ts) = ad := by
      simp [TextFrame.record, had]
    have ih := readLoop_atomLines args fr hargs as more fuel
      (ev ++ [Event.AtomLine ad]) (fun b hb => h b (by simp [hb]))
    rw [show fuel + ((t :: ts) :: as).length = (fuel + as.length) + 1 by simp; omega]
    rw [List.map_cons, List.cons_append,
      readLoop_atomLine atoi atof args _ _ _ _ _ _ _ _ t ts ad
        (explode_joinSp (t :: ts) htok) ht hlen had, ih, List.map_cons, hrec]
    simp

theorem readBoxLines_three (rd : LAMMPSReader) (l1 l2 l3 : Str) (more : List Str)
    (xlo xhi ylo yhi zlo zhi : Str)
    (h1 : explode l1 = [xlo, xhi]) (h2 : explode l2 = [ylo, yhi])
    (h3 : explode l3 = [zlo, zhi]) :
    readBoxLines atof [0, 1, 2] rd ⟨l1 :: l2 :: l3 :: more, false⟩ =
      (true, { rd with box_lo := ⟨atof xlo, atof ylo, atof zlo⟩,
                       box_hi := ⟨atof xhi, atof yhi, atof zhi⟩ }, ⟨more, false⟩) := by
  simp [readBoxLines, getline_cons, h1, h2, h3, Arr3.set]

theorem readLoop_box (args : List Str) (fuel : Nat) (rd : LAMMPSReader)
    (line l1 l2 l3 : Str) (more : List Str) (ins : Bool) (cm : ColumnMap) (av : List Str)
    (ev : List Event) (w bx «by» bz xlo xhi ylo yhi zlo zhi : Str)
    (hv : explode line = ["ITEM:".toList, "BOX".toList, w, bx, «by», bz])
    (h1 : explode l1 = [xlo, xhi]) (h2 : explode l2 = [ylo, yhi])
    (h3 : explode l3 = [zlo, zhi]) :
    readLoop atoi atof args (fuel + 1)
        ⟨rd, ⟨line :: l1 :: l2 :: l3 :: more, false⟩, ins, cm, av, ev⟩ =
      readLoop atoi atof args fuel
        ⟨{ rd with
            boundaries := ⟨(charAt bx 0, charAt bx 1), (charAt «by» 0, charAt «by» 1),
                           (charAt bz 0, charAt bz 1)⟩,
            box_lo := ⟨atof xlo, atof ylo, atof zlo⟩,
            box_hi := ⟨atof xhi, atof yhi, atof zhi⟩ },
          ⟨more, false⟩, ins, cm, av,
          ev ++ [.BoxBounds
            ⟨(charAt bx 0, charAt bx 1), (charAt «by» 0, charAt «by» 1),
             (charAt bz 0, charAt bz 1)⟩
            ⟨atof xlo, atof ylo, atof zlo⟩ ⟨atof xhi, atof yhi, atof zhi⟩]⟩ := by
  rw [readLoop]
  simp only [getline_cons, hv]
  simp [readBoxLines_three atof _ l1 l2 l3 more xlo xhi ylo yhi zlo zhi h1 h2 h3]

theorem readLoop_atomsTag (args : List Str) (fuel : Nat) (rd : LAMMPSReader)
    (line : Str) (more : List Str) (ins : Bool) (ev : List Event) (cols : List Str)
    (hv : explode line = "ITEM:".toList :: "ATOMS".toList :: cols)
    (hall : args.all (fun it => decide ((declareColumns cols 2 [] []).1.count it ≠ 0)) = true) :
    readLoop atoi atof args (fuel + 1) ⟨rd, ⟨line :: more, false⟩, ins, [], [], ev⟩ =
      readLoop atoi atof args fuel
        ⟨rd, ⟨more, false⟩, ins, (declareColumns cols 2 [] []).1,
          (declareColumns cols 2 [] []).2, ev⟩ := by
  rw [readLoop]
  simp only [getline_cons, hv]
  simp only [List.getElem?_cons_zero, List.getElem?_cons_succ, ↓reduceIte, List.drop_succ_cons,
    List.drop_zero, hall]
  simp

theorem isToken_item : isToken "ITEM:".toList := by decide
theorem isToken_box : isToken "BOX".toList := by decide
theorem isToken_bounds : isToken "BOUNDS".toList := by decide
theorem isToken_atoms : isToken "ATOMS".toList := by decide

theorem readLoop_frame (args : List Str) (fr : TextFrame) (hwf : fr.WellFormed args)
    (rd : LAMMPSReader) (more : List Str) (fuel : Nat)
    (hfuel : (fr.lines ++ more).length < fuel) :
    readLoop atoi atof args fuel ⟨rd, ⟨fr.lines ++ more, false⟩, false, [], [], []⟩ =
      readLoop atoi atof args (fuel - 4 - fr.atoms.length)
        ⟨fr.reader atoi atof, ⟨more, false⟩, true, fr.columnMap, fr.columns,
          [Event.StartOfTimestep,
           Event.BoxBounds (fr.reader atoi atof).boundaries (fr.reader atoi atof).box_lo
             (fr.reader atoi atof).box_hi]
          ++ fr.atoms.map (fun a => Event.AtomLine (fr.record atoi atof args a))⟩ := by
  obtain ⟨hbx, hby, hbz, hxlo, hxhi, hylo, hyhi, hzlo, hzhi, hcols, hatoms, hargs⟩ := hwf
  have hlen : (fr.lines ++ more).length = 9 + fr.atoms.length + more.length := by
    simp [TextFrame.lines]; omega
  obtain ⟨k, hk⟩ : ∃ k, fuel = k + fr.atoms.length + 1 + 1 + 1 + 1 :=
    ⟨fuel - 4 - fr.atoms.length, by omega⟩
  have hk2 : fuel - 4 - fr.atoms.length = k := by omega
  rw [hk2, hk]
  have e1 : explode (joinSp ["ITEM:".toList, "BOX".toList, "BOUNDS".toList,
      fr.bound_x, fr.bound_y, fr.bound_z]) =
      ["ITEM:".toList, "BOX".toList, "BOUNDS".toList, fr.bound_x, fr.bound_y, fr.bound_z] :=
    explode_joinSp _ (by
      intro t ht
      simp only [List.mem_cons, List.mem_singleton, List.not_mem_nil, or_false] at ht
      rcases ht with h | h | h | h | h | h <;> subst h
      · exact isToken_item
      · exact isToken_box
      · exact isToken_bounds
      · exact hbx
      · exact hby
      · exact hbz)
  have e2 : explode (joinSp [fr.xlo, fr.xhi]) = [fr.xlo, fr.xhi] :=
    explode_joinSp _ (by
      intro t ht
      simp only [List.mem_cons, List.mem_singleton, List.not_mem_nil, or_false] at ht
      rcases ht with h | h <;> subst h
      · exact hxlo
      · exact hxhi)
  have e3 : explode (joinSp [fr.ylo, fr.yhi]) = [fr.ylo, fr.yhi] :=
    explode_joinSp _ (by
      intro t ht
      simp only [List.mem_cons, List.mem_singleton, List.not_mem_nil, or_false] at ht
      rcases ht with h | h <;> subst h
      · exact hylo
      · exact hyhi)
  have e4 : explode (joinSp [fr.zlo, fr.zhi]) = [fr.zlo, fr.zhi] :=
    explode_joinSp _ (by
      intro t ht
      simp only [List.mem_cons, List.mem_singleton, List.not_mem_nil, or_false] at ht
      rcases ht with h | h <;> subst h
      · exact hzlo
      · exact hzhi)
  have e5 : explode (joinSp ("ITEM:".toList :: "ATOMS".toList :: fr.columns)) =
      "ITEM:".toList :: "ATOMS".toList :: fr.columns :=
    explode_joinSp _ (by
      intro t ht
      simp only [List.mem_cons] at ht
      rcases ht with h | h | h
      · subst h; exact isToken_item
      · subst h; exact isToken_atoms
      · exact hcols t h)
  have hall := args_all_count fr args hargs
  have hdc := declareColumns_frame fr
  simp only [TextFrame.lines, List.cons_append, List.nil_append, List.append_assoc]
  rw [readLoop_timestep atoi atof args _ rd _ _ _ _ _ _ explode_marker,
    readLoop_numberOfAtoms atoi atof args _ _ _ _ _ _ _ _ _ _ explode_number,
    readLoop_box atoi atof args _ _ _ _ _ _ _ _ _ _ _ _ _ _ _ _ _ _ _ _ _ e1 e2 e3 e4,
    readLoop_atomsTag atoi atof args _ _ _ _ _ _ fr.columns e5 (by rw [hdc]; exact hall),
    hdc]
  have h := readLoop_atomLines atoi atof args fr hargs fr.atoms more k
    [Event.StartOfTimestep,
     Event.BoxBounds (fr.reader atoi atof).boundaries (fr.reader atoi atof).box_lo
       (fr.reader atoi atof).box_hi] hatoms
  simpa [TextFrame.reader] using h

theorem streamOf_cons (fr : TextFrame) (frames : List TextFrame) :
    streamOf (fr :: frames) = ⟨fr.lines ++ (streamOf frames).rest, false⟩ := by
  simp [streamOf]

theorem streamOf_rest_cons (fr : TextFrame) (frames : List TextFrame) :
    (streamOf (fr :: frames)).rest =
      "ITEM: TIMESTEP".toList :: ((fr.lines.drop 1) ++ (streamOf frames).rest) := by
  simp [streamOf, TextFrame.lines]

theorem ReadFrame_frame (s : Str) (fr : TextFrame) (frames : List TextFrame)
    (hwf : fr.WellFormed (explode s)) (rd : LAMMPSReader) :
    ReadFrame atoi atof s rd (streamOf (fr :: frames)) =
      some ⟨.success, fr.events atoi atof (explode s), fr.reader atoi atof,
        leftover frames⟩ := by
  have hlen : (fr.lines ++ (streamOf frames).rest).length =
      9 + fr.atoms.length + (streamOf frames).rest.length := by
    simp [TextFrame.lines]; omega
  rw [streamOf_cons]
  simp only [ReadFrame, Bool.false_eq_true, ↓reduceIte]
  rw [readLoop_frame atoi atof (explode s) fr hwf rd _ _ (Nat.lt_succ_self _)]
  obtain ⟨k, hk⟩ : ∃ k, (fr.lines ++ (streamOf frames).rest).length + 1 - 4 - fr.atoms.length
      = k + 1 := ⟨5 + (streamOf frames).rest.length, by omega⟩
  rw [hk]
  cases frames with
  | nil =>
    simp only [streamOf, List.flatMap_nil, leftover, ↓reduceIte]
    rw [readLoop_eof]
    simp [TextFrame.events]
  | cons f2 fs =>
    rw [streamOf_rest_cons, readLoop_marker atoi atof _ _ _ _ _ _ _ _ explode_marker]
    simp [TextFrame.events, leftover, streamOf, TextFrame.lines]

theorem ReadFrame_exhausted (s : Str) (rd : LAMMPSReader) :
    ReadFrame atoi atof s rd ⟨[], true⟩ = some ⟨.failure, [], rd, ⟨[], true⟩⟩ := by
  simp [ReadFrame]

theorem nthCall_frame (s : Str) :
    ∀ (frames : List TextFrame) (k : Nat) (fr : TextFrame) (rd : LAMMPSReader),
    (∀ f ∈ frames, f.WellFormed (explode s)) → frames[k]? = some fr →
    nthCall atoi atof s k rd (streamOf frames) =
      some ⟨.success, fr.events atoi atof (explode s), fr.reader atoi atof,
        leftover (frames.drop (k + 1))⟩
  | [], k, fr, rd, _, h => by simp at h
  | f :: fs, 0, fr, rd, hwf, h => by
    obtain rfl : f = fr := by simpa using h
    simp [nthCall, ReadFrame_frame atoi atof s f fs (hwf f (by simp)) rd]
  | f :: fs, k + 1, fr, rd, hwf, h => by
    have h2 : fs[k]? = some fr := by simpa using h
    have hne : fs ≠ [] := by
      rintro rfl
      simp at h2
    have ih := nthCall_frame s fs k fr (f.reader atoi atof)
      (fun g hg => hwf g (by simp [hg])) h2
    simp only [nthCall, ReadFrame_frame atoi atof s f fs (hwf f (by simp)) rd, leftover, hne,
      ↓reduceIte, List.drop_succ_cons]
    simpa [leftover] using ih

theorem nthCall_after (s : Str) :
    ∀ (frames : List TextFrame) (rd : LAMMPSReader),
    (∀ f ∈ frames, f.WellFormed (explode s)) → frames ≠ [] →
    ∃ rd1, nthCall atoi atof s frames.length rd (streamOf frames) =
      some ⟨.failure, [], rd1, ⟨[], true⟩⟩
  | [], _, _, h => absurd rfl h
  | f :: fs, rd, hwf, _ => by
    simp only [List.length_cons, nthCall,
      ReadFrame_frame atoi atof s f fs (hwf f (by simp)) rd]
    by_cases hfs : fs = []
    · subst hfs
      exact ⟨f.reader atoi atof, by simp [leftover, nthCall, ReadFrame_exhausted]⟩
    · obtain ⟨rd1, h1⟩ := nthCall_after s fs (f.reader atoi atof)
        (fun g hg => hwf g (by simp [hg])) hfs
      exact ⟨rd1, by simpa [leftover, hfs] using h1⟩

theorem atomLines_events (fr : TextFrame) (args : List Str) :
    atomLines (fr.events atoi atof args) = fr.atoms.map (fr.record atoi atof args) := by
  have h : ∀ (as : List (List Str)),
      atomLines (as.map (fun a => Event.AtomLine (fr.record atoi atof args a))
        ++ [Event.EndOfTimestep]) = as.map (fr.record atoi atof args) := by
    intro as
    induction as with
    | nil => simp [atomLines]
    | cons a as ih => simp [atomLines, ih]
  simp only [TextFrame.events, List.cons_append, List.nil_append, atomLines, List.append_assoc]
  exact h fr.atoms

theorem traceOfCalls_frames (s : Str) :
    ∀ (frames : List TextFrame) (rd : LAMMPSReader),
    (∀ f ∈ frames, f.WellFormed (explode s)) →
    traceOfCalls atoi atof s frames.length rd (leftover frames) =
      some (frames.flatMap (fun fr => fr.events atoi atof (explode s)))
  | [], _, _ => by simp [traceOfCalls]
  | f :: fs, rd, hwf => by
    have ih := traceOfCalls_frames s fs (f.reader atoi atof)
      (fun g hg => hwf g (by simp [hg]))
    simp only [List.length_cons, traceOfCalls, leftover, List.cons_ne_nil, ↓reduceIte,
      ReadFrame_frame atoi atof s f fs (hwf f (by simp)) rd]
    simp only [leftover] at ih
    rw [ih]
    simp
end


/-! ## Lemmas: the text loop returns -/

theorem getline_length (f : TextStream) (l : Option Str) (f1 : TextStream)
    (h : getline f = (l, f1)) : f1.rest.length ≤ f.rest.length ∧
      (l.isSome → f1.rest.length < f.rest.length) := by
  unfold getline at h
  split_ifs at h with he
  · cases h; simp
  · cases hr : f.rest with
    | nil => simp [hr] at h; obtain ⟨rfl, rfl⟩ := h; simp
    | cons a r => simp [hr] at h; obtain ⟨rfl, rfl⟩ := h; simp

theorem readBoxLines_length (atof : Str → ℚ) :
    ∀ (is : List Nat) (rd : LAMMPSReader) (f : TextStream),
    (readBoxLines atof is rd f).2.2.rest.length ≤ f.rest.length
  | [], rd, f => by simp [readBoxLines]
  | i :: is, rd, f => by
    rw [readBoxLines]
    cases hg : getline f with
    | mk l f1 =>
      have h1 := (getline_length f l f1 hg).1
      cases l with
      | none => simpa using h1
      | some line =>
        simp only
        split_ifs
        · simpa using h1
        · exact le_trans (readBoxLines_length atof is _ f1) h1

/-- The loop of `ReadFrame` terminates: with more fuel than lines left it
returns. -/
theorem readLoop_isSome (atoi : Str → Int) (atof : Str → ℚ) (args : List Str) :
    ∀ (fuel : Nat) (st : LoopState), st.file.rest.length < fuel →
    (readLoop atoi atof args fuel st).isSome := by
  intro fuel
  induction fuel with
  | zero => intro st h; omega
  | succ n ih =>
    intro st h
    rw [readLoop]
    cases hg : getline st.file with
    | mk l f1 =>
    have h1 := getline_length st.file l f1 hg
    cases l with
    | none => rfl
    | some line =>
    have hlt : f1.rest.length < n := by
      have := h1.2 rfl
      omega
    simp only
    cases hv0 : (explode line)[0]? with
    | none => rfl
    | some v0 =>
    simp only
    by_cases hitem : v0 = "ITEM:".toList
    · rw [if_pos hitem]
      cases hv1 : (explode line)[1]? with
      | none => rfl
      | some v1 =>
      simp only
      by_cases ht : v1 = "TIMESTEP".toList
      · rw [if_pos ht]
        by_cases hin : st.insideTstep = true
        · rw [if_pos hin]; rfl
        · rw [if_neg hin]
          cases hg2 : getline f1 with
          | mk l2 f2 =>
          have h2 := (getline_length f1 l2 f2 hg2).1
          cases l2 with
          | none => rfl
          | some x => exact ih _ (by show f2.rest.length < n; omega)
      · rw [if_neg ht]
        by_cases hn : v1 = "NUMBER".toList
        · rw [if_pos hn]
          cases hg2 : getline f1 with
          | mk l2 f2 =>
          have h2 := (getline_length f1 l2 f2 hg2).1
          cases l2 with
          | none => rfl
          | some x => exact ih _ (by show f2.rest.length < n; omega)
        · rw [if_neg hn]
          by_cases hb : v1 = "BOX".toList
          · rw [if_pos hb]
            by_cases h6 : (explode line).length < 6
            · rw [if_pos h6]; rfl
            · rw [if_neg h6]
              generalize hrd : ({ st.rd with boundaries :=
                ⟨(charAt ((explode line).getD 3 []) 0, charAt ((explode line).getD 3 []) 1),
                 (charAt ((explode line).getD 4 []) 0, charAt ((explode line).getD 4 []) 1),
                 (charAt ((explode line).getD 5 []) 0, charAt ((explode line).getD 5 []) 1)⟩ } :
                LAMMPSReader) = rd0
              have hbl := readBoxLines_length atof [0, 1, 2] rd0 f1
              rcases hr : readBoxLines atof [0, 1, 2] rd0 f1 with ⟨ok, rd1, f2⟩
              rw [hr] at hbl
              cases ok with
              | false => rfl
              | true => exact ih _ (by show f2.rest.length < n; simp at hbl; omega)
          · rw [if_neg hb]
            by_cases ha : v1 = "ATOMS".toList
            · rw [if_pos ha]
              split_ifs
              · exact ih _ hlt
              · rfl
            · rw [if_neg ha]
              exact ih _ hlt
    · rw [if_neg hitem]
      by_cases hlen : (explode line).length ≠ st.avail_columns.length
      · rw [if_pos hlen]; rfl
      · rw [if_neg hlen]
        cases processColumns atoi atof st.rd (explode line) args st.columns AtomData.zero with
        | done c ad => exact ih _ hlt
        | unknownProperty c => rfl
        | outOfRange c => rfl

/-- The text branch of `ReadFrame` returns on every stream. -/
theorem ReadFrame_isSome (atoi : Str → Int) (atof : Str → ℚ) (s : Str)
    (rd : LAMMPSReader) (file : TextStream) : (ReadFrame atoi atof s rd file).isSome := by
  unfold ReadFrame
  split_ifs
  · simp
  · exact readLoop_isSome atoi atof _ _ _ (Nat.lt_succ_self _)

/-! ## Lemmas: the binary block loops -/

theorem decodeValue_isSome (rd : LAMMPSReader) (f : property) (val : ℚ)
    (hf : f ≠ property.NULL_PROPERTY) : ∃ ad, decodeValue rd f val = some ad := by
  cases f <;> first
    | exact absurd rfl hf
    | exact ⟨_, rfl⟩
    | (simp only [decodeValue]; split_ifs <;> exact ⟨_, rfl⟩)

theorem resolveFields_spec : ∀ (args : List Str) (fields : List property),
    resolveFields args = some fields →
    fields = args.map string_to_property ∧ ∀ f ∈ fields, f ≠ property.NULL_PROPERTY
  | [], fields, h => by
    simp [resolveFields] at h
    subst h
    simp
  | a :: as, fields, h => by
    simp only [resolveFields] at h
    split_ifs at h with hnull
    obtain ⟨fs, hfs, rfl⟩ := Option.map_eq_some'.mp h
    obtain ⟨h1, h2⟩ := resolveFields_spec as fs hfs
    refine ⟨by simp [h1], ?_⟩
    intro f hf
    rcases List.mem_cons.mp hf with rfl | hf
    · exact hnull
    · exact h2 f hf

theorem wrap32_wrap32_add (a b : Int) : wrap32 (wrap32 a + b) = wrap32 (a + b) := by
  unfold wrap32
  omega

theorem wrap32_idem (a : Int) : wrap32 (wrap32 a) = wrap32 a := by
  unfold wrap32
  omega

theorem wrap32_small (n : Nat) (h : (n : Int) < 2 ^ 31) : wrap32 n = n := by
  unfold wrap32
  omega

theorem readBlock_running (rd : LAMMPSReader) (fields : List property) (k : Nat)
    (hk : fields.length = k) (hnn : ∀ f ∈ fields, f ≠ property.NULL_PROPERTY) :
    ∀ (vals : List ℚ) (field : Nat) (ev : List Event) (tot : Int), field < k →
    wrap32 tot = tot →
    ∃ recs : List AtomData,
      readBlock rd fields k vals field ev tot =
        .running (ev ++ recs.map Event.AtomLine) (wrap32 (tot + recs.length)) ∧
      recs.length = (field + vals.length) / k
  | [], field, ev, tot, hf, ht =>
    ⟨[], by simp [readBlock, ht], by simp [Nat.div_eq_of_lt hf]⟩
  | val :: vals, field, ev, tot, hf, ht => by
    have hlt : field < fields.length := by omega
    have hget : fields[field]? = some fields[field] := List.getElem?_eq_getElem hlt
    obtain ⟨ad, had⟩ := decodeValue_isSome rd fields[field] val
      (hnn _ (List.getElem_mem hlt))
    by_cases hlast : field + 1 = k
    · obtain ⟨recs, h1, h2⟩ := readBlock_running rd fields k hk hnn vals 0
        (ev ++ [Event.AtomLine ad]) (wrap32 (tot + 1)) (by omega) (wrap32_idem _)
      refine ⟨ad :: recs, ?_, ?_⟩
      · have e : tot + 1 + (recs.length : Int) = tot + ((ad :: recs).length : Int) := by
          simp only [List.length_cons, Nat.cast_add, Nat.cast_one]
          omega
        simp only [readBlock, hget, had, hlast, ↓reduceIte, h1, wrap32_wrap32_add]
        rw [e]
        simp
      · have : field + (val :: vals).length = vals.length + k := by simp; omega
        rw [this, Nat.add_div_right _ (by omega)]
        simp [h2]
    · obtain ⟨recs, h1, h2⟩ := readBlock_running rd fields k hk hnn vals (field + 1)
        ev tot (by omega) ht
      refine ⟨recs, ?_, ?_⟩
      · simp only [readBlock, hget, had, hlast, ↓reduceIte, h1]
      · rw [h2]; congr 1; simp; omega

theorem readBlocks_running (rd : LAMMPSReader) (fields : List property) (k : Nat)
    (hk : fields.length = k) (hpos : 0 < k)
    (hnn : ∀ f ∈ fields, f ≠ property.NULL_PROPERTY) :
    ∀ (blocks : List (List ℚ)) (ev : List Event) (tot : Int), wrap32 tot = tot →
    ∃ recs : List AtomData,
      readBlocks rd fields k blocks ev tot =
        .running (ev ++ recs.map Event.AtomLine) (wrap32 (tot + recs.length)) ∧
      recs.length = streamedAtoms k blocks
  | [], ev, tot, ht => ⟨[], by simp [readBlocks, ht], by simp [streamedAtoms]⟩
  | blk :: blks, ev, tot, ht => by
    obtain ⟨r1, h1, h2⟩ := readBlock_running rd fields k hk hnn blk 0 ev tot hpos ht
    obtain ⟨r2, h3, h4⟩ := readBlocks_running rd fields k hk hpos hnn blks
      (ev ++ r1.map Event.AtomLine) (wrap32 (tot + r1.length)) (wrap32_idem _)
    refine ⟨r1 ++ r2, ?_, ?_⟩
    · have e : tot + (r1.length : Int) + (r2.length : Int) =
          tot + ((r1 ++ r2).length : Int) := by
        simp only [List.length_append, Nat.cast_add]
        omega
      simp only [readBlocks, h1, h3, wrap32_wrap32_add]
      rw [e]
      simp
    · simp [streamedAtoms] at h2 h4 ⊢
      omega


/-! ## Lemmas: slots written by the text decoder -/

theorem Assign_some {prop tag : Str} {a : AtomData} {rest : Option AtomData} {r : AtomData}
    (P : AtomData → Prop) (h1 : prop = tag → P a) (h2 : rest = some r → P r) :
    Assign prop tag a rest = some r → P r := by
  unfold Assign
  by_cases h : prop = tag
  · rw [if_pos h]; intro e; cases e; exact h1 h
  · rw [if_neg h]; exact h2

theorem AddProperty_elim {s str : Str} {prop rest : property} (P : property → Prop)
    (h1 : s = str → P prop) (h2 : P rest) : P (AddProperty s prop str rest) := by
  unfold AddProperty
  by_cases h : s = str
  · rw [if_pos h]; exact h1 h
  · rw [if_neg h]; exact h2

theorem string_to_property_name (s : Str)
    (h : string_to_property s ≠ property.NULL_PROPERTY) :
    s = (string_to_property s).name := by
  revert h
  unfold string_to_property
  repeat'
    refine AddProperty_elim (fun f => f ≠ property.NULL_PROPERTY → s = f.name)
      (fun h _ => h) ?_
  exact fun h => absurd rfl h

theorem string_to_property_of_name (f : property) : string_to_property f.name = f := by
  cases f <;> rfl

theorem updateAtomData_frame (atoi : Str → Int) (atof : Str → ℚ) (ad ad1 : AtomData)
    (q tok : Str) (h : updateAtomData atoi atof ad q tok = some ad1) :
    ∀ f, f ≠ string_to_property q → ad1.slot f = ad.slot f := by
  revert h
  unfold updateAtomData
  repeat' refine Assign_some (fun r => ∀ f, f ≠ string_to_property q → r.slot f = ad.slot f) ?_ ?_
  all_goals first
    | (intro h; cases h; done)
    | (intro hp f hf; subst hp; cases f <;> first | rfl | exact absurd rfl hf)

theorem updateAtomData_slot (atoi : Str → Int) (atof : Str → ℚ) (ad ad1 : AtomData)
    (q tok : Str) (h : updateAtomData atoi atof ad q tok = some ad1) :
    ad1.slot (string_to_property q) = textValue atoi atof (string_to_property q) tok := by
  revert h
  unfold updateAtomData
  repeat'
    refine Assign_some (fun r => r.slot (string_to_property q) =
      textValue atoi atof (string_to_property q) tok) ?_ ?_
  all_goals first
    | (intro h; cases h; done)
    | (intro hp; subst hp; rfl)


theorem checkPBC_x (rd : LAMMPSReader) (ad : AtomData) :
    checkPBC rd "x".toList ad = { ad with x := (correctorContract rd.box_lo.e0 rd.box_hi.e0
      rd.boundaries.e0.1 rd.boundaries.e0.2 ad.x) } := by
  by_cases h1 : rd.boundaries.e0.1 = 'p' <;> by_cases h2 : ad.x < rd.box_lo.e0 <;>
  by_cases h3 : rd.boundaries.e0.2 = 'p' <;> by_cases h4 : rd.box_hi.e0 ≤ ad.x <;>
  simp [checkPBC, correctorContract, h1, h2, h3, h4]

theorem checkPBC_y (rd : LAMMPSReader) (ad : AtomData) :
    checkPBC rd "y".toList ad = { ad with y := (correctorContract rd.box_lo.e1 rd.box_hi.e1
      rd.boundaries.e1.1 rd.boundaries.e1.2 ad.y) } := by
  by_cases h1 : rd.boundaries.e1.1 = 'p' <;> by_cases h2 : ad.y < rd.box_lo.e1 <;>
  by_cases h3 : rd.boundaries.e1.2 = 'p' <;> by_cases h4 : rd.box_hi.e1 ≤ ad.y <;>
  simp [checkPBC, correctorContract, h1, h2, h3, h4]

theorem checkPBC_z (rd : LAMMPSReader) (ad : AtomData) :
    checkPBC rd "z".toList ad = { ad with z := (correctorContract rd.box_lo.e2 rd.box_hi.e2
      rd.boundaries.e2.1 rd.boundaries.e2.2 ad.z) } := by
  by_cases h1 : rd.boundaries.e2.1 = 'p' <;> by_cases h2 : ad.z < rd.box_lo.e2 <;>
  by_cases h3 : rd.boundaries.e2.2 = 'p' <;> by_cases h4 : rd.box_hi.e2 ≤ ad.z <;>
  simp [checkPBC, correctorContract, h1, h2, h3, h4]

theorem checkPBC_xs (rd : LAMMPSReader) (ad : AtomData) :
    checkPBC rd "xs".toList ad = { ad with xs := (correctorContract 0 1
      rd.boundaries.e0.1 rd.boundaries.e0.2 ad.xs) } := by
  by_cases h1 : rd.boundaries.e0.1 = 'p' <;> by_cases h2 : ad.xs < 0 <;>
  by_cases h3 : rd.boundaries.e0.2 = 'p' <;> by_cases h4 : 1 ≤ ad.xs <;>
  simp [checkPBC, correctorContract, h1, h2, h3, h4]

theorem checkPBC_ys (rd : LAMMPSReader) (ad : AtomData) :
    checkPBC rd "ys".toList ad = { ad with ys := (correctorContract 0 1
      rd.boundaries.e1.1 rd.boundaries.e1.2 ad.ys) } := by
  by_cases h1 : rd.boundaries.e1.1 = 'p' <;> by_cases h2 : ad.ys < 0 <;>
  by_cases h3 : rd.boundaries.e1.2 = 'p' <;> by_cases h4 : 1 ≤ ad.ys <;>
  simp [checkPBC, correctorContract, h1, h2, h3, h4]

theorem checkPBC_zs (rd : LAMMPSReader) (ad : AtomData) :
    checkPBC rd "zs".toList ad =
      if rd.boundaries.e2.1 = 'p' ∧ ad.zs < 0 then { ad with zs := ad.zs + 1 }
      else if rd.boundaries.e2.2 = 'p' ∧ ad.zs ≥ 1 then { ad with z := ad.z - 1 }
      else ad := by
  by_cases h1 : rd.boundaries.e2.1 = 'p' <;> by_cases h2 : ad.zs < 0 <;>
  by_cases h3 : rd.boundaries.e2.2 = 'p' <;> by_cases h4 : 1 ≤ ad.zs <;>
  simp [checkPBC, h1, h2, h3, h4]

theorem checkPBC_other (rd : LAMMPSReader) (ad : AtomData) (q : Str)
    (hx : q ≠ "x".toList) (hy : q ≠ "y".toList) (hz : q ≠ "z".toList)
    (hxs : q ≠ "xs".toList) (hys : q ≠ "ys".toList) (hzs : q ≠ "zs".toList) :
    checkPBC rd q ad = ad := by
  simp only [checkPBC, hx, hy, hz, hxs, hys, hzs, false_and, if_false]

theorem checkPBC_slot (rd : LAMMPSReader) (ad : AtomData) (q : Str) (f : property)
    (hf : f.isWrapped = false) : (checkPBC rd q ad).slot f = ad.slot f := by
  by_cases hx : q = "x".toList
  · subst hx; rw [checkPBC_x]; cases f <;> first | rfl | exact absurd hf (by decide)
  by_cases hy : q = "y".toList
  · subst hy; rw [checkPBC_y]; cases f <;> first | rfl | exact absurd hf (by decide)
  by_cases hz : q = "z".toList
  · subst hz; rw [checkPBC_z]; cases f <;> first | rfl | exact absurd hf (by decide)
  by_cases hxs : q = "xs".toList
  · subst hxs; rw [checkPBC_xs]; cases f <;> first | rfl | exact absurd hf (by decide)
  by_cases hys : q = "ys".toList
  · subst hys; rw [checkPBC_ys]; cases f <;> first | rfl | exact absurd hf (by decide)
  by_cases hzs : q = "zs".toList
  · subst hzs; rw [checkPBC_zs]
    split_ifs <;> cases f <;> first | rfl | exact absurd hf (by decide)
  rw [checkPBC_other rd ad q hx hy hz hxs hys hzs]

theorem index_fst (cm : ColumnMap) (q : Str) : (cm.index q).1 = cm.col q := by
  unfold ColumnMap.index ColumnMap.col
  cases cm.lookup q <;> rfl

theorem index_col (cm : ColumnMap) (q p : Str) : (cm.index q).2.col p = cm.col p := by
  unfold ColumnMap.index ColumnMap.col
  cases h : cm.lookup q with
  | some i => rfl
  | none =>
    by_cases hpq : p = q
    · subst hpq; simp [List.lookup, h]
    · have : (p == q) = false := by simpa using hpq
      simp [List.lookup, this]

theorem processColumns_slot (atoi : Str → Int) (atof : Str → ℚ) (rd : LAMMPSReader)
    (v : List Str) (f : property) (hf : f.isWrapped = false)
    (hnull : f ≠ property.NULL_PROPERTY) :
    ∀ (args : List Str) (cm : ColumnMap) (ad0 : AtomData) (cm1 : ColumnMap) (ad : AtomData),
    processColumns atoi atof rd v args cm ad0 = .done cm1 ad →
    ad.slot f = if f.name ∈ args then textValue atoi atof f (v.getD (cm.col f.name) [])
      else ad0.slot f
  | [], cm, ad0, cm1, ad, h => by
    simp only [processColumns, FieldsResult.done.injEq] at h
    simp [h.2]
  | q :: args, cm, ad0, cm1, ad, h => by
    rw [processColumns] at h
    simp only at h
    cases hv : v[(cm.index q).1]? with
    | none => simp [hv] at h
    | some tok =>
      cases hu : updateAtomData atoi atof ad0 q tok with
      | none => simp [hv, hu] at h
      | some ad1 =>
        simp only [hv, hu] at h
        have ih := processColumns_slot atoi atof rd v f hf hnull args _ _ _ _ h
        rw [ih, index_col, checkPBC_slot rd ad1 q f hf]
        by_cases hmem : f.name ∈ args
        · simp [hmem]
        · simp only [hmem, ↓reduceIte, List.mem_cons]
          by_cases hq : f.name = q
          · subst hq
            have h1 := updateAtomData_slot atoi atof ad0 ad1 f.name tok hu
            rw [string_to_property_of_name] at h1
            rw [index_fst] at hv
            simp [h1, List.getD_eq_getElem?_getD, hv]
          · have hne : f ≠ string_to_property q := by
              intro e
              apply hq
              rw [e]
              exact (string_to_property_name q (by rw [← e]; exact hnull)).symm
            simp [hq, updateAtomData_frame atoi atof ad0 ad1 q tok hu f hne]


theorem checkPBC_slot_other (rd : LAMMPSReader) (ad : AtomData) (q : Str) (f : property)
    (hf : f ≠ string_to_property q) (hz : ¬ (q = "zs".toList ∧ f = property.Z)) :
    (checkPBC rd q ad).slot f = ad.slot f := by
  by_cases hx : q = "x".toList
  · subst hx; rw [checkPBC_x]; cases f <;> first | rfl | exact absurd rfl hf
  by_cases hy : q = "y".toList
  · subst hy; rw [checkPBC_y]; cases f <;> first | rfl | exact absurd rfl hf
  by_cases hz1 : q = "z".toList
  · subst hz1; rw [checkPBC_z]; cases f <;> first | rfl | exact absurd rfl hf
  by_cases hxs : q = "xs".toList
  · subst hxs; rw [checkPBC_xs]; cases f <;> first | rfl | exact absurd rfl hf
  by_cases hys : q = "ys".toList
  · subst hys; rw [checkPBC_ys]; cases f <;> first | rfl | exact absurd rfl hf
  by_cases hzs : q = "zs".toList
  · subst hzs; rw [checkPBC_zs]
    split_ifs <;> cases f <;> first | rfl | exact absurd rfl hf | exact absurd ⟨rfl, rfl⟩ hz
  rw [checkPBC_other rd ad q hx hy hz1 hxs hys hzs]

theorem checkPBC_slot_own (rd : LAMMPSReader) (ad : AtomData) (f : property) :
    (checkPBC rd f.name ad).slot f = wrapSlot rd f (ad.slot f) := by
  cases f
  case X => exact congrArg (fun a => AtomData.slot a property.X) (checkPBC_x rd ad)
  case Y => exact congrArg (fun a => AtomData.slot a property.Y) (checkPBC_y rd ad)
  case Z => exact congrArg (fun a => AtomData.slot a property.Z) (checkPBC_z rd ad)
  case XS => exact congrArg (fun a => AtomData.slot a property.XS) (checkPBC_xs rd ad)
  case YS => exact congrArg (fun a => AtomData.slot a property.YS) (checkPBC_ys rd ad)
  case ZS =>
    show (checkPBC rd "zs".toList ad).slot property.ZS =
      if rd.boundaries.e2.1 = 'p' ∧ ad.zs < 0 then ad.zs + 1 else ad.zs
    rw [checkPBC_zs]
    split_ifs <;> rfl
  all_goals exact checkPBC_slot rd ad _ _ rfl

theorem processColumns_slot_wrapped (atoi : Str → Int) (atof : Str → ℚ) (rd : LAMMPSReader)
    (v : List Str) (f : property) (hnull : f ≠ property.NULL_PROPERTY) :
    ∀ (args : List Str) (cm : ColumnMap) (ad0 : AtomData) (cm1 : ColumnMap) (ad : AtomData),
    (f = property.Z → "zs".toList ∉ args) →
    processColumns atoi atof rd v args cm ad0 = .done cm1 ad →
    ad.slot f =
      if f.name ∈ args then
        wrapSlot rd f (textValue atoi atof f (v.getD (cm.col f.name) []))
      else ad0.slot f
  | [], cm, ad0, cm1, ad, _, h => by
    simp only [processColumns, FieldsResult.done.injEq] at h
    simp [h.2]
  | q :: args, cm, ad0, cm1, ad, hzs, h => by
    rw [processColumns] at h
    simp only at h
    cases hv : v[(cm.index q).1]? with
    | none => simp [hv] at h
    | some tok =>
      cases hu : updateAtomData atoi atof ad0 q tok with
      | none => simp [hv, hu] at h
      | some ad1 =>
        simp only [hv, hu] at h
        have ih := processColumns_slot_wrapped atoi atof rd v f hnull args _ _ _ _
          (fun hf hm => hzs hf (List.mem_cons_of_mem _ hm)) h
        rw [ih, index_col]
        by_cases hmem : f.name ∈ args
        · simp [hmem]
        · simp only [hmem, ↓reduceIte, List.mem_cons]
          by_cases hq : f.name = q
          · subst hq
            have h1 := updateAtomData_slot atoi atof ad0 ad1 f.name tok hu
            rw [string_to_property_of_name] at h1
            rw [index_fst] at hv
            rw [checkPBC_slot_own, h1]
            simp [List.getD_eq_getElem?_getD, hv]
          · have hne : f ≠ string_to_property q := by
              intro e
              apply hq
              rw [e]
              exact (string_to_property_name q (by rw [← e]; exact hnull)).symm
            have hz : ¬ (q = "zs".toList ∧ f = property.Z) :=
              fun hh => hzs hh.2 (hh.1 ▸ List.mem_cons_self _ _)
            rw [checkPBC_slot_other rd ad1 q f hne hz]
            simp [hq, updateAtomData_frame atoi atof ad0 ad1 q tok hu f hne]

/-- The record emitted for an atom line in text mode, slot by slot: a
requested field holds the value parsed from its column token, wrapped by the
field's own branch of the periodic-boundary chain; a field that is not
requested keeps the zero of the cleared record.  The slot `z` is covered when
`zs` is not requested. -/
theorem text_record_slots (atoi : Str → Int) (atof : Str → ℚ) (rd : LAMMPSReader)
    (v args : List Str) (cm cm1 : ColumnMap) (ad : AtomData)
    (h : processColumns atoi atof rd v args cm AtomData.zero = .done cm1 ad)
    (f : property) (hnull : f ≠ property.NULL_PROPERTY)
    (hz : f = property.Z → "zs".toList ∉ args) :
    ad.slot f =
      if f.name ∈ args then
        wrapSlot rd f (textValue atoi atof f (v.getD (cm.col f.name) []))
      else 0 := by
  rw [processColumns_slot_wrapped atoi atof rd v f hnull args cm _ cm1 ad hz h]
  cases f <;> rfl

/-! ## Lemmas: the binary frame reader, the corrector, hook counts -/

theorem resolveFields_known : ∀ (args : List Str),
    (∀ a ∈ args, string_to_property a ≠ property.NULL_PROPERTY) →
    resolveFields args = some (args.map string_to_property)
  | [], _ => rfl
  | a :: as, h => by
    have h1 := h a (by simp)
    have h2 := resolveFields_known as (fun b hb => h b (by simp [hb]))
    simp [resolveFields, h1, h2]

theorem ReadBinaryFrame_checked (args : List Str) (rd : LAMMPSReader) (fr : BinaryFrame)
    (htri : fr.triclinic = 0) (hcount : (fr.nfields % 2 ^ 32).toNat = args.length)
    (hargs : args ≠ [])
    (hknown : ∀ a ∈ args, string_to_property a ≠ property.NULL_PROPERTY) :
    ∃ recs : List AtomData, recs.length = streamedAtoms args.length fr.blocks ∧
      ReadBinaryFrame args rd (some fr) =
        if wrap32 (recs.length : Int) ≠ wrap32 fr.natoms then
          ⟨.failure, fr.opening rd ++ recs.map Event.AtomLine, fr.reader rd⟩
        else
          ⟨.success, fr.opening rd ++ recs.map Event.AtomLine ++ [Event.EndOfTimestep],
            fr.reader rd⟩ := by
  have hres := resolveFields_known args hknown
  have hpos : 0 < args.length := List.length_pos.mpr hargs
  obtain ⟨recs, h1, h2⟩ := readBlocks_running (fr.reader rd) (args.map string_to_property)
    args.length (by simp) hpos
    (fun f hf => by
      obtain ⟨a, ha, rfl⟩ := List.mem_map.mp hf
      exact hknown a ha)
    fr.blocks (fr.opening rd) 0 (by decide)
  refine ⟨recs, h2, ?_⟩
  simp only [ReadBinaryFrame, htri, ne_eq, not_true_eq_false, ↓reduceIte, hcount, hres,
    BinaryFrame.reader, BinaryFrame.opening] at h1 ⊢
  rw [h1]
  simp only [zero_add]

theorem correctorContract_at_lo (lo hi : ℚ) (l u : Char) (h : lo < hi) :
    correctorContract lo hi l u lo = lo := by
  simp [correctorContract, not_le.mpr h]

theorem correctorContract_at_hi (lo hi : ℚ) (l : Char) (h : lo < hi) :
    correctorContract lo hi l 'p' hi = lo := by
  simp [correctorContract, not_lt.mpr (le_of_lt h)]

theorem correctorContract_range (lo hi : ℚ) (v : ℚ)
    (h1 : lo - (hi - lo) ≤ v) (h2 : v < hi + (hi - lo)) :
    lo ≤ correctorContract lo hi 'p' 'p' v ∧ correctorContract lo hi 'p' 'p' v < hi := by
  unfold correctorContract
  split_ifs with a b
  · constructor <;> linarith [a.1]
  · constructor <;> linarith [b.1]
  · simp only [and_true, not_lt, ge_iff_le, not_le] at a b
    exact ⟨a, b⟩

theorem decodeValue_X (rd : LAMMPSReader) (v : ℚ) :
    decodeValue rd .X v = some { AtomData.zero with
      x := (correctorContract rd.box_lo.e0 rd.box_hi.e0
        rd.boundaries.e0.1 rd.boundaries.e0.2 v) } := by
  by_cases h1 : rd.boundaries.e0.1 = 'p' <;> by_cases h2 : v < rd.box_lo.e0 <;>
  by_cases h3 : rd.boundaries.e0.2 = 'p' <;> by_cases h4 : rd.box_hi.e0 ≤ v <;>
  simp [decodeValue, correctorContract, h1, h2, h3, h4]

theorem decodeValue_Y (rd : LAMMPSReader) (v : ℚ) :
    decodeValue rd .Y v = some { AtomData.zero with
      y := (correctorContract rd.box_lo.e1 rd.box_hi.e1
        rd.boundaries.e1.1 rd.boundaries.e1.2 v) } := by
  by_cases h1 : rd.boundaries.e1.1 = 'p' <;> by_cases h2 : v < rd.box_lo.e1 <;>
  by_cases h3 : rd.boundaries.e1.2 = 'p' <;> by_cases h4 : rd.box_hi.e1 ≤ v <;>
  simp [decodeValue, correctorContract, h1, h2, h3, h4]

theorem decodeValue_Z (rd : LAMMPSReader) (v : ℚ) :
    decodeValue rd .Z v = some { AtomData.zero with
      z := (correctorContract rd.box_lo.e2 rd.box_hi.e2
        rd.boundaries.e2.1 rd.boundaries.e2.2 v) } := by
  by_cases h1 : rd.boundaries.e2.1 = 'p' <;> by_cases h2 : v < rd.box_lo.e2 <;>
  by_cases h3 : rd.boundaries.e2.2 = 'p' <;> by_cases h4 : rd.box_hi.e2 ≤ v <;>
  simp [decodeValue, correctorContract, h1, h2, h3, h4]

theorem decodeValue_XS (rd : LAMMPSReader) (v : ℚ) :
    decodeValue rd .XS v = some { AtomData.zero with
      xs := (correctorContract 0 1 rd.boundaries.e0.1 rd.boundaries.e0.2 v) } := by
  by_cases h1 : rd.boundaries.e0.1 = 'p' <;> by_cases h2 : v < 0 <;>
  by_cases h3 : rd.boundaries.e0.2 = 'p' <;> by_cases h4 : 1 ≤ v <;>
  simp [decodeValue, correctorContract, h1, h2, h3, h4]

theorem decodeValue_YS (rd : LAMMPSReader) (v : ℚ) :
    decodeValue rd .YS v = some { AtomData.zero with
      ys := (correctorContract 0 1 rd.boundaries.e1.1 rd.boundaries.e1.2 v) } := by
  by_cases h1 : rd.boundaries.e1.1 = 'p' <;> by_cases h2 : v < 0 <;>
  by_cases h3 : rd.boundaries.e1.2 = 'p' <;> by_cases h4 : 1 ≤ v <;>
  simp [decodeValue, correctorContract, h1, h2, h3, h4]

theorem decodeValue_ZS (rd : LAMMPSReader) (v : ℚ) :
    decodeValue rd .ZS v = some { AtomData.zero with
      zs := (correctorContract 0 1 rd.boundaries.e2.1 rd.boundaries.e2.2 v) } := by
  by_cases h1 : rd.boundaries.e2.1 = 'p' <;> by_cases h2 : v < 0 <;>
  by_cases h3 : rd.boundaries.e2.2 = 'p' <;> by_cases h4 : 1 ≤ v <;>
  simp [decodeValue, correctorContract, h1, h2, h3, h4]

theorem text_step_range (atoi : Str → Int) (atof : Str → ℚ) (ad0 : AtomData) (tok : Str)
    (name : Str) (hname : name ∈ ["x".toList, "y".toList, "z".toList]) :
    ∃ ad1, updateAtomData atoi atof ad0 name tok = some ad1 ∧
      ad1.slot (string_to_property name) = atof tok := by
  obtain ⟨ad1, h⟩ := updateAtomData_isSome atoi atof ad0 name tok (by
    simp only [List.mem_cons, List.mem_singleton, List.not_mem_nil, or_false] at hname
    rcases hname with h | h | h <;> subst h <;> decide)
  refine ⟨ad1, h, ?_⟩
  rw [updateAtomData_slot atoi atof ad0 ad1 name tok h]
  simp only [List.mem_cons, List.mem_singleton, List.not_mem_nil, or_false] at hname
  rcases hname with h | h | h <;> subst h <;> rfl

theorem countP_atomLines (p : Event → Bool) (hp : ∀ ad, p (.AtomLine ad) = false)
    {α : Type} (g : α → AtomData) :
    ∀ l : List α, (l.map (fun a => Event.AtomLine (g a))).countP p = 0
  | [] => rfl
  | a :: l => by
    simp [List.countP_cons, hp, countP_atomLines p hp g l]

theorem countP_events (atoi : Str → Int) (atof : Str → ℚ) (args : List Str)
    (p : Event → Bool) (hp : ∀ ad, p (.AtomLine ad) = false) (n : Nat)
    (hn : ∀ fr : TextFrame,
      ([Event.StartOfTimestep,
        Event.BoxBounds (fr.reader atoi atof).boundaries (fr.reader atoi atof).box_lo
          (fr.reader atoi atof).box_hi, Event.EndOfTimestep]).countP p = n) :
    ∀ frames : List TextFrame,
    (frames.flatMap (fun fr => fr.events atoi atof args)).countP p = frames.length * n
  | [] => by simp
  | fr :: frames => by
    have ih := countP_events atoi atof args p hp n hn frames
    have h2 : (fr.events atoi atof args).countP p = n := by
      rw [← hn fr]
      simp only [TextFrame.events, List.countP_cons, List.countP_nil, List.countP_append,
        countP_atomLines p hp, List.cons_append, List.nil_append]
      omega
    rw [List.flatMap_cons, List.countP_append, ih, h2, List.length_cons, Nat.succ_mul]
    omega

/-! ## Lemmas: headers and identifiers the decoders reject -/

theorem shaped_of_wellFormed (fr : TextFrame) (args : List Str) (h : fr.WellFormed args) :
    fr.Shaped := by
  obtain ⟨h1, h2, h3, h4, h5, h6, h7, h8, h9, h10, h11, _⟩ := h
  exact ⟨h1, h2, h3, h4, h5, h6, h7, h8, h9, h10, h11⟩

theorem name_mem_canonical (f : property) (h : f ≠ property.NULL_PROPERTY) :
    f.name ∈ canonicalIdentifiers := by
  cases f <;> first | exact absurd rfl h | decide

theorem string_to_property_null (s : Str) (h : s ∉ canonicalIdentifiers) :
    string_to_property s = property.NULL_PROPERTY := by
  by_contra hne
  have := string_to_property_name s hne
  exact h (this ▸ name_mem_canonical _ hne)

theorem columnMap_lookup_none (fr : TextFrame) (p : Str) (hp : p ∉ fr.columns) :
    fr.columnMap.lookup p = none := by
  cases h : fr.columnMap.lookup p with
  | none => rfl
  | some c =>
    rcases declareColumns_lookup fr.columns 2 [] [] p c (le_refl 2) h with h1 | ⟨h1, _, _⟩
    · simp at h1
    · exact absurd h1 hp

theorem args_all_declared (fr : TextFrame) (args : List Str)
    (h : ∀ p ∈ args, p ∈ fr.columns) :
    args.all (fun it => decide (fr.columnMap.count it ≠ 0)) = true := by
  rw [List.all_eq_true]
  intro p hp
  obtain ⟨c, hc, _⟩ := columnMap_lookup fr p (h p hp)
  simp [ColumnMap.count, hc]

theorem args_all_missing (fr : TextFrame) (args : List Str) (u : Str)
    (hu : u ∈ args) (h : u ∉ fr.columns) :
    args.all (fun it => decide (fr.columnMap.count it ≠ 0)) = false := by
  rw [List.all_eq_false]
  exact ⟨u, hu, by simp [ColumnMap.count, columnMap_lookup_none fr u h]⟩

theorem frame_explode (fr : TextFrame) (hs : fr.Shaped) :
    explode (joinSp ["ITEM:".toList, "BOX".toList, "BOUNDS".toList,
      fr.bound_x, fr.bound_y, fr.bound_z]) =
      ["ITEM:".toList, "BOX".toList, "BOUNDS".toList, fr.bound_x, fr.bound_y, fr.bound_z] ∧
    explode (joinSp [fr.xlo, fr.xhi]) = [fr.xlo, fr.xhi] ∧
    explode (joinSp [fr.ylo, fr.yhi]) = [fr.ylo, fr.yhi] ∧
    explode (joinSp [fr.zlo, fr.zhi]) = [fr.zlo, fr.zhi] ∧
    explode (joinSp ("ITEM:".toList :: "ATOMS".toList :: fr.columns)) =
      "ITEM:".toList :: "ATOMS".toList :: fr.columns := by
  obtain ⟨hbx, hby, hbz, hxlo, hxhi, hylo, hyhi, hzlo, hzhi, hcols, _⟩ := hs
  refine ⟨explode_joinSp _ ?_, explode_joinSp _ ?_, explode_joinSp _ ?_, explode_joinSp _ ?_,
    explode_joinSp _ ?_⟩
  · intro t ht
    simp only [List.mem_cons, List.mem_singleton, List.not_mem_nil, or_false] at ht
    rcases ht with h | h | h | h | h | h <;> subst h
    · exact isToken_item
    · exact isToken_box
    · exact isToken_bounds
    · exact hbx
    · exact hby
    · exact hbz
  · intro t ht
    simp only [List.mem_cons, List.mem_singleton, List.not_mem_nil, or_false] at ht
    rcases ht with h | h <;> subst h
    · exact hxlo
    · exact hxhi
  · intro t ht
    simp only [List.mem_cons, List.mem_singleton, List.not_mem_nil, or_false] at ht
    rcases ht with h | h <;> subst h
    · exact hylo
    · exact hyhi
  · intro t ht
    simp only [List.mem_cons, List.mem_singleton, List.not_mem_nil, or_false] at ht
    rcases ht with h | h <;> subst h
    · exact hzlo
    · exact hzhi
  · intro t ht
    simp only [List.mem_cons] at ht
    rcases ht with h | h | h
    · subst h; exact isToken_item
    · subst h; exact isToken_atoms
    · exact hcols t h

section
variable (atoi : Str → Int) (atof : Str → ℚ)

theorem readLoop_atomsTag_missing (args : List Str) (fuel : Nat) (rd : LAMMPSReader)
    (line : Str) (more : List Str) (ins : Bool) (ev : List Event) (cols : List Str)
    (hv : explode line = "ITEM:".toList :: "ATOMS".toList :: cols)
    (hall : args.all (fun it => decide ((declareColumns cols 2 [] []).1.count it ≠ 0)) = false) :
    readLoop atoi atof args (fuel + 1) ⟨rd, ⟨line :: more, false⟩, ins, [], [], ev⟩ =
      some ⟨.failure, ev, rd, ⟨more, false⟩⟩ := by
  rw [readLoop]
  simp only [getline_cons, hv]
  simp only [List.getElem?_cons_zero, List.getElem?_cons_succ, ↓reduceIte, List.drop_succ_cons,
    List.drop_zero, hall]
  simp

/-- The loop up to the `ATOMS` tag line of a frame, the tag line not yet read. -/
theorem readLoop_sections (args : List Str) (fr : TextFrame) (hs : fr.Shaped)
    (rd : LAMMPSReader) (rest : List Str) (k : Nat) :
    readLoop atoi atof args (k + 1 + 1 + 1)
        ⟨rd, ⟨(fr.lines.take 8) ++ rest, false⟩, false, [], [], []⟩ =
      readLoop atoi atof args k
        ⟨fr.reader atoi atof, ⟨rest, false⟩, true, [], [], fr.opening atoi atof⟩ := by
  obtain ⟨e1, e2, e3, e4, _⟩ := frame_explode fr hs
  simp only [TextFrame.lines, List.cons_append, List.nil_append, List.take_succ_cons,
    List.take_zero]
  rw [readLoop_timestep atoi atof args _ rd _ _ _ _ _ _ explode_marker,
    readLoop_numberOfAtoms atoi atof args _ _ _ _ _ _ _ _ _ _ explode_number,
    readLoop_box atoi atof args _ _ _ _ _ _ _ _ _ _ _ _ _ _ _ _ _ _ _ _ _ e1 e2 e3 e4]
  simp [TextFrame.reader, TextFrame.opening]

theorem lines_split (fr : TextFrame) (more : List Str) :
    fr.lines ++ more = fr.lines.take 8 ++
      (joinSp ("ITEM:".toList :: "ATOMS".toList :: fr.columns) ::
        (fr.atoms.map joinSp ++ more)) := by
  simp [TextFrame.lines]

/-- The header of a frame whose `ATOMS` tag line declares every requested
identifier: the loop goes on to the atom lines. -/
theorem readLoop_header (args : List Str) (fr : TextFrame) (hs : fr.Shaped)
    (hargs : ∀ p ∈ args, p ∈ fr.columns)
    (rd : LAMMPSReader) (more : List Str) (k : Nat) :
    readLoop atoi atof args (k + 1 + 1 + 1 + 1) ⟨rd, ⟨fr.lines ++ more, false⟩, false, [], [], []⟩ =
      readLoop atoi atof args k
        ⟨fr.reader atoi atof, ⟨fr.atoms.map joinSp ++ more, false⟩, true, fr.columnMap,
          fr.columns, fr.opening atoi atof⟩ := by
  obtain ⟨_, _, _, _, e5⟩ := frame_explode fr hs
  have hdc := declareColumns_frame fr
  rw [lines_split, readLoop_sections atoi atof args fr hs,
    readLoop_atomsTag atoi atof args _ _ _ _ _ _ fr.columns e5
      (by rw [hdc]; exact args_all_declared fr args hargs), hdc]

/-- The header of a frame whose `ATOMS` tag line lacks a requested identifier. -/
theorem readLoop_header_missing (args : List Str) (fr : TextFrame) (hs : fr.Shaped)
    (u : Str) (hu : u ∈ args) (hmiss : u ∉ fr.columns)
    (rd : LAMMPSReader) (more : List Str) (k : Nat) :
    readLoop atoi atof args (k + 1 + 1 + 1 + 1) ⟨rd, ⟨fr.lines ++ more, false⟩, false, [], [], []⟩ =
      some ⟨.failure, fr.opening atoi atof, fr.reader atoi atof,
        ⟨fr.atoms.map joinSp ++ more, false⟩⟩ := by
  obtain ⟨_, _, _, _, e5⟩ := frame_explode fr hs
  have hdc := declareColumns_frame fr
  rw [lines_split, readLoop_sections atoi atof args fr hs,
    readLoop_atomsTag_missing atoi atof args _ _ _ _ _ _ fr.columns e5
      (by rw [hdc]; exact args_all_missing fr args u hu hmiss)]

end

theorem updateAtomData_mem (atoi : Str → Int) (atof : Str → ℚ) (ad ad1 : AtomData)
    (q tok : Str) (h : updateAtomData atoi atof ad q tok = some ad1) :
    q ∈ textIdentifiers := by
  revert h
  unfold updateAtomData
  repeat' refine Assign_some (fun _ => q ∈ textIdentifiers) ?_ ?_
  all_goals first
    | (intro h; cases h; done)
    | (intro hp; subst hp; decide)

theorem textIdentifiers_known (q : Str) (h : q ∈ textIdentifiers) :
    string_to_property q ≠ property.NULL_PROPERTY := by
  simp only [textIdentifiers, List.mem_cons, List.mem_singleton, List.not_mem_nil, or_false] at h
  rcases h with h | h | h | h | h | h | h | h | h | h | h | h | h | h | h | h | h | h | h | h
    | h | h | h | h | h | h | h | h | h <;> subst h <;> decide

theorem updateAtomData_unknown (atoi : Str → Int) (atof : Str → ℚ) (ad : AtomData)
    (u tok : Str) (h : string_to_property u = property.NULL_PROPERTY) :
    updateAtomData atoi atof ad u tok = none := by
  cases h1 : updateAtomData atoi atof ad u tok with
  | none => rfl
  | some ad1 => exact absurd h (textIdentifiers_known u (updateAtomData_mem atoi atof ad ad1 u tok h1))

theorem resolveFields_unknown (u : Str) (h : string_to_property u = property.NULL_PROPERTY) :
    ∀ (args : List Str), u ∈ args → resolveFields args = none
  | [], hu => by simp at hu
  | a :: as, hu => by
    simp only [resolveFields]
    by_cases ha : string_to_property a = property.NULL_PROPERTY
    · rw [if_pos ha]
    · rw [if_neg ha]
      rcases List.mem_cons.mp hu with rfl | hu
      · exact absurd h ha
      · rw [resolveFields_unknown u h as hu]; rfl

theorem ReadBinaryFrame_unknown (args : List Str) (u : Str) (hu : u ∈ args)
    (h : string_to_property u = property.NULL_PROPERTY) (rd : LAMMPSReader)
    (input : Option BinaryFrame) :
    (ReadBinaryFrame args rd input).result = .failure ∧
    (ReadBinaryFrame args rd input).events = [] := by
  cases input with
  | none => simp [ReadBinaryFrame]
  | some fr =>
    by_cases ht : fr.triclinic = 0
    · by_cases hn : (fr.nfields % 2 ^ 32).toNat = args.length
      · simp only [ReadBinaryFrame, ht, hn, ne_eq, not_true_eq_false, ↓reduceIte,
          resolveFields_unknown u h args hu, and_self]
      · simp only [ReadBinaryFrame, ht, hn, ne_eq, not_true_eq_false, not_false_eq_true,
          ↓reduceIte, and_self]
    · simp only [ReadBinaryFrame, ht, ne_eq, not_false_eq_true, ↓reduceIte, and_self]

theorem processColumns_unknown (atoi : Str → Int) (atof : Str → ℚ) (rd : LAMMPSReader)
    (v : List Str) (cm : ColumnMap) (u : Str)
    (hun : ∀ ad tok, updateAtomData atoi atof ad u tok = none) :
    ∀ (args : List Str) (ad : AtomData), u ∈ args →
    (∀ p ∈ args, ∃ c, cm.lookup p = some c ∧ c < v.length) →
    ∃ cm1, processColumns atoi atof rd v args cm ad = .unknownProperty cm1
  | [], _, hu, _ => by simp at hu
  | p :: args, ad, hu, h => by
    obtain ⟨c, hc, hlt⟩ := h p (by simp)
    cases h1 : updateAtomData atoi atof ad p v[c] with
    | none => exact ⟨cm, by simp [processColumns, ColumnMap.index, hc, hlt, h1]⟩
    | some ad1 =>
      have hne : u ≠ p := by
        rintro rfl
        rw [hun] at h1
        cases h1
      have hu2 : u ∈ args := by
        rcases List.mem_cons.mp hu with h2 | h2
        · exact absurd h2 hne
        · exact h2
      obtain ⟨cm1, h2⟩ := processColumns_unknown atoi atof rd v cm u hun args
        (checkPBC rd p ad1) hu2 (fun q hq => h q (List.mem_cons_of_mem _ hq))
      exact ⟨cm1, by simp [processColumns, ColumnMap.index, hc, hlt, h1, h2]⟩

section
variable (atoi : Str → Int) (atof : Str → ℚ)

theorem readLoop_atomLine_count (args : List Str) (fuel : Nat) (rd : LAMMPSReader)
    (line : Str) (more : List Str) (ins : Bool) (cm : ColumnMap) (av : List Str)
    (ev : List Event) (t : Str) (ts : List Str)
    (hv : explode line = t :: ts) (ht : t ≠ "ITEM:".toList)
    (hlen : (t :: ts).length ≠ av.length) :
    readLoop atoi atof args (fuel + 1) ⟨rd, ⟨line :: more, false⟩, ins, cm, av, ev⟩ =
      some ⟨.failure, ev, rd, ⟨more, false⟩⟩ := by
  rw [readLoop]
  simp only [getline_cons, hv, List.getElem?_cons_zero, ht, ↓reduceIte, hlen, ne_eq,
    not_false_eq_true]

theorem readLoop_atomLine_unknown (args : List Str) (fuel : Nat) (rd : LAMMPSReader)
    (line : Str) (more : List Str) (ins : Bool) (cm cm1 : ColumnMap) (av : List Str)
    (ev : List Event) (t : Str) (ts : List Str)
    (hv : explode line = t :: ts) (ht : t ≠ "ITEM:".toList)
    (hlen : (t :: ts).length = av.length)
    (hun : processColumns atoi atof rd (t :: ts) args cm AtomData.zero = .unknownProperty cm1) :
    readLoop atoi atof args (fuel + 1) ⟨rd, ⟨line :: more, false⟩, ins, cm, av, ev⟩ =
      some ⟨.failure, ev, rd, ⟨more, false⟩⟩ := by
  rw [readLoop]
  simp only [getline_cons, hv, List.getElem?_cons_zero, ht, ↓reduceIte, hlen, ne_eq,
    not_true_eq_false, hun]

theorem ReadFrame_fuel (s : Str) (fr : TextFrame) (rest : List Str) (rd : LAMMPSReader) :
    ReadFrame atoi atof s rd ⟨fr.lines ++ rest, false⟩ =
      readLoop atoi atof (explode s) (fr.atoms.length + rest.length + 6 + 1 + 1 + 1 + 1)
        ⟨rd, ⟨fr.lines ++ rest, false⟩, false, [], [], []⟩ := by
  have hlen : (fr.lines ++ rest).length + 1 =
      fr.atoms.length + rest.length + 6 + 1 + 1 + 1 + 1 := by
    simp only [TextFrame.lines, List.length_append, List.length_cons, List.length_nil,
      List.length_map]
    omega
  simp only [ReadFrame, Bool.false_eq_true, ↓reduceIte, hlen]

theorem atomLines_opening (fr : TextFrame) : atomLines (fr.opening atoi atof) = [] := rfl

theorem atomLines_opening_end (fr : TextFrame) :
    atomLines (fr.opening atoi atof ++ [Event.EndOfTimestep]) = [] := rfl

end

section
variable (atoi : Str → Int) (atof : Str → ℚ)

theorem ReadFrame_missing (s : Str) (fr : TextFrame) (frames : List TextFrame)
    (hs : fr.Shaped) (rd : LAMMPSReader) (hmiss : ∃ p ∈ explode s, p ∉ fr.columns) :
    ReadFrame atoi atof s rd (streamOf (fr :: frames)) =
      some ⟨.failure, fr.opening atoi atof, fr.reader atoi atof,
        ⟨fr.atoms.map joinSp ++ (streamOf frames).rest, false⟩⟩ := by
  obtain ⟨u, hu, hmiss⟩ := hmiss
  rw [streamOf_cons, ReadFrame_fuel, readLoop_header_missing atoi atof _ fr hs u hu hmiss]

theorem ReadFrame_declared (s : Str) (fr : TextFrame) (frames : List TextFrame)
    (hs : fr.Shaped) (rd : LAMMPSReader) (hall : ∀ p ∈ explode s, p ∈ fr.columns) :
    ReadFrame atoi atof s rd (streamOf (fr :: frames)) =
      readLoop atoi atof (explode s) (fr.atoms.length + (streamOf frames).rest.length + 6)
        ⟨fr.reader atoi atof, ⟨fr.atoms.map joinSp ++ (streamOf frames).rest, false⟩, true,
          fr.columnMap, fr.columns, fr.opening atoi atof⟩ := by
  rw [streamOf_cons, ReadFrame_fuel, readLoop_header atoi atof _ fr hs hall]

theorem ReadFrame_unknown (s u : Str) (hu : u ∈ explode s)
    (hnull : string_to_property u = property.NULL_PROPERTY)
    (rd : LAMMPSReader) (fr : TextFrame) (frames : List TextFrame) (hs : fr.Shaped) :
    ∃ r, ReadFrame atoi atof s rd (streamOf (fr :: frames)) = some r ∧
      atomLines r.events = [] ∧
      (r.result = .failure ↔ (fr.atoms ≠ [] ∨ ∃ p ∈ explode s, p ∉ fr.columns)) := by
  by_cases hall : ∀ p ∈ explode s, p ∈ fr.columns
  · rw [ReadFrame_declared atoi atof s fr frames hs rd hall]
    have hs2 := hs
    obtain ⟨_, _, _, _, _, _, _, _, _, _, hatoms⟩ := hs2
    obtain ⟨k, hk⟩ : ∃ k, fr.atoms.length + (streamOf frames).rest.length + 6 = k + 1 :=
      ⟨_, rfl⟩
    rw [hk]
    have hno : ¬ ∃ p ∈ explode s, p ∉ fr.columns := by
      rintro ⟨p, hp, hp2⟩
      exact hp2 (hall p hp)
    cases hat : fr.atoms with
    | nil =>
      simp only [List.map_nil, List.nil_append]
      cases frames with
      | nil =>
        simp only [streamOf, List.flatMap_nil]
        rw [readLoop_eof]
        exact ⟨_, rfl, rfl, by simp [hno]⟩
      | cons f2 fs =>
        rw [streamOf_rest_cons, readLoop_marker atoi atof _ _ _ _ _ _ _ _ explode_marker]
        exact ⟨_, rfl, rfl, by simp [hno]⟩
    | cons a as =>
      obtain ⟨hlen, htok, hne, hhead⟩ := hatoms a (by rw [hat]; exact List.mem_cons_self _ _)
      obtain ⟨t, ts, rfl⟩ : ∃ t ts, a = t :: ts := by
        cases a with
        | nil => exact absurd rfl hne
        | cons t ts => exact ⟨t, ts, rfl⟩
      have ht : t ≠ "ITEM:".toList := by
        intro h
        exact hhead (by simp [h])
      obtain ⟨cm1, hcm1⟩ := processColumns_unknown atoi atof (fr.reader atoi atof) (t :: ts)
        fr.columnMap u (fun ad tok => updateAtomData_unknown atoi atof ad u tok hnull)
        (explode s) AtomData.zero hu (fun p hp => by
          obtain ⟨c, hc, hlt⟩ := columnMap_lookup fr p (hall p hp)
          exact ⟨c, hc, by rw [hlen]; exact hlt⟩)
      simp only [List.map_cons, List.cons_append]
      rw [readLoop_atomLine_unknown atoi atof _ _ _ _ _ _ _ cm1 _ _ t ts
        (explode_joinSp _ htok) ht hlen hcm1]
      exact ⟨_, rfl, rfl, by simp⟩
  · have hmiss : ∃ p ∈ explode s, p ∉ fr.columns := by
      push_neg at hall
      exact hall
    rw [ReadFrame_missing atoi atof s fr frames hs rd hmiss]
    exact ⟨_, rfl, rfl, by simp [hmiss]⟩

theorem ReadFrame_extraLine (s : Str) (fr : TextFrame) (bad : Str) (rest : List Str)
    (hwf : fr.WellFormed (explode s)) (rd : LAMMPSReader) :
    ReadFrame atoi atof s rd ⟨fr.lines ++ bad :: rest, false⟩ =
      readLoop atoi atof (explode s) (rest.length + 6 + 1)
        ⟨fr.reader atoi atof, ⟨bad :: rest, false⟩, true, fr.columnMap, fr.columns,
          fr.opening atoi atof ++
            fr.atoms.map (fun a => Event.AtomLine (fr.record atoi atof (explode s) a))⟩ := by
  have hlen : (fr.lines ++ bad :: rest).length + 1 - 4 - fr.atoms.length =
      rest.length + 6 + 1 := by
    simp only [TextFrame.lines, List.length_append, List.length_cons, List.length_nil,
      List.length_map]
    omega
  simp only [ReadFrame, Bool.false_eq_true, ↓reduceIte]
  rw [readLoop_frame atoi atof (explode s) fr hwf rd _ _ (Nat.lt_succ_self _), hlen]
  rfl

end

theorem updateAtomData_known_iff (atoi : Str → Int) (atof : Str → ℚ) (ad : AtomData)
    (q tok : Str) (hmu : q ≠ "mu".toList) :
    (updateAtomData atoi atof ad q tok).isSome ↔
      string_to_property q ≠ property.NULL_PROPERTY := by
  constructor
  · intro h
    obtain ⟨ad1, h1⟩ := Option.isSome_iff_exists.mp h
    exact textIdentifiers_known q (updateAtomData_mem atoi atof ad ad1 q tok h1)
  · intro h
    have hq : q ∈ canonicalIdentifiers := by
      rw [string_to_property_name q h]
      exact name_mem_canonical _ h
    have hq2 : q ∈ textIdentifiers := by
      have : canonicalIdentifiers = textIdentifiers ++ ["mu".toList] := by decide
      rw [this, List.mem_append, List.mem_singleton] at hq
      rcases hq with hq | hq
      · exact hq
      · exact absurd hq hmu
    obtain ⟨ad1, h1⟩ := updateAtomData_isSome atoi atof ad q tok hq2
    rw [h1]; rfl

theorem decodeValue_other_slots (rd : LAMMPSReader) (f : property) (val : ℚ) (ad : AtomData)
    (h : decodeValue rd f val = some ad) (g : property) (hg : g ≠ f) : ad.slot g = 0 := by
  cases f <;> simp only [decodeValue] at h <;>
    first
    | (cases h; done)
    | (split_ifs at h <;> cases h <;> cases g <;> first | rfl | exact absurd rfl hg)
    | (cases h; cases g <;> first | rfl | exact absurd rfl hg)

/-! ## Lemmas: what explode returns -/

theorem find_none_not_mem : ∀ (s : Str), find s = none → ' ' ∉ s
  | [], _ => by simp
  | c :: t, h => by
    simp only [find] at h
    split_ifs at h with hc
    have ht : find t = none := by
      cases hf : find t with
      | none => rfl
      | some q => rw [hf] at h; simp at h
    have := find_none_not_mem t ht
    simp only [List.mem_cons, not_or]
    exact ⟨fun e => hc e.symm, this⟩

theorem find_some_split : ∀ (s : Str) (p : Nat), find s = some p →
    s = s.take p ++ ' ' :: s.drop (p + 1) ∧ ' ' ∉ s.take p
  | [], p, h => by simp [find] at h
  | c :: t, p, h => by
    simp only [find] at h
    split_ifs at h with hc
    · cases h
      subst hc
      simp
    · obtain ⟨q, hq, rfl⟩ := Option.map_eq_some'.mp h
      obtain ⟨h1, h2⟩ := find_some_split t q hq
      constructor
      · simp only [List.take_succ_cons, List.drop_succ_cons, List.cons_append]
        rw [← h1]
      · simp only [List.take_succ_cons, List.mem_cons, not_or]
        exact ⟨fun e => hc e.symm, h2⟩

theorem splitOnP_append_sep {α : Type} (p : α → Bool) (sep : α) (hsep : p sep = true)
    (b : List α) : ∀ a : List α,
    List.splitOnP p (a ++ sep :: b) = List.splitOnP p a ++ List.splitOnP p b
  | [] => by simp [List.splitOnP_cons, hsep]
  | c :: a => by
    have ih := splitOnP_append_sep p sep hsep b a
    simp only [List.cons_append, List.splitOnP_cons, ih]
    by_cases hc : p c = true
    · simp [hc]
    · simp only [hc, Bool.false_eq_true, ↓reduceIte]
      cases hs : List.splitOnP p a with
      | nil => exact absurd hs (List.splitOnP_ne_nil p a)
      | cons x xs => rfl

theorem maximalTokens_append_space (a b : Str) :
    maximalTokens (a ++ ' ' :: b) = maximalTokens a ++ maximalTokens b := by
  simp only [maximalTokens, List.splitOn]
  rw [splitOnP_append_sep _ ' ' (by simp) b a, List.filter_append]

theorem maximalTokens_of_not_mem (s : Str) (h : ' ' ∉ s) :
    maximalTokens s = if s.isEmpty then [] else [s] := by
  simp only [maximalTokens, List.splitOn]
  rw [List.splitOnP_eq_single _ s (by
    intro x hx
    simp only [beq_iff_eq]
    rintro rfl
    exact h hx)]
  cases s <;> simp

theorem explodeLoop_spec : ∀ (fuel : Nat) (s : Str) (v : List Str),
    s.length < fuel → explodeLoop fuel s v = some (v ++ maximalTokens s)
  | 0, _, _, h => by omega
  | fuel + 1, s, v, h => by
    rw [explodeLoop]
    cases hf : find s with
    | none =>
      simp only
      rw [maximalTokens_of_not_mem s (find_none_not_mem s hf)]
      cases s <;> simp
    | some p =>
      have hp := find_lt s p hf
      obtain ⟨h1, h2⟩ := find_some_split s p hf
      simp only
      rw [explodeLoop_spec fuel (s.drop (p + 1)) _ (by simp; omega)]
      conv_rhs => rw [h1, maximalTokens_append_space, maximalTokens_of_not_mem _ h2]
      cases ht : s.take p <;> simp

theorem explode_eq_maximalTokens (s : Str) : explode s = maximalTokens s := by
  simp [explode, explodeLoop_spec _ s [] (Nat.lt_succ_self _)]

theorem explodeLoop_tokens : ∀ (fuel : Nat) (s : Str) (v r : List Str),
    (∀ t ∈ v, isToken t) → explodeLoop fuel s v = some r → ∀ t ∈ r, isToken t
  | 0, _, _, _, _, h => by simp [explodeLoop] at h
  | fuel + 1, s, v, r, hv, h => by
    rw [explodeLoop] at h
    cases hf : find s with
    | none =>
      rw [hf] at h
      simp only [Option.some.injEq] at h
      subst h
      intro t ht
      by_cases hs : s.isEmpty = true
      · rw [if_pos hs] at ht; exact hv t ht
      · rw [if_neg hs] at ht
        rcases List.mem_append.mp ht with h1 | h1
        · exact hv t h1
        · rw [List.mem_singleton] at h1
          subst h1
          exact ⟨fun e => hs (by simp [e]), find_none_not_mem _ hf⟩
    | some p =>
      rw [hf] at h
      simp only at h
      obtain ⟨_, h2⟩ := find_some_split s p hf
      refine explodeLoop_tokens fuel _ _ r ?_ h
      intro t ht
      by_cases hs : (s.take p).isEmpty = true
      · rw [if_pos hs] at ht; exact hv t ht
      · rw [if_neg hs] at ht
        rcases List.mem_append.mp ht with h1 | h1
        · exact hv t h1
        · rw [List.mem_singleton] at h1
          subst h1
          exact ⟨fun e => hs (by simp [e]), h2⟩

theorem explode_tokens (s : Str) : ∀ t ∈ explode s, isToken t := by
  obtain ⟨r, hr⟩ := Option.isSome_iff_exists.mp
    (explodeLoop_isSome (s.length + 1) s [] (Nat.lt_succ_self _))
  have := explodeLoop_tokens _ s [] r (by simp) hr
  simpa [explode, hr] using this

/-! ## Lemmas: the binary header and the single shift -/

theorem boundaryLetter_code (c : Int) (old : Char) (h0 : 0 ≤ c) (h3 : c ≤ 3) :
    boundaryLetter c old = letterOfCode c := by
  unfold boundaryLetter letterOfCode
  by_cases a0 : c = 0
  · simp [a0]
  · by_cases a1 : c = 1
    · simp [a1]
    · by_cases a2 : c = 2
      · simp [a2]
      · have a3 : c = 3 := by omega
        simp [a3]

theorem wrap32_eq_iff (i : Int) : wrap32 i = i ↔ -2 ^ 31 ≤ i ∧ i < 2 ^ 31 := by
  unfold wrap32
  norm_num
  omega

theorem readBlock_events (rd : LAMMPSReader) (fields : List property) (k : Nat) :
    ∀ (vals : List ℚ) (field : Nat) (ev : List Event) (tot : Int),
    ∃ recs : List AtomData,
      (readBlock rd fields k vals field ev tot).events = ev ++ recs.map Event.AtomLine
  | [], field, ev, tot => ⟨[], by simp [readBlock, BlockResult.events]⟩
  | val :: vals, field, ev, tot => by
    rw [readBlock]
    cases hf : fields[field]? with
    | none => exact ⟨[], by simp [BlockResult.events]⟩
    | some f =>
      simp only
      cases hd : decodeValue rd f val with
      | none => exact ⟨[], by simp [BlockResult.events]⟩
      | some ad =>
        simp only
        by_cases hlast : field + 1 = k
        · rw [if_pos hlast]
          obtain ⟨recs, h⟩ := readBlock_events rd fields k vals 0 (ev ++ [.AtomLine ad])
            (wrap32 (tot + 1))
          exact ⟨ad :: recs, by rw [h]; simp⟩
        · rw [if_neg hlast]
          exact readBlock_events rd fields k vals (field + 1) ev tot

theorem readBlocks_events (rd : LAMMPSReader) (fields : List property) (k : Nat) :
    ∀ (blocks : List (List ℚ)) (ev : List Event) (tot : Int),
    ∃ recs : List AtomData,
      (readBlocks rd fields k blocks ev tot).events = ev ++ recs.map Event.AtomLine
  | [], ev, tot => ⟨[], by simp [readBlocks, BlockResult.events]⟩
  | blk :: blks, ev, tot => by
    obtain ⟨r1, h1⟩ := readBlock_events rd fields k blk 0 ev tot
    rw [readBlocks]
    cases hb : readBlock rd fields k blk 0 ev tot with
    | running ev1 tot1 =>
      rw [hb] at h1
      simp only [BlockResult.events] at h1
      obtain ⟨r2, h2⟩ := readBlocks_events rd fields k blks ev1 tot1
      exact ⟨r1 ++ r2, by simp only; rw [h2, h1]; simp⟩
    | returnedFalse ev1 =>
      rw [hb] at h1
      exact ⟨r1, h1⟩
    | outOfRange ev1 =>
      rw [hb] at h1
      exact ⟨r1, h1⟩

theorem wrap32_range (i : Int) : -2 ^ 31 ≤ wrap32 i ∧ wrap32 i < 2 ^ 31 := by
  unfold wrap32
  norm_num
  omega

theorem wrap32_congruent (i : Int) : (wrap32 i - i) % 2 ^ 32 = 0 := by
  unfold wrap32
  norm_num
  omega

theorem correctorContract_single_shift (lo hi v : ℚ) (h : lo < hi) :
    ((lo ≤ correctorContract lo hi 'p' 'p' v ∧ correctorContract lo hi 'p' 'p' v < hi) ↔
      withinOneLength lo hi v) ∧
    (withinOneLength lo hi v →
      correctorContract lo hi 'p' 'p' (correctorContract lo hi 'p' 'p' v) =
        correctorContract lo hi 'p' 'p' v) := by
  unfold withinOneLength
  by_cases h1 : v < lo
  · have e : correctorContract lo hi 'p' 'p' v = v + (hi - lo) := by
      simp [correctorContract, h1]
    rw [e]
    refine ⟨⟨fun a => ⟨by linarith, by linarith⟩, fun a => ⟨by linarith, by linarith⟩⟩, ?_⟩
    intro a
    have n1 : ¬ (v + (hi - lo) < lo) := by linarith
    have n2 : ¬ (hi ≤ v + (hi - lo)) := by linarith
    simp [correctorContract, n1, n2]
  · by_cases h2 : hi ≤ v
    · have e : correctorContract lo hi 'p' 'p' v = v - (hi - lo) := by
        simp [correctorContract, h1, h2]
      rw [e]
      refine ⟨⟨fun a => ⟨by linarith, by linarith⟩, fun a => ⟨by linarith, by linarith⟩⟩, ?_⟩
      intro a
      have n1 : ¬ (v - (hi - lo) < lo) := by linarith
      have n2 : ¬ (hi ≤ v - (hi - lo)) := by linarith
      simp [correctorContract, n1, n2]
    · have e : correctorContract lo hi 'p' 'p' v = v := by
        simp [correctorContract, h1, h2]
      rw [e]
      refine ⟨⟨fun _ => ⟨by linarith, by linarith⟩, fun _ => ⟨by linarith, by linarith⟩⟩, ?_⟩
      intro _
      rw [e]

theorem fieldTrace_lt (k : Nat) : ∀ (vals : List ℚ) (field : Nat), field < k →
    ∀ i ∈ fieldTrace k vals field, i < k
  | [], _, _, i, hi => by simp [fieldTrace] at hi
  | _ :: vals, field, hf, i, hi => by
    simp only [fieldTrace, List.mem_cons] at hi
    rcases hi with rfl | hi
    · exact hf
    · refine fieldTrace_lt k vals _ ?_ i hi
      split_ifs <;> omega

theorem ReadBinaryFrame_counts (args : List Str) (rd : LAMMPSReader) (fr : BinaryFrame) :
    (ReadBinaryFrame args rd (some fr)).reader.last_tstep = wrap32 fr.tstep ∧
    (ReadBinaryFrame args rd (some fr)).reader.n_atoms = wrap32 fr.natoms := by
  simp only [ReadBinaryFrame]
  split_ifs <;> first | exact ⟨rfl, rfl⟩ | (split <;> first | exact ⟨rfl, rfl⟩ | (split <;> first | exact ⟨rfl, rfl⟩ | (split_ifs <;> exact ⟨rfl, rfl⟩)))

theorem ReadBinaryFrame_header (args : List Str) (rd : LAMMPSReader) (fr : BinaryFrame)
    (htri : fr.triclinic = 0) :
    (ReadBinaryFrame args rd (some fr)).reader = fr.reader rd ∧
    (((ReadBinaryFrame args rd (some fr)).events = [] ∧
        ((fr.nfields % 2 ^ 32).toNat ≠ args.length ∨ resolveFields args = none)) ∨
      ∃ (recs : List AtomData) (fin : List Event),
        (ReadBinaryFrame args rd (some fr)).events =
          fr.opening rd ++ recs.map Event.AtomLine ++ fin ∧
        (fin = [] ∨ fin = [Event.EndOfTimestep])) := by
  simp only [ReadBinaryFrame, htri, ne_eq, not_true_eq_false, ↓reduceIte]
  by_cases hn : (fr.nfields % 2 ^ 32).toNat = args.length
  · rw [if_neg (not_not.mpr hn)]
    cases hres : resolveFields args with
    | none => exact ⟨rfl, Or.inl ⟨rfl, Or.inr rfl⟩⟩
    | some fields =>
      obtain ⟨recs, h⟩ := readBlocks_events (fr.reader rd) fields
        (fr.nfields % 2 ^ 32).toNat fr.blocks (fr.opening rd) 0
      simp only [BinaryFrame.reader, BinaryFrame.opening] at h ⊢
      generalize readBlocks _ fields _ fr.blocks _ 0 = res at h ⊢
      cases res with
      | running ev tot =>
        simp only [BlockResult.events] at h
        simp only
        by_cases htot : tot = wrap32 fr.natoms
        · rw [if_neg (not_not.mpr htot)]
          exact ⟨rfl, Or.inr ⟨recs, [.EndOfTimestep], by rw [h], Or.inr rfl⟩⟩
        · rw [if_pos htot]
          exact ⟨rfl, Or.inr ⟨recs, [], by rw [h, List.append_nil], Or.inl rfl⟩⟩
      | returnedFalse ev =>
        simp only [BlockResult.events] at h
        exact ⟨rfl, Or.inr ⟨recs, [], by rw [h, List.append_nil], Or.inl rfl⟩⟩
      | outOfRange ev =>
        simp only [BlockResult.events] at h
        exact ⟨rfl, Or.inr ⟨recs, [], by rw [h, List.append_nil], Or.inl rfl⟩⟩
  · rw [if_pos hn]
    exact ⟨rfl, Or.inl ⟨rfl, Or.inl hn⟩⟩

/-! ## The claims -/

/-- C1 (code defect): with the field-spec `id x`, the record handed to the
atom-line hook for the atom whose two values are `7.0 3.0` has `x = 3` but
`id = 0`: the record is zeroed before every value, so only the last field of
an atom is populated. -/
theorem C1_binary_record_keeps_last_field_only :
    ReadBinaryFrame ["id".toList, "x".toList] LAMMPSReader.init (some binaryFrameIdX) =
      ⟨.success,
        [.StartOfTimestep,
         .BoxBounds ⟨('f', 'f'), ('f', 'f'), ('f', 'f')⟩ ⟨0, 0, 0⟩ ⟨10, 10, 10⟩,
         .AtomLine { AtomData.zero with x := 3 },
         .EndOfTimestep],
        binaryFrameIdX.reader LAMMPSReader.init⟩ := by
  decide!

/-- C2 (code defect): in text mode with the field-spec `z zs` and the atom
line `5 1.5` in the periodic box `[0, 10)`, the emitted `z` is `4`, not the
parsed in-range value `5`: the upper-side branch for `zs` subtracts from the
`z` slot. -/
theorem C2_text_z_changed_by_zs_branch :
    ReadFrame atoiDec atofDec "z zs".toList LAMMPSReader.init (streamOf [textFrameZZs]) =
      some ⟨.success,
        [.StartOfTimestep,
         .BoxBounds ⟨('p', 'p'), ('p', 'p'), ('p', 'p')⟩ ⟨0, 0, 0⟩ ⟨10, 10, 10⟩,
         .AtomLine { AtomData.zero with z := 4, zs := 3 / 2 },
         .EndOfTimestep],
        textFrameZZs.reader atoiDec atofDec, ⟨[], true⟩⟩ := by
  decide!

/-- C3 (code defect): in text mode with the field-spec `zs` and the atom line
`1.5`, upper side of `z` periodic, the emitted `zs` is still `3/2` (not
`1/2`) and the unrequested slot `z` is `-1`. -/
theorem C3_text_zs_upper_side_not_wrapped :
    ReadFrame atoiDec atofDec "zs".toList LAMMPSReader.init (streamOf [textFrameZs]) =
      some ⟨.success,
        [.StartOfTimestep,
         .BoxBounds ⟨('p', 'p'), ('p', 'p'), ('p', 'p')⟩ ⟨0, 0, 0⟩ ⟨10, 10, 10⟩,
         .AtomLine { AtomData.zero with z := -1, zs := 3 / 2 },
         .EndOfTimestep],
        textFrameZs.reader atoiDec atofDec, ⟨[], true⟩⟩ := by
  decide!

/-- C4: the binary per-value decoding step writes, for each of the six
coordinate fields, the value given by the corrector contract into that
field's own slot (range: the axis box bounds for `x y z`, `[0, 1)` for
`xs ys zs`); for a range with `lo < hi` the contract leaves a value at `lo`
unchanged and maps a value at `hi` with a periodic upper side to `lo`. -/
theorem C4_binary_coordinate_step (rd : LAMMPSReader) (v : ℚ) :
    decodeValue rd .X v = some { AtomData.zero with
      x := (correctorContract rd.box_lo.e0 rd.box_hi.e0
        rd.boundaries.e0.1 rd.boundaries.e0.2 v) } ∧
    decodeValue rd .Y v = some { AtomData.zero with
      y := (correctorContract rd.box_lo.e1 rd.box_hi.e1
        rd.boundaries.e1.1 rd.boundaries.e1.2 v) } ∧
    decodeValue rd .Z v = some { AtomData.zero with
      z := (correctorContract rd.box_lo.e2 rd.box_hi.e2
        rd.boundaries.e2.1 rd.boundaries.e2.2 v) } ∧
    decodeValue rd .XS v = some { AtomData.zero with
      xs := (correctorContract 0 1 rd.boundaries.e0.1 rd.boundaries.e0.2 v) } ∧
    decodeValue rd .YS v = some { AtomData.zero with
      ys := (correctorContract 0 1 rd.boundaries.e1.1 rd.boundaries.e1.2 v) } ∧
    decodeValue rd .ZS v = some { AtomData.zero with
      zs := (correctorContract 0 1 rd.boundaries.e2.1 rd.boundaries.e2.2 v) } ∧
    (∀ (lo hi : ℚ) (l u : Char), lo < hi → correctorContract lo hi l u lo = lo) ∧
    (∀ (lo hi : ℚ) (l : Char), lo < hi → correctorContract lo hi l 'p' hi = lo) :=
  ⟨decodeValue_X rd v, decodeValue_Y rd v, decodeValue_Z rd v, decodeValue_XS rd v,
    decodeValue_YS rd v, decodeValue_ZS rd v, correctorContract_at_lo,
    correctorContract_at_hi⟩

/-- C5 (counterexample): in the periodic box `[0, 10)` the coordinate `25` is
emitted as `15` by the binary step and by the text step for field `x`, and
`15` is not below the upper bound `10`. -/
theorem C5_counterexample_two_lengths_outside :
    decodeValue periodicBox10 .X 25 = some { AtomData.zero with x := 15 } ∧
    checkPBC periodicBox10 "x".toList { AtomData.zero with x := 25 } =
      { AtomData.zero with x := 15 } ∧
    ¬ ((15 : ℚ) < periodicBox10.box_hi.e0) := by
  decide!

/-- C5 (amended): for a box axis with `lo < hi`, both sides periodic, and a
value at most one box length outside `[lo, hi)`, the value written to the
slot of an unscaled coordinate field lies in `[lo, hi)`: by the binary
decoding step, and by the text field step (`updateAtomData` followed by the
periodic-boundary chain) for the value parsed from the token. -/
theorem C5_single_shift_lands_in_range (atoi : Str → Int) (atof : Str → ℚ)
    (rd : LAMMPSReader) (v : ℚ) (ad0 : AtomData) (tok : Str) :
    (rd.boundaries.e0 = ('p', 'p') → rd.box_lo.e0 < rd.box_hi.e0 →
      (withinOneLength rd.box_lo.e0 rd.box_hi.e0 v →
        ∃ ad, decodeValue rd .X v = some ad ∧ rd.box_lo.e0 ≤ ad.x ∧ ad.x < rd.box_hi.e0) ∧
      (withinOneLength rd.box_lo.e0 rd.box_hi.e0 (atof tok) →
        ∃ ad1, updateAtomData atoi atof ad0 "x".toList tok = some ad1 ∧
          rd.box_lo.e0 ≤ (checkPBC rd "x".toList ad1).x ∧
          (checkPBC rd "x".toList ad1).x < rd.box_hi.e0)) ∧
    (rd.boundaries.e1 = ('p', 'p') → rd.box_lo.e1 < rd.box_hi.e1 →
      (withinOneLength rd.box_lo.e1 rd.box_hi.e1 v →
        ∃ ad, decodeValue rd .Y v = some ad ∧ rd.box_lo.e1 ≤ ad.y ∧ ad.y < rd.box_hi.e1) ∧
      (withinOneLength rd.box_lo.e1 rd.box_hi.e1 (atof tok) →
        ∃ ad1, updateAtomData atoi atof ad0 "y".toList tok = some ad1 ∧
          rd.box_lo.e1 ≤ (checkPBC rd "y".toList ad1).y ∧
          (checkPBC rd "y".toList ad1).y < rd.box_hi.e1)) ∧
    (rd.boundaries.e2 = ('p', 'p') → rd.box_lo.e2 < rd.box_hi.e2 →
      (withinOneLength rd.box_lo.e2 rd.box_hi.e2 v →
        ∃ ad, decodeValue rd .Z v = some ad ∧ rd.box_lo.e2 ≤ ad.z ∧ ad.z < rd.box_hi.e2) ∧
      (withinOneLength rd.box_lo.e2 rd.box_hi.e2 (atof tok) →
        ∃ ad1, updateAtomData atoi atof ad0 "z".toList tok = some ad1 ∧
          rd.box_lo.e2 ≤ (checkPBC rd "z".toList ad1).z ∧
          (checkPBC rd "z".toList ad1).z < rd.box_hi.e2)) := by
  refine ⟨fun hb _ => ⟨fun hv => ?_, fun hv => ?_⟩, fun hb _ => ⟨fun hv => ?_, fun hv => ?_⟩,
    fun hb _ => ⟨fun hv => ?_, fun hv => ?_⟩⟩
  · refine ⟨_, decodeValue_X rd v, ?_⟩
    have h1 : rd.boundaries.e0.1 = 'p' := by rw [hb]
    have h2 : rd.boundaries.e0.2 = 'p' := by rw [hb]
    rw [h1, h2]
    exact correctorContract_range _ _ v hv.1 hv.2
  · obtain ⟨ad1, h, hs⟩ := text_step_range atoi atof ad0 tok "x".toList (by decide)
    refine ⟨ad1, h, ?_⟩
    have h1 : rd.boundaries.e0.1 = 'p' := by rw [hb]
    have h2 : rd.boundaries.e0.2 = 'p' := by rw [hb]
    have hx : ad1.x = atof tok := hs
    rw [checkPBC_x, h1, h2]
    show _ ≤ correctorContract _ _ _ _ ad1.x ∧ correctorContract _ _ _ _ ad1.x < _
    rw [hx]
    exact correctorContract_range _ _ _ hv.1 hv.2
  · refine ⟨_, decodeValue_Y rd v, ?_⟩
    have h1 : rd.boundaries.e1.1 = 'p' := by rw [hb]
    have h2 : rd.boundaries.e1.2 = 'p' := by rw [hb]
    rw [h1, h2]
    exact correctorContract_range _ _ v hv.1 hv.2
  · obtain ⟨ad1, h, hs⟩ := text_step_range atoi atof ad0 tok "y".toList (by decide)
    refine ⟨ad1, h, ?_⟩
    have h1 : rd.boundaries.e1.1 = 'p' := by rw [hb]
    have h2 : rd.boundaries.e1.2 = 'p' := by rw [hb]
    have hx : ad1.y = atof tok := hs
    rw [checkPBC_y, h1, h2]
    show _ ≤ correctorContract _ _ _ _ ad1.y ∧ correctorContract _ _ _ _ ad1.y < _
    rw [hx]
    exact correctorContract_range _ _ _ hv.1 hv.2
  · refine ⟨_, decodeValue_Z rd v, ?_⟩
    have h1 : rd.boundaries.e2.1 = 'p' := by rw [hb]
    have h2 : rd.boundaries.e2.2 = 'p' := by rw [hb]
    rw [h1, h2]
    exact correctorContract_range _ _ v hv.1 hv.2
  · obtain ⟨ad1, h, hs⟩ := text_step_range atoi atof ad0 tok "z".toList (by decide)
    refine ⟨ad1, h, ?_⟩
    have h1 : rd.boundaries.e2.1 = 'p' := by rw [hb]
    have h2 : rd.boundaries.e2.2 = 'p' := by rw [hb]
    have hx : ad1.z = atof tok := hs
    rw [checkPBC_z, h1, h2]
    show _ ≤ correctorContract _ _ _ _ ad1.z ∧ correctorContract _ _ _ _ ad1.z < _
    rw [hx]
    exact correctorContract_range _ _ _ hv.1 hv.2

/-- C5 (instance): the value `11` in the periodic box `[0, 10)` is written by
the binary step as a value of `[0, 10)`. -/
theorem C5_single_shift_witness :
    ∃ ad, decodeValue periodicBox10 .X 11 = some ad ∧
      periodicBox10.box_lo.e0 ≤ ad.x ∧ ad.x < periodicBox10.box_hi.e0 :=
  ((C5_single_shift_lands_in_range atoiDec atofDec periodicBox10 11 AtomData.zero
      "11".toList).1 (by decide) (by decide!)).1 (by unfold withinOneLength; decide!)

/-- C6: whatever the box, the boundary letters, the other requested fields
and the record before the line, a record that the text decoder produces for
an atom line holds, in the slot of every requested unwrapped coordinate field
(`xu yu zu xsu ysu zsu`), exactly `atof` of the token in that field's column:
nothing is added or subtracted. -/
theorem C6_text_unwrapped_fields_pass_through (atoi : Str → Int) (atof : Str → ℚ)
    (rd : LAMMPSReader) (v args : List Str) (cm : ColumnMap) (ad0 : AtomData)
    (cm1 : ColumnMap) (ad : AtomData)
    (h : processColumns atoi atof rd v args cm ad0 = .done cm1 ad) :
    ("xu".toList ∈ args → ad.xu = atof (v.getD (cm.col "xu".toList) [])) ∧
    ("yu".toList ∈ args → ad.yu = atof (v.getD (cm.col "yu".toList) [])) ∧
    ("zu".toList ∈ args → ad.zu = atof (v.getD (cm.col "zu".toList) [])) ∧
    ("xsu".toList ∈ args → ad.xsu = atof (v.getD (cm.col "xsu".toList) [])) ∧
    ("ysu".toList ∈ args → ad.ysu = atof (v.getD (cm.col "ysu".toList) [])) ∧
    ("zsu".toList ∈ args → ad.zsu = atof (v.getD (cm.col "zsu".toList) [])) := by
  have key : ∀ f : property, f.isWrapped = false → f.isInt = false →
      f ≠ property.NULL_PROPERTY → f.name ∈ args →
      ad.slot f = atof (v.getD (cm.col f.name) []) := by
    intro f h1 h2 h3 h4
    rw [processColumns_slot atoi atof rd v f h1 h3 args cm ad0 cm1 ad h]
    simp [h4, textValue, h2]
  exact ⟨key .XU rfl rfl (by decide), key .YU rfl rfl (by decide),
    key .ZU rfl rfl (by decide), key .XSU rfl rfl (by decide),
    key .YSU rfl rfl (by decide), key .ZSU rfl rfl (by decide)⟩

/-- C6 (instance): the line `-3.5 0.25` with columns `xu x` in the periodic
box `[0, 10)`: the emitted `xu` is the parsed `-3.5`. -/
theorem C6_text_unwrapped_witness :
    ({ AtomData.zero with xu := -7 / 2, x := 1 / 4 } : AtomData).xu =
      atofDec (["-3.5".toList, "0.25".toList].getD
        (ColumnMap.col [("x".toList, 1), ("xu".toList, 0)] "xu".toList) []) :=
  (C6_text_unwrapped_fields_pass_through atoiDec atofDec periodicBox10
    ["-3.5".toList, "0.25".toList] ["xu".toList, "x".toList]
    [("x".toList, 1), ("xu".toList, 0)] AtomData.zero
    [("x".toList, 1), ("xu".toList, 0)] { AtomData.zero with xu := -7 / 2, x := 1 / 4 }
    (by decide!)).1 (by decide)

/-- C7: on a stream of `N ≥ 1` well-formed frames with a field-spec valid for
all of them, call number `k + 1` (`k < N`) of `ReadFrame` returns success,
leaves the timestep id and atom count of frame `k` in the reader, fires the
atom-line hook exactly for the atom lines of frame `k`, in order, and leaves
the stream at the first line of frame `k + 1`; call number `N + 1` returns
failure without firing a hook. -/
theorem C7_text_calls_decode_successive_frames (atoi : Str → Int) (atof : Str → ℚ)
    (s : Str) (frames : List TextFrame) (rd : LAMMPSReader)
    (hne : frames ≠ []) (hwf : ∀ f ∈ frames, f.WellFormed (explode s)) :
    (∀ (k : Nat) (fr : TextFrame), frames[k]? = some fr →
      ∃ r, nthCall atoi atof s k rd (streamOf frames) = some r ∧
        r.result = Outcome.success ∧
        r.reader.last_tstep = atoi fr.tstep ∧ r.reader.n_atoms = atoi fr.natoms ∧
        atomLines r.events = fr.atoms.map (fr.record atoi atof (explode s)) ∧
        r.file.rest = (frames.drop (k + 1)).flatMap TextFrame.lines) ∧
    (∃ r, nthCall atoi atof s frames.length rd (streamOf frames) = some r ∧
      r.result = Outcome.failure ∧ r.events = []) := by
  constructor
  · intro k fr hk
    refine ⟨_, nthCall_frame atoi atof s frames k fr rd hwf hk, rfl, rfl, rfl,
      atomLines_events atoi atof fr (explode s), ?_⟩
    unfold leftover
    split_ifs with h
    · simp [h]
    · rfl
  · obtain ⟨rd1, h⟩ := nthCall_after atoi atof s frames rd hwf hne
    exact ⟨_, h, rfl, rfl⟩

/-- C7 (instance): on the stream of `textFrameA` then `textFrameB` with the
field-spec `id x`, the second call decodes `textFrameB`. -/
theorem C7_text_calls_witness :
    ∃ r, nthCall atoiDec atofDec "id x".toList 1 LAMMPSReader.init
        (streamOf [textFrameA, textFrameB]) = some r ∧
      r.result = Outcome.success ∧
      r.reader.last_tstep = atoiDec textFrameB.tstep ∧
      r.reader.n_atoms = atoiDec textFrameB.natoms ∧
      atomLines r.events =
        textFrameB.atoms.map (textFrameB.record atoiDec atofDec (explode "id x".toList)) ∧
      r.file.rest = ([textFrameA, textFrameB].drop (1 + 1)).flatMap TextFrame.lines :=
  (C7_text_calls_decode_successive_frames atoiDec atofDec "id x".toList
    [textFrameA, textFrameB] LAMMPSReader.init (by decide) (by decide!)).1 1 textFrameB rfl

/-- C8: on a stream of `N` well-formed frames read by `N` calls of
`ReadFrame`, every call succeeds and the hook calls made, in order, are for
each frame in turn one `StartOfTimestep`, one `BoxBounds`, one `AtomLine` per
atom line of the frame, one `EndOfTimestep`; so `StartOfTimestep`,
`BoxBounds` and `EndOfTimestep` are each fired exactly `N` times. -/
theorem C8_text_hook_sequence (atoi : Str → Int) (atof : Str → ℚ)
    (s : Str) (frames : List TextFrame) (rd : LAMMPSReader)
    (hwf : ∀ f ∈ frames, f.WellFormed (explode s)) :
    (∀ k, k < frames.length →
      ∃ r, nthCall atoi atof s k rd (streamOf frames) = some r ∧
        r.result = Outcome.success) ∧
    ∃ trace, traceOfCalls atoi atof s frames.length rd (streamOf frames) = some trace ∧
      trace = frames.flatMap (fun fr =>
        [Event.StartOfTimestep,
         Event.BoxBounds (fr.reader atoi atof).boundaries (fr.reader atoi atof).box_lo
           (fr.reader atoi atof).box_hi]
        ++ fr.atoms.map (fun a => Event.AtomLine (fr.record atoi atof (explode s) a))
        ++ [Event.EndOfTimestep]) ∧
      trace.countP Event.isStart = frames.length ∧
      trace.countP Event.isBoxBounds = frames.length ∧
      trace.countP Event.isEnd = frames.length := by
  constructor
  · intro k hk
    exact ⟨_, nthCall_frame atoi atof s frames k frames[k] rd hwf
      (List.getElem?_eq_getElem hk), rfl⟩
  · refine ⟨frames.flatMap (fun fr => fr.events atoi atof (explode s)), ?_, rfl, ?_, ?_, ?_⟩
    · cases frames with
      | nil => rfl
      | cons f fs =>
        have h := traceOfCalls_frames atoi atof s (f :: fs) rd hwf
        simpa [leftover] using h
    · simpa using countP_events atoi atof (explode s) Event.isStart (fun _ => rfl) 1
        (fun _ => rfl) frames
    · simpa using countP_events atoi atof (explode s) Event.isBoxBounds (fun _ => rfl) 1
        (fun _ => rfl) frames
    · simpa using countP_events atoi atof (explode s) Event.isEnd (fun _ => rfl) 1
        (fun _ => rfl) frames

/-- C8 (instance): the trace of two calls on the stream of `textFrameA` then
`textFrameB` holds two `StartOfTimestep` calls. -/
theorem C8_text_hook_sequence_witness :
    ∃ trace, traceOfCalls atoiDec atofDec "id x".toList [textFrameA, textFrameB].length
        LAMMPSReader.init (streamOf [textFrameA, textFrameB]) = some trace ∧
      trace = [textFrameA, textFrameB].flatMap (fun fr =>
        [Event.StartOfTimestep,
         Event.BoxBounds (fr.reader atoiDec atofDec).boundaries
           (fr.reader atoiDec atofDec).box_lo (fr.reader atoiDec atofDec).box_hi]
        ++ fr.atoms.map (fun a =>
            Event.AtomLine (fr.record atoiDec atofDec (explode "id x".toList) a))
        ++ [Event.EndOfTimestep]) ∧
      trace.countP Event.isStart = [textFrameA, textFrameB].length ∧
      trace.countP Event.isBoxBounds = [textFrameA, textFrameB].length ∧
      trace.countP Event.isEnd = [textFrameA, textFrameB].length :=
  (C8_text_hook_sequence atoiDec atofDec "id x".toList [textFrameA, textFrameB]
    LAMMPSReader.init (by decide!)).2

/-- C9 (counterexample): a header declaring `2 ^ 32` atoms with no atom
streamed (`0 ≠ 2 ^ 32`) is accepted, the count being compared as a 32-bit
`int`; and with an empty field-spec a value in a block indexes the empty
field array, so the call neither fails nor succeeds in the model. -/
theorem C9_counterexample_narrowed_count :
    (ReadBinaryFrame ["id".toList] LAMMPSReader.init (some binaryFrameHugeCount)).result =
      Outcome.success ∧
    (streamedAtoms 1 binaryFrameHugeCount.blocks : Int) ≠ binaryFrameHugeCount.natoms ∧
    (ReadBinaryFrame [] LAMMPSReader.init (some binaryFrameNoField)).result =
      Outcome.undefined ∧
    (streamedAtoms 0 binaryFrameNoField.blocks : Int) = binaryFrameNoField.natoms := by
  decide!

/-- C9 (amended): for a frame with zero triclinic flag, declared field count
equal to the length `k ≥ 1` of the field-spec, every identifier known, and
fewer than `2 ^ 31` atoms streamed (so that the `int` counter `atoms_total`
holds their number), `ReadBinaryFrame` returns failure if and only if the
number of atoms streamed differs from the header's atom count as narrowed to
the 32-bit `n_atoms`; otherwise it returns success after firing the
end-of-frame hook last.  The narrowed count is the declared one whenever that
fits a 32-bit `int`. -/
theorem C9_binary_count_check (args : List Str) (rd : LAMMPSReader) (fr : BinaryFrame)
    (htri : fr.triclinic = 0) (hcount : (fr.nfields % 2 ^ 32).toNat = args.length)
    (hargs : args ≠ [])
    (hknown : ∀ a ∈ args, string_to_property a ≠ property.NULL_PROPERTY)
    (hM : (streamedAtoms args.length fr.blocks : Int) < 2 ^ 31) :
    ((ReadBinaryFrame args rd (some fr)).result = Outcome.failure ↔
      (streamedAtoms args.length fr.blocks : Int) ≠ wrap32 fr.natoms) ∧
    ((streamedAtoms args.length fr.blocks : Int) = wrap32 fr.natoms →
      (ReadBinaryFrame args rd (some fr)).result = Outcome.success ∧
      (ReadBinaryFrame args rd (some fr)).events.getLast? = some Event.EndOfTimestep) ∧
    (-2 ^ 31 ≤ fr.natoms → fr.natoms < 2 ^ 31 → wrap32 fr.natoms = fr.natoms) := by
  obtain ⟨recs, hlen, h⟩ := ReadBinaryFrame_checked args rd fr htri hcount hargs hknown
  have hw : wrap32 (recs.length : Int) = (streamedAtoms args.length fr.blocks : Int) := by
    rw [hlen]
    exact wrap32_small _ hM
  rw [h, hw]
  refine ⟨?_, ?_, ?_⟩
  · split_ifs with hc
    · simp [hc]
    · simp [hc]
  · intro heq
    simp [heq]
  · intro h1 h2
    unfold wrap32
    omega

/-- C9 (instance): `binaryFrameIdX` read with the field-spec `id x`. -/
theorem C9_binary_count_check_witness :
    (ReadBinaryFrame ["id".toList, "x".toList] LAMMPSReader.init
        (some binaryFrameIdX)).result = Outcome.failure ↔
      (streamedAtoms ["id".toList, "x".toList].length binaryFrameIdX.blocks : Int) ≠
        wrap32 binaryFrameIdX.natoms :=
  (C9_binary_count_check ["id".toList, "x".toList] LAMMPSReader.init binaryFrameIdX
    (by decide) (by decide) (by decide) (by decide) (by decide)).1

/-- C10 (counterexample): with `D = 2 ^ 32` declared and `M = 0` atoms
streamed the call fires `EndOfTimestep` and returns success; and with a
non-zero triclinic flag (`D = 1`, `M = 0`) it fails without firing any hook. -/
theorem C10_counterexample_mismatch_not_reported :
    ReadBinaryFrame ["id".toList] LAMMPSReader.init (some binaryFrameHugeCount) =
      ⟨.success,
        [.StartOfTimestep,
         .BoxBounds ⟨('f', 'f'), ('f', 'f'), ('f', 'f')⟩ ⟨0, 0, 0⟩ ⟨10, 10, 10⟩,
         .EndOfTimestep],
        binaryFrameHugeCount.reader LAMMPSReader.init⟩ ∧
    (ReadBinaryFrame ["id".toList] LAMMPSReader.init (some binaryFrameTriclinic)).result =
      Outcome.failure ∧
    (ReadBinaryFrame ["id".toList] LAMMPSReader.init (some binaryFrameTriclinic)).events =
      [] := by
  decide!

/-- C10 (amended): for a frame that passes the header checks (zero triclinic
flag, declared field count equal to the length `k ≥ 1` of the field-spec,
every identifier known) and whose blocks hold `M` complete atoms with
`M < 2 ^ 31` (so that the `int` counter `atoms_total` holds `M`) and `M`
different from the declared count as narrowed to the 32-bit `n_atoms`,
`ReadBinaryFrame` fires `StartOfTimestep`, `BoxBounds`, then `AtomLine`
exactly `M` times and nothing else, and returns failure. -/
theorem C10_binary_mismatch_keeps_fired_hooks (args : List Str) (rd : LAMMPSReader)
    (fr : BinaryFrame)
    (htri : fr.triclinic = 0) (hcount : (fr.nfields % 2 ^ 32).toNat = args.length)
    (hargs : args ≠ [])
    (hknown : ∀ a ∈ args, string_to_property a ≠ property.NULL_PROPERTY)
    (hM : (streamedAtoms args.length fr.blocks : Int) < 2 ^ 31)
    (hmis : (streamedAtoms args.length fr.blocks : Int) ≠ wrap32 fr.natoms) :
    ∃ recs : List AtomData, recs.length = streamedAtoms args.length fr.blocks ∧
      ReadBinaryFrame args rd (some fr) =
        ⟨.failure,
          [Event.StartOfTimestep,
           Event.BoxBounds (fr.reader rd).boundaries (fr.reader rd).box_lo
             (fr.reader rd).box_hi] ++ recs.map Event.AtomLine,
          fr.reader rd⟩ := by
  obtain ⟨recs, hlen, h⟩ := ReadBinaryFrame_checked args rd fr htri hcount hargs hknown
  have hw : wrap32 (recs.length : Int) = (streamedAtoms args.length fr.blocks : Int) := by
    rw [hlen]
    exact wrap32_small _ hM
  refine ⟨recs, hlen, ?_⟩
  rw [h, if_pos (by rw [hw]; exact hmis)]
  rfl

/-- C10 (instance): 100 atoms declared, 99 streamed. -/
theorem C10_binary_mismatch_witness :
    ∃ recs : List AtomData, recs.length = streamedAtoms ["id".toList].length
        binaryFrame99of100.blocks ∧
      ReadBinaryFrame ["id".toList] LAMMPSReader.init (some binaryFrame99of100) =
        ⟨.failure,
          [Event.StartOfTimestep,
           Event.BoxBounds (binaryFrame99of100.reader LAMMPSReader.init).boundaries
             (binaryFrame99of100.reader LAMMPSReader.init).box_lo
             (binaryFrame99of100.reader LAMMPSReader.init).box_hi] ++
            recs.map Event.AtomLine,
          binaryFrame99of100.reader LAMMPSReader.init⟩ :=
  C10_binary_mismatch_keeps_fired_hooks ["id".toList] LAMMPSReader.init binaryFrame99of100
    (by decide) (by decide) (by decide) (by decide) (by decide) (by decide!)

/-- C11: a binary frame whose declared fields-per-atom count (the header word
as the decoder holds it, an `unsigned int`) differs from the number of
identifiers of the field-spec makes `ReadBinaryFrame` return failure with no
hook fired, and the outcome does not depend on the processor blocks: no atom
data is read. -/
theorem C11_binary_field_count_mismatch (args : List Str) (rd : LAMMPSReader)
    (fr : BinaryFrame) (h : (fr.nfields % 2 ^ 32).toNat ≠ args.length) :
    (ReadBinaryFrame args rd (some fr)).result = .failure ∧
    (ReadBinaryFrame args rd (some fr)).events = [] ∧
    ∀ blocks : List (List ℚ),
      ReadBinaryFrame args rd (some { fr with blocks := blocks }) =
        ReadBinaryFrame args rd (some fr) := by
  by_cases ht : fr.triclinic = 0
  · simp only [ReadBinaryFrame, ht, h, ne_eq, not_true_eq_false, not_false_eq_true, ↓reduceIte,
      and_self, implies_true]
  · simp only [ReadBinaryFrame, ht, ne_eq, not_false_eq_true, ↓reduceIte, and_self, implies_true]

/-- C11 at a frame declaring three fields per atom read with the field-spec
`id x`. -/
theorem C11_binary_field_count_witness :
    (binaryFrameThreeFields.nfields % 2 ^ 32).toNat ≠ (explode "id x".toList).length ∧
    (ReadBinaryFrame (explode "id x".toList) LAMMPSReader.init
      (some binaryFrameThreeFields)).result = .failure ∧
    (ReadBinaryFrame (explode "id x".toList) LAMMPSReader.init
      (some binaryFrameThreeFields)).events = [] :=
  ⟨by decide,
   (C11_binary_field_count_mismatch _ LAMMPSReader.init binaryFrameThreeFields
      (by decide)).1,
   (C11_binary_field_count_mismatch _ LAMMPSReader.init binaryFrameThreeFields
      (by decide)).2.1⟩

/-- C12 (counterexample): in text mode the field-spec `foo`, an identifier
outside the canonical set, read against a frame whose `ATOMS` tag line declares
the column `foo` and that has no atom line, returns success. -/
theorem C12_counterexample_no_atom_line :
    "foo".toList ∈ explode "foo".toList ∧
    string_to_property "foo".toList = property.NULL_PROPERTY ∧
    ReadFrame atoiDec atofDec "foo".toList LAMMPSReader.init (streamOf [textFrameFooEmpty]) =
      some ⟨.success,
        [.StartOfTimestep,
         .BoxBounds ⟨('p', 'p'), ('p', 'p'), ('p', 'p')⟩ ⟨0, 0, 0⟩ ⟨10, 10, 10⟩,
         .EndOfTimestep],
        textFrameFooEmpty.reader atoiDec atofDec, ⟨[], true⟩⟩ := by
  decide!

/-- C12 (amended): with a field-spec that contains an identifier outside the
canonical set, the binary decoder returns failure with no hook fired on every
input, and the text decoder never fires the atom-line hook on a frame; the
text decoder returns failure exactly when the frame has an atom line or a
requested identifier is not a declared column. -/
theorem C12_unknown_identifier_rejected (atoi : Str → Int) (atof : Str → ℚ) (s u : Str)
    (hu : u ∈ explode s) (hnull : string_to_property u = property.NULL_PROPERTY) :
    (∀ (rd : LAMMPSReader) (input : Option BinaryFrame),
      (ReadBinaryFrame (explode s) rd input).result = .failure ∧
      (ReadBinaryFrame (explode s) rd input).events = []) ∧
    (∀ (rd : LAMMPSReader) (fr : TextFrame) (frames : List TextFrame), fr.Shaped →
      ∃ r, ReadFrame atoi atof s rd (streamOf (fr :: frames)) = some r ∧
        atomLines r.events = [] ∧
        (r.result = .failure ↔ (fr.atoms ≠ [] ∨ ∃ p ∈ explode s, p ∉ fr.columns))) :=
  ⟨fun rd input => ReadBinaryFrame_unknown (explode s) u hu hnull rd input,
   fun rd fr frames hs => ReadFrame_unknown atoi atof s u hu hnull rd fr frames hs⟩

/-- C12 (amended) at the field-spec `id foo`: a binary frame, and a text frame
with the columns `id foo` and one atom line. -/
theorem C12_unknown_identifier_witness :
    "foo".toList ∈ explode "id foo".toList ∧
    string_to_property "foo".toList = property.NULL_PROPERTY ∧
    (ReadBinaryFrame (explode "id foo".toList) LAMMPSReader.init
      (some binaryFrameIdX)).result = .failure ∧
    ∃ r, ReadFrame atoiDec atofDec "id foo".toList LAMMPSReader.init
        (streamOf [textFrameFoo]) = some r ∧
      atomLines r.events = [] ∧ r.result = .failure :=
  ⟨by decide, by decide,
   ((C12_unknown_identifier_rejected atoiDec atofDec "id foo".toList "foo".toList
      (by decide) (by decide)).1 LAMMPSReader.init (some binaryFrameIdX)).1,
   by
    obtain ⟨r, h1, h2, h3⟩ :=
      (C12_unknown_identifier_rejected atoiDec atofDec "id foo".toList "foo".toList
        (by decide) (by decide)).2 LAMMPSReader.init textFrameFoo [] (by decide)
    exact ⟨r, h1, h2, h3.mpr (Or.inl (by decide))⟩⟩

/-- C13: in text mode, for a frame whose `ATOMS` tag line declares the columns
`C`: if the field-spec holds an identifier that is not in `C`, `ReadFrame`
returns failure at the tag line, the hooks fired being the start and box
hooks only and the stream left at the first atom line; if every requested
identifier is in `C`, the call goes on with the loop at the first atom line,
the columns declared. -/
theorem C13_text_missing_column (atoi : Str → Int) (atof : Str → ℚ) (s : Str)
    (fr : TextFrame) (frames : List TextFrame) (rd : LAMMPSReader) (hs : fr.Shaped) :
    ((∃ p ∈ explode s, p ∉ fr.columns) →
      ReadFrame atoi atof s rd (streamOf (fr :: frames)) =
        some ⟨.failure, fr.opening atoi atof, fr.reader atoi atof,
          ⟨fr.atoms.map joinSp ++ (streamOf frames).rest, false⟩⟩) ∧
    ((∀ p ∈ explode s, p ∈ fr.columns) →
      ReadFrame atoi atof s rd (streamOf (fr :: frames)) =
        readLoop atoi atof (explode s) (fr.atoms.length + (streamOf frames).rest.length + 6)
          ⟨fr.reader atoi atof, ⟨fr.atoms.map joinSp ++ (streamOf frames).rest, false⟩, true,
            fr.columnMap, fr.columns, fr.opening atoi atof⟩) :=
  ⟨ReadFrame_missing atoi atof s fr frames hs rd,
   ReadFrame_declared atoi atof s fr frames hs rd⟩

/-- C13 at a frame with the columns `id x` read with the field-spec `id vx`. -/
theorem C13_text_missing_column_witness :
    textFrameA.Shaped ∧
    ReadFrame atoiDec atofDec "id vx".toList LAMMPSReader.init (streamOf [textFrameA]) =
      some ⟨.failure, textFrameA.opening atoiDec atofDec, textFrameA.reader atoiDec atofDec,
        ⟨textFrameA.atoms.map joinSp ++ (streamOf []).rest, false⟩⟩ :=
  ⟨by decide,
   (C13_text_missing_column atoiDec atofDec "id vx".toList textFrameA [] LAMMPSReader.init
      (by decide)).1 ⟨"vx".toList, by decide, by decide⟩⟩

/-- C14: in text mode, an atom data line (first token not the tag marker)
that follows the atom lines of a well-formed frame: if its token count differs
from the number of declared columns, `ReadFrame` returns failure, the hooks
fired being those of the header and of the earlier atom lines, with no
atom-line hook for that line; if the count is the declared one the line is
decoded, its atom-line hook is fired, and the loop goes on. -/
theorem C14_text_token_count_check (atoi : Str → Int) (atof : Str → ℚ) (s : Str)
    (fr : TextFrame) (bad : Str) (rest : List Str) (rd : LAMMPSReader) (t : Str)
    (ts : List Str) (hwf : fr.WellFormed (explode s)) (hv : explode bad = t :: ts)
    (ht : t ≠ "ITEM:".toList) :
    ((t :: ts).length ≠ fr.columns.length →
      ReadFrame atoi atof s rd ⟨fr.lines ++ bad :: rest, false⟩ =
        some ⟨.failure,
          fr.opening atoi atof ++
            fr.atoms.map (fun a => Event.AtomLine (fr.record atoi atof (explode s) a)),
          fr.reader atoi atof, ⟨rest, false⟩⟩) ∧
    ((t :: ts).length = fr.columns.length →
      ∃ ad, ReadFrame atoi atof s rd ⟨fr.lines ++ bad :: rest, false⟩ =
        readLoop atoi atof (explode s) (rest.length + 6)
          ⟨fr.reader atoi atof, ⟨rest, false⟩, true, fr.columnMap, fr.columns,
            fr.opening atoi atof ++
              fr.atoms.map (fun a => Event.AtomLine (fr.record atoi atof (explode s) a)) ++
              [Event.AtomLine ad]⟩) := by
  constructor
  · intro hlen
    rw [ReadFrame_extraLine atoi atof s fr bad rest hwf rd,
      readLoop_atomLine_count atoi atof _ _ _ _ _ _ _ _ _ t ts hv ht hlen]
  · intro hlen
    obtain ⟨ad, had⟩ := processColumns_done atoi atof (fr.reader atoi atof) (t :: ts)
      fr.columnMap (explode s) AtomData.zero (fun p hp => by
        obtain ⟨c, hc, hlt⟩ := columnMap_lookup fr p (hwf.2.2.2.2.2.2.2.2.2.2.2 p hp).1
        exact ⟨(hwf.2.2.2.2.2.2.2.2.2.2.2 p hp).2, c, hc, by rw [hlen]; exact hlt⟩)
    refine ⟨ad, ?_⟩
    rw [ReadFrame_extraLine atoi atof s fr bad rest hwf rd,
      readLoop_atomLine atoi atof _ _ _ _ _ _ _ _ _ t ts ad hv ht hlen had]

/-- C14 at a frame with the columns `id x` followed by the one-token line `3`. -/
theorem C14_text_token_count_witness :
    textFrameA.WellFormed (explode "id x".toList) ∧
    explode "3".toList = ["3".toList] ∧
    ReadFrame atoiDec atofDec "id x".toList LAMMPSReader.init
        ⟨textFrameA.lines ++ ["3".toList], false⟩ =
      some ⟨.failure,
        textFrameA.opening atoiDec atofDec ++
          textFrameA.atoms.map (fun a =>
            Event.AtomLine (textFrameA.record atoiDec atofDec (explode "id x".toList) a)),
        textFrameA.reader atoiDec atofDec, ⟨[], false⟩⟩ :=
  ⟨by decide, by decide,
   (C14_text_token_count_check atoiDec atofDec "id x".toList textFrameA "3".toList []
      LAMMPSReader.init "3".toList [] (by decide) (by decide) (by decide)).1 (by decide)⟩

/-- C15: a binary frame whose triclinic flag is non-zero makes
`ReadBinaryFrame` return failure with no hook fired; the reader holds the
timestep and the atom count of the header and keeps its boundary letters and
box bounds, and nothing after the flag is looked at. -/
theorem C15_binary_triclinic_rejected (args : List Str) (rd : LAMMPSReader)
    (fr : BinaryFrame) (h : fr.triclinic ≠ 0) :
    ReadBinaryFrame args rd (some fr) =
      ⟨.failure, [],
        { rd with last_tstep := wrap32 fr.tstep, n_atoms := wrap32 fr.natoms }⟩ := by
  simp only [ReadBinaryFrame, h, ne_eq, not_false_eq_true, ↓reduceIte]

/-- C15 at a frame with triclinic flag 1 read with the field-spec `id`. -/
theorem C15_binary_triclinic_witness :
    binaryFrameTriclinic.triclinic ≠ 0 ∧
    ReadBinaryFrame ["id".toList] LAMMPSReader.init (some binaryFrameTriclinic) =
      ⟨.failure, [],
        { LAMMPSReader.init with last_tstep := wrap32 binaryFrameTriclinic.tstep,
                                 n_atoms := wrap32 binaryFrameTriclinic.natoms }⟩ :=
  ⟨by decide,
   C15_binary_triclinic_rejected ["id".toList] LAMMPSReader.init binaryFrameTriclinic
     (by decide)⟩

/-- C16 (code defect): a text frame with a triclinic box is not rejected: the
call returns success with all four hooks fired, the boundary letters handed
to the box hook being taken from the tokens `xy xz yz`. -/
theorem C16_text_triclinic_accepted :
    ReadFrame atoiDec atofDec "id".toList LAMMPSReader.init triclinicTextStream =
      some ⟨.success,
        [.StartOfTimestep,
         .BoxBounds ⟨('x', 'y'), ('x', 'z'), ('y', 'z')⟩ ⟨0, 0, 0⟩ ⟨10, 10, 10⟩,
         .AtomLine { AtomData.zero with id := 1 },
         .EndOfTimestep],
        { boundaries := ⟨('x', 'y'), ('x', 'z'), ('y', 'z')⟩,
          box_lo := ⟨0, 0, 0⟩, box_hi := ⟨10, 10, 10⟩, last_tstep := 0, n_atoms := 1 },
        ⟨[], true⟩⟩ := by
  decide!

/-- C17 (code defect): in text mode with the field-spec `zs`, which does not
hold `z`, the record handed to the atom-line hook for the line `1.5` has the
value `-1` in the slot `z`. -/
theorem C17_text_unrequested_slot_written :
    "z".toList ∉ explode "zs".toList ∧
    (ReadFrame atoiDec atofDec "zs".toList LAMMPSReader.init (streamOf [textFrameZs])).map
        (fun r => (atomLines r.events).map (fun ad => ad.slot property.Z)) =
      some [-1] := by
  decide!

/-- C18: `string_to_property` maps the thirty canonical identifiers, in order,
to the thirty enumerators other than `NULL_PROPERTY`, which are pairwise
distinct; an identifier that shares its slot with a canonical one is that
identifier; every other string maps to `NULL_PROPERTY`. -/
theorem C18_string_to_property_closed_injective :
    canonicalIdentifiers.map string_to_property = canonicalSlots ∧
    canonicalIdentifiers.length = 30 ∧ canonicalSlots.Nodup ∧
    property.NULL_PROPERTY ∉ canonicalSlots ∧
    (∀ s t : Str, s ∈ canonicalIdentifiers → string_to_property s = string_to_property t →
      s = t) ∧
    (∀ s : Str, s ∉ canonicalIdentifiers →
      string_to_property s = property.NULL_PROPERTY) := by
  refine ⟨by decide, by decide, by decide, by decide, ?_, string_to_property_null⟩
  intro s t hs hst
  have hs1 : string_to_property s ≠ property.NULL_PROPERTY := by
    intro h
    have h2 : string_to_property s ∈ canonicalSlots := by
      have h3 : canonicalIdentifiers.map string_to_property = canonicalSlots := by decide
      rw [← h3]
      exact List.mem_map_of_mem _ hs
    rw [h] at h2
    exact absurd h2 (by decide)
  rw [string_to_property_name s hs1, string_to_property_name t (hst ▸ hs1), hst]

/-- C19 (code defect): the identifier `mu` is known to `string_to_property`
(slot `MU`, not `NULL_PROPERTY`) while `updateAtomData` fails on it. -/
theorem C19_mu_known_but_not_assigned :
    string_to_property "mu".toList = property.MU ∧
    property.MU ≠ property.NULL_PROPERTY ∧
    updateAtomData atoiDec atofDec AtomData.zero "mu".toList "1.5".toList = none := by
  decide

/-- C20: in text mode a well-formed frame is decoded whatever atom count its
header declares: the call returns success, its hook calls are those of the
frame (start, box, one atom-line call per atom line, end), so the atom-line
hook fires once per atom line and the end hook fires, and the reader exposes
the declared count. -/
theorem C20_text_atom_count_not_checked (atoi : Str → Int) (atof : Str → ℚ) (s : Str)
    (fr : TextFrame) (frames : List TextFrame) (rd : LAMMPSReader)
    (hwf : fr.WellFormed (explode s)) :
    ∃ r, ReadFrame atoi atof s rd (streamOf (fr :: frames)) = some r ∧
      r.result = .success ∧
      r.events = fr.events atoi atof (explode s) ∧
      (atomLines r.events).length = fr.atoms.length ∧
      r.events.getLast? = some Event.EndOfTimestep ∧
      r.reader.n_atoms = atoi fr.natoms := by
  refine ⟨_, ReadFrame_frame atoi atof s fr frames hwf rd, rfl, rfl, ?_, ?_, rfl⟩
  · simp only [atomLines_events, List.length_map]
  · show (fr.events atoi atof (explode s)).getLast? = some Event.EndOfTimestep
    unfold TextFrame.events
    exact List.getLast?_concat _

/-- C20 at a frame that declares three atoms and holds two atom lines. -/
theorem C20_text_atom_count_witness :
    textFrameShort.WellFormed (explode "id x".toList) ∧
    (textFrameShort.atoms.length : Int) ≠ atoiDec textFrameShort.natoms ∧
    ∃ r, ReadFrame atoiDec atofDec "id x".toList LAMMPSReader.init
        (streamOf [textFrameShort]) = some r ∧
      r.result = .success ∧
      r.events = textFrameShort.events atoiDec atofDec (explode "id x".toList) ∧
      (atomLines r.events).length = textFrameShort.atoms.length ∧
      r.events.getLast? = some Event.EndOfTimestep ∧
      r.reader.n_atoms = atoiDec textFrameShort.natoms :=
  ⟨by decide, by decide,
   C20_text_atom_count_not_checked atoiDec atofDec "id x".toList textFrameShort []
     LAMMPSReader.init (by decide)⟩

/-- C21 (code defect): on an open text stream that is empty from the start,
the first call of `ReadFrame` returns success and fires the end hook, with no
start hook before it. -/
theorem C21_text_empty_stream_reports_a_frame :
    ReadFrame atoiDec atofDec "id".toList LAMMPSReader.init ⟨[], false⟩ =
      some ⟨.success, [.EndOfTimestep], LAMMPSReader.init, ⟨[], true⟩⟩ := by
  decide!

/-- C22: for a binary frame with triclinic flag zero whose six boundary codes
are in `0..3`, the reader holds after the call the letters of the codes in
wire order (`boundaries[axis][side]` from code `2 * axis + side`), the lower
bounds `(b0, b2, b4)` and the upper bounds `(b1, b3, b5)`; the box hook is the
second hook call whenever a hook is fired, it is handed exactly these values,
and hooks are fired when the field count and the identifiers pass the checks. -/
theorem C22_binary_header_boundaries_and_box (args : List Str) (rd : LAMMPSReader)
    (fr : BinaryFrame) (htri : fr.triclinic = 0)
    (hc : ∀ c ∈ [fr.c0, fr.c1, fr.c2, fr.c3, fr.c4, fr.c5], 0 ≤ c ∧ c ≤ 3) :
    (ReadBinaryFrame args rd (some fr)).reader.boundaries =
      ⟨(letterOfCode fr.c0, letterOfCode fr.c1), (letterOfCode fr.c2, letterOfCode fr.c3),
       (letterOfCode fr.c4, letterOfCode fr.c5)⟩ ∧
    (ReadBinaryFrame args rd (some fr)).reader.box_lo = ⟨fr.b0, fr.b2, fr.b4⟩ ∧
    (ReadBinaryFrame args rd (some fr)).reader.box_hi = ⟨fr.b1, fr.b3, fr.b5⟩ ∧
    ((ReadBinaryFrame args rd (some fr)).events = [] ∨
      ∃ (recs : List AtomData) (fin : List Event),
        (ReadBinaryFrame args rd (some fr)).events =
          [Event.StartOfTimestep,
           Event.BoxBounds
             ⟨(letterOfCode fr.c0, letterOfCode fr.c1),
              (letterOfCode fr.c2, letterOfCode fr.c3),
              (letterOfCode fr.c4, letterOfCode fr.c5)⟩
             ⟨fr.b0, fr.b2, fr.b4⟩ ⟨fr.b1, fr.b3, fr.b5⟩]
          ++ recs.map Event.AtomLine ++ fin ∧
        (fin = [] ∨ fin = [Event.EndOfTimestep])) ∧
    ((fr.nfields % 2 ^ 32).toNat = args.length →
      (∀ a ∈ args, string_to_property a ≠ property.NULL_PROPERTY) →
      (ReadBinaryFrame args rd (some fr)).events ≠ []) := by
  obtain ⟨h1, h2⟩ := ReadBinaryFrame_header args rd fr htri
  have e0 := boundaryLetter_code fr.c0 rd.boundaries.e0.1 (hc _ (by simp)).1 (hc _ (by simp)).2
  have e1 := boundaryLetter_code fr.c1 rd.boundaries.e0.2 (hc _ (by simp)).1 (hc _ (by simp)).2
  have e2 := boundaryLetter_code fr.c2 rd.boundaries.e1.1 (hc _ (by simp)).1 (hc _ (by simp)).2
  have e3 := boundaryLetter_code fr.c3 rd.boundaries.e1.2 (hc _ (by simp)).1 (hc _ (by simp)).2
  have e4 := boundaryLetter_code fr.c4 rd.boundaries.e2.1 (hc _ (by simp)).1 (hc _ (by simp)).2
  have e5 := boundaryLetter_code fr.c5 rd.boundaries.e2.2 (hc _ (by simp)).1 (hc _ (by simp)).2
  have hop : fr.opening rd =
      [Event.StartOfTimestep,
       Event.BoxBounds
         ⟨(letterOfCode fr.c0, letterOfCode fr.c1), (letterOfCode fr.c2, letterOfCode fr.c3),
          (letterOfCode fr.c4, letterOfCode fr.c5)⟩
         ⟨fr.b0, fr.b2, fr.b4⟩ ⟨fr.b1, fr.b3, fr.b5⟩] := by
    simp only [BinaryFrame.opening, BinaryFrame.reader, e0, e1, e2, e3, e4, e5]
  refine ⟨?_, ?_, ?_, ?_, ?_⟩
  · rw [h1]; simp only [BinaryFrame.reader, e0, e1, e2, e3, e4, e5]
  · rw [h1]; rfl
  · rw [h1]; rfl
  · rcases h2 with ⟨h, _⟩ | ⟨recs, fin, h, hfin⟩
    · exact Or.inl h
    · exact Or.inr ⟨recs, fin, by rw [h, hop], hfin⟩
  · intro hn hknown
    rcases h2 with ⟨_, h | h⟩ | ⟨recs, fin, h, _⟩
    · exact absurd hn h
    · rw [resolveFields_known args hknown] at h; cases h
    · rw [h, hop]; simp

/-- C22 at a frame with the six codes equal to 1 and the bounds
`0 10 0 10 0 10`, read with the field-spec `id x`. -/
theorem C22_binary_header_witness :
    binaryFrameIdX.triclinic = 0 ∧
    (ReadBinaryFrame ["id".toList, "x".toList] LAMMPSReader.init
      (some binaryFrameIdX)).reader.boundaries =
      ⟨(letterOfCode binaryFrameIdX.c0, letterOfCode binaryFrameIdX.c1),
       (letterOfCode binaryFrameIdX.c2, letterOfCode binaryFrameIdX.c3),
       (letterOfCode binaryFrameIdX.c4, letterOfCode binaryFrameIdX.c5)⟩ ∧
    letterOfCode binaryFrameIdX.c0 = 'f' :=
  ⟨by decide,
   (C22_binary_header_boundaries_and_box ["id".toList, "x".toList] LAMMPSReader.init
      binaryFrameIdX (by decide) (by decide)).1,
   by decide⟩

/-- C23 (counterexample): a binary frame with timestep id `2 ^ 32 + 5` and
atom count `2 ^ 32 + 1` leaves the reader with timestep id 5 and atom count
1. -/
theorem C23_counterexample_high_bits_lost :
    binaryFrameWideHeader.tstep = 2 ^ 32 + 5 ∧
    binaryFrameWideHeader.natoms = 2 ^ 32 + 1 ∧
    (ReadBinaryFrame ["id".toList, "x".toList] LAMMPSReader.init
      (some binaryFrameWideHeader)).reader.last_tstep = 5 ∧
    (ReadBinaryFrame ["id".toList, "x".toList] LAMMPSReader.init
      (some binaryFrameWideHeader)).reader.n_atoms = 1 := by
  decide!

/-- C23 (amended): after the header of a binary frame is decoded the reader
holds the timestep id and the atom count narrowed to a 32-bit `int`: the
value in `[-2 ^ 31, 2 ^ 31)` congruent to the header word modulo `2 ^ 32`,
which is the header word itself exactly when that word is in this range. -/
theorem C23_binary_header_counts_narrowed (args : List Str) (rd : LAMMPSReader)
    (fr : BinaryFrame) :
    (ReadBinaryFrame args rd (some fr)).reader.last_tstep = wrap32 fr.tstep ∧
    (ReadBinaryFrame args rd (some fr)).reader.n_atoms = wrap32 fr.natoms ∧
    (∀ i : Int, (-2 ^ 31 ≤ wrap32 i ∧ wrap32 i < 2 ^ 31) ∧ (wrap32 i - i) % 2 ^ 32 = 0 ∧
      (wrap32 i = i ↔ -2 ^ 31 ≤ i ∧ i < 2 ^ 31)) :=
  ⟨(ReadBinaryFrame_counts args rd fr).1, (ReadBinaryFrame_counts args rd fr).2,
   fun i => ⟨wrap32_range i, wrap32_congruent i, wrap32_eq_iff i⟩⟩

/-- C23 (amended) at a frame with timestep id 0 and atom count 1. -/
theorem C23_binary_header_counts_witness :
    (ReadBinaryFrame ["id".toList, "x".toList] LAMMPSReader.init
      (some binaryFrameIdX)).reader.last_tstep = wrap32 binaryFrameIdX.tstep ∧
    wrap32 binaryFrameIdX.tstep = 0 ∧ wrap32 binaryFrameIdX.natoms = 1 :=
  ⟨(C23_binary_header_counts_narrowed ["id".toList, "x".toList] LAMMPSReader.init
      binaryFrameIdX).1, by decide, by decide⟩

/-- C24 (code defect): in text mode, with both `z` sides periodic, the scaled
value `3/2` of the field `zs`, at most one length outside `[0, 1)`, is left
at `3/2` by the periodic-boundary chain: it does not land in `[0, 1)`. -/
theorem C24_text_zs_upper_shift_missing :
    periodicBox10.boundaries.e2 = ('p', 'p') ∧
    ((0 : ℚ) - (1 - 0) ≤ 3 / 2 ∧ (3 / 2 : ℚ) < 1 + (1 - 0)) ∧
    (updateAtomData atoiDec atofDec AtomData.zero "zs".toList "1.5".toList).map
        (fun ad => (checkPBC periodicBox10 "zs".toList ad).zs) = some (3 / 2) ∧
    ¬ ((3 / 2 : ℚ) < 1) := by
  decide!

/-- C25 (code defect): an empty line, a line of spaces only and the line
`ITEM:` make `ReadFrame` index past the token list (token 0, token 0, token
1); so does an empty line after the atom lines of a frame. -/
theorem C25_text_token_access_out_of_range :
    explode [] = [] ∧ explode "   ".toList = [] ∧
    explode "ITEM:".toList = ["ITEM:".toList] ∧
    (ReadFrame atoiDec atofDec "id".toList LAMMPSReader.init ⟨[[]], false⟩).map
      Run.result = some .undefined ∧
    (ReadFrame atoiDec atofDec "id".toList LAMMPSReader.init ⟨["   ".toList], false⟩).map
      Run.result = some .undefined ∧
    (ReadFrame atoiDec atofDec "id".toList LAMMPSReader.init ⟨["ITEM:".toList], false⟩).map
      Run.result = some .undefined ∧
    (ReadFrame atoiDec atofDec "id x".toList LAMMPSReader.init
      ⟨textFrameA.lines ++ [[]], false⟩).map Run.result = some .undefined := by
  decide!

/-- C26: in `ReadBinaryFrame`, once the field-count check and the identifier
resolution have passed with at least one field per atom, the running field
index at every value of every processor block is below the field count and
names a resolved field other than `NULL_PROPERTY`; the block loops run to
their end, so the call is left neither through the out-of-range access nor
through the `NULL_PROPERTY` case. -/
theorem C26_binary_field_index_in_bounds (args : List Str) (rd : LAMMPSReader)
    (fr : BinaryFrame) (fields : List property)
    (hcount : (fr.nfields % 2 ^ 32).toNat = args.length) (hpos : 1 ≤ args.length)
    (hres : resolveFields args = some fields) :
    fields.length = args.length ∧
    (∀ blk ∈ fr.blocks, ∀ i ∈ fieldTrace args.length blk 0,
      i < args.length ∧ ∃ f, fields[i]? = some f ∧ f ≠ property.NULL_PROPERTY) ∧
    (∃ (events : List Event) (atoms_total : Int),
      readBlocks (fr.reader rd) fields args.length fr.blocks (fr.opening rd) 0 =
        .running events atoms_total) ∧
    (ReadBinaryFrame args rd (some fr)).result ≠ .undefined := by
  obtain ⟨hf, hnn⟩ := resolveFields_spec args fields hres
  have hlen : fields.length = args.length := by rw [hf, List.length_map]
  obtain ⟨recs, hrun, _⟩ := readBlocks_running (fr.reader rd) fields args.length hlen
    hpos hnn fr.blocks (fr.opening rd) 0 (by decide)
  refine ⟨hlen, ?_, ⟨_, _, hrun⟩, ?_⟩
  · intro blk _ i hi
    have hlt := fieldTrace_lt args.length blk 0 hpos i hi
    have hlt2 : i < fields.length := by rw [hlen]; exact hlt
    exact ⟨hlt, fields[i], List.getElem?_eq_getElem hlt2, hnn _ (List.getElem_mem hlt2)⟩
  · by_cases htri : fr.triclinic = 0
    · simp only [ReadBinaryFrame, htri, ne_eq, not_true_eq_false, ↓reduceIte, hcount, hres,
        BinaryFrame.reader, BinaryFrame.opening] at hrun ⊢
      rw [hrun]
      simp only
      split_ifs <;> simp
    · simp only [ReadBinaryFrame, htri, ne_eq, not_false_eq_true, ↓reduceIte]
      simp

/-- C26 at the frame of one atom with the fields `id x`. -/
theorem C26_binary_field_index_witness :
    (binaryFrameIdX.nfields % 2 ^ 32).toNat = ["id".toList, "x".toList].length ∧
    resolveFields ["id".toList, "x".toList] = some [property.ID, property.X] ∧
    fieldTrace 2 [7, 3] 0 = [0, 1] ∧
    (ReadBinaryFrame ["id".toList, "x".toList] LAMMPSReader.init
      (some binaryFrameIdX)).result ≠ .undefined :=
  ⟨by decide, by decide, by decide,
   (C26_binary_field_index_in_bounds ["id".toList, "x".toList] LAMMPSReader.init
      binaryFrameIdX [property.ID, property.X] (by decide) (by decide) (by decide)).2.2.2⟩

/-- C27: the loop of `explode` returns on every string; the result is the
list of maximal non-empty space-free substrings in order of occurrence; every
token is non-empty and has no space; a space splits the string, so that
leading, trailing and repeated spaces give no token; and the tokens of a list
of tokens joined by single spaces are that list. -/
theorem C27_explode_maximal_tokens :
    (∀ s : Str, (explodeLoop (s.length + 1) s []).isSome) ∧
    (∀ s : Str, explode s = maximalTokens s) ∧
    (∀ s : Str, ∀ t ∈ explode s, isToken t) ∧
    (∀ a b : Str, explode (a ++ ' ' :: b) = explode a ++ explode b) ∧
    (∀ s : Str, explode (' ' :: s) = explode s ∧ explode (s ++ [' ']) = explode s) ∧
    (∀ ts : List Str, (∀ t ∈ ts, isToken t) → explode (joinSp ts) = ts) := by
  have hsplit : ∀ a b : Str, explode (a ++ ' ' :: b) = explode a ++ explode b := by
    intro a b
    simp only [explode_eq_maximalTokens, maximalTokens_append_space]
  have hnil : explode [] = [] := by decide
  refine ⟨fun s => explodeLoop_isSome _ s [] (Nat.lt_succ_self _), explode_eq_maximalTokens,
    explode_tokens, hsplit, ?_, explode_joinSp⟩
  intro s
  constructor
  · have := hsplit [] s
    rw [List.nil_append, hnil, List.nil_append] at this
    exact this
  · have := hsplit s []
    rw [hnil, List.append_nil] at this
    exact this

end LAMMPSReaderNS
